import Mathlib

/-!
# FileZilla updater (`src/interface/updater.cpp`, `updater.h`)

A shallow embedding of the update-check state machine of `CUpdater`:
manifest filtering and parsing, build selection, the decision taken after a
parse, checksum verification, the placement of a finished download, the
entry points that start a check, the handling of engine notifications and
the subscriber registry.

Conventions of the embedding

* `std::wstring` is `List Char`; byte sequences are `List Nat`.
* `int64_t` values are `Int`; the one place where the source converts an
  unsigned 64-bit value into a signed one goes through `toInt64`.
* Everything the source obtains from outside the two files (build identity,
  options, libfilezilla's cryptography, date parsing, the URL parser) is a
  field of `Env`; the file system is `FileSys`; the engine is `Engine`.
  Plain string routines of libfilezilla (`strtok`, `trim`, `hex_encode`, ...)
  are written out.
* `log_` is text that no modelled decision reads; it is not a field of the
  state. `Run`, which assigns it, returns the assigned text as a third result.
* The clock is a parameter: `now` is `fz::datetime::now()` in milliseconds.
* A subscriber is named by a number standing for its address; the calls
  `UpdaterStateChanged` made to subscribers are recorded in `published`.
* Assertions (`wxASSERT`) are not executed by the embedding. The one at the
  head of `GetTempFile` is the predicate `GetTempFile_assert`.
* File-system changes (`remove_file`, `wxRenameFile`) are recorded in the
  order they are issued; within one call the source makes them after its
  last read of the file system.
-/

namespace Updater

/-! # The embedding -/

/-! ## Strings -/

/-- The text `s` as a wide string. -/
abbrev w (s : String) : List Char := s.toList

/-- Line feed. -/
def LF : Char := Char.ofNat 10

/-- The delimiter set `L" \t\r\n"` handed to `fz::strtok` in `ParseData`. -/
def delims : List Char := [Char.ofNat 32, Char.ofNat 9, Char.ofNat 13, Char.ofNat 10]

/-- Worker of `strtok`: `cur` is the token being collected, newest character first. -/
def strtokAux (ds : List Char) : List Char → List Char → List (List Char)
  | [], cur => if cur = [] then [] else [cur.reverse]
  | c :: cs, cur =>
    if c ∈ ds then
      if cur = [] then strtokAux ds cs [] else cur.reverse :: strtokAux ds cs []
    else strtokAux ds cs (c :: cur)

/-- The library call `fz::strtok(s, delims)` with its default `ignore_empty = true`:
the maximal non-empty runs of characters that are not delimiters, in order. -/
def strtok (s ds : List Char) : List (List Char) := strtokAux ds s []

/-- The library call `fz::trim(s)` with its default character set `" \r\n\t"`, both ends. -/
def trim (s : List Char) : List Char :=
  ((s.dropWhile (fun c => decide (c ∈ delims))).reverse.dropWhile
    (fun c => decide (c ∈ delims))).reverse

/-- ASCII lower-casing of one character, as in `fz::tolower_ascii`. -/
def tolower_ascii (c : Char) : Char :=
  if 65 ≤ c.toNat ∧ c.toNat ≤ 90 then Char.ofNat (c.toNat + 32) else c

/-- The library call `fz::str_tolower_ascii`. -/
def str_tolower_ascii (s : List Char) : List Char := s.map tolower_ascii

/-- The library call `fz::equal_insensitive_ascii`. -/
def equal_insensitive_ascii (a b : List Char) : Bool :=
  decide (str_tolower_ascii a = str_tolower_ascii b)

/-- Split at the first line feed: `(line, some rest)` when `s.find(LF)` hits,
`(s, none)` when it returns `npos`. -/
def splitLine : List Char → List Char × Option (List Char)
  | [] => ([], none)
  | c :: cs =>
    if c = LF then ([], some cs)
    else ((c :: (splitLine cs).1), (splitLine cs).2)

/-- Text after the last occurrence of `c`, that is `s.substr(s.rfind(c) + 1)`;
`none` when `rfind` returns `npos`. -/
def afterLast (c : Char) : List Char → Option (List Char)
  | [] => none
  | x :: xs =>
    match afterLast c xs with
    | some r => some r
    | none => if x = c then some xs else none

/-- Decimal rendering of a `%d` argument. -/
def fmt_d (i : Int) : List Char := (toString i).toList

/-- One hexadecimal digit, lower case, as in `fz::int_to_hex_char`. -/
def int_to_hex_char (d : Nat) : Char :=
  if d > 9 then Char.ofNat (97 + d - 10) else Char.ofNat (48 + d)

/-- The library call `fz::hex_encode<std::wstring>` (lower-case digits, two per byte). -/
def hex_encode (data : List Nat) : List Char :=
  data.flatMap (fun b => [int_to_hex_char ((b % 256) / 16), int_to_hex_char ((b % 256) % 16)])

/-- Value of one hexadecimal digit, `none` for any other character (`fz::hex_char_to_int`). -/
def hex_char_to_int (c : Char) : Option Nat :=
  let n := c.toNat
  if 97 ≤ n ∧ n ≤ 102 then some (n - 97 + 10)
  else if 65 ≤ n ∧ n ≤ 70 then some (n - 65 + 10)
  else if 48 ≤ n ∧ n ≤ 57 then some (n - 48)
  else none

/-- Pairwise decoding used by `hex_decode`; `none` on a bad digit or an odd length. -/
def hex_pairs : List Char → Option (List Nat)
  | [] => some []
  | [_] => none
  | a :: b :: rest =>
    match hex_char_to_int a, hex_char_to_int b, hex_pairs rest with
    | some h, some l, some r => some ((h * 16 + l) :: r)
    | _, _, _ => none

/-- The library call `fz::hex_decode`: the decoded bytes, empty on malformed input. -/
def hex_decode (s : List Char) : List Nat := (hex_pairs s).getD []

/-- Conversion of an unsigned 64-bit value to `int64_t` (the assignment `b.size_ = size`). -/
def toInt64 (n : Nat) : Int :=
  if n % 2 ^ 64 < 2 ^ 63 then ((n % 2 ^ 64 : Nat) : Int) else ((n % 2 ^ 64 : Nat) : Int) - 2 ^ 64

/-- Conversion of a wide character to `uint8_t` (inserting a `wstring` into a byte vector). -/
def toByte (c : Char) : Nat := c.toNat % 256

/-! ## Data model (`updater.h`) -/

/-- The C++ aggregate `struct build`. -/
structure build where
  url_ : List Char := []
  version_ : List Char := []
  hash_ : List Char := []
  size_ : Int := -1
deriving DecidableEq

/-- Assignment `m[k] = v` on a `std::map<resource_type, std::wstring>`, kept sorted by key. -/
def map_assign : List (Int × List Char) → Int → List Char → List (Int × List Char)
  | [], k, v => [(k, v)]
  | (k1, v1) :: rest, k, v =>
    if k < k1 then (k, v) :: (k1, v1) :: rest
    else if k = k1 then (k, v) :: rest
    else (k1, v1) :: map_assign rest k v

/-- The C++ aggregate `struct version_information`. -/
structure version_information where
  stable_ : build := {}
  beta_ : build := {}
  nightly_ : build := {}
  available_ : build := {}
  changelog_ : List Char := []
  resources_ : List (Int × List Char) := []
  eol_ : Bool := false
deriving DecidableEq

/-- The C++ enumeration `enum class UpdaterState`. -/
inductive UpdaterState
  | idle
  | failed
  | checking
  | newversion
  | newversion_downloading
  | newversion_ready
  | newversion_stale
  | eol
deriving DecidableEq

/-- Platforms told apart by the preprocessor (`__WXMSW__`, `__WXMAC__`). -/
inductive Platform
  | msw
  | mac
  | other
deriving DecidableEq

/-- Protocols a parsed URL can carry; the updater accepts `HTTP` and `HTTPS` only. -/
inductive ServerProtocol
  | HTTP
  | HTTPS
  | unsupported
deriving DecidableEq

/-- What `Site::ParseUrl` yields for a URL the updater can use. -/
structure ParsedUrl where
  protocol : ServerProtocol
  host : List Char
  path : List Char
  file : List Char
deriving DecidableEq

/-- Everything `updater.cpp` reads from outside: build identity (`CBuildInfo`,
`GetFileZillaVersion`), options (`COptions`), platform, and the library
routines whose results the code only passes on. -/
structure Env where
  /-- Running version string `GetFileZillaVersion()`. -/
  GetFileZillaVersion : List Char
  /-- Version encoding `CBuildInfo::ConvertToVersionNumber`. -/
  ConvertToVersionNumber : List Char → Int
  /-- Build kind `CBuildInfo::GetBuildType()`. -/
  GetBuildType : List Char
  /-- Build date `CBuildInfo::GetBuildDate()`, `none` for an empty `fz::datetime`. -/
  GetBuildDate : Option Int
  /-- Constructor `fz::datetime(str, utc)`, `none` when the result is empty. -/
  datetime : List Char → Option Int
  /-- Option `OPTION_UPDATECHECK_CHECKBETA`. -/
  checkbeta : Int
  /-- Compile-time platform. -/
  platform : Platform
  /-- Host identifier `CBuildInfo::GetHostname()`. -/
  GetHostname : List Char
  /-- Result of `wxPlatformInfo::Get().GetOSMajorVersion()`. -/
  osMajor : Int
  /-- Result of `wxPlatformInfo::Get().GetOSMinorVersion()`. -/
  osMinor : Int
  /-- Call `fz::to_utf8`. -/
  to_utf8 : List Char → List Nat
  /-- Call `fz::base64_decode(fz::to_utf8(·))`. -/
  base64_decode : List Char → List Nat
  /-- Call `fz::verify(message, signature, pub)` with the fixed public key. -/
  verify : List Nat → List Nat → Bool
  /-- Call `fz::to_integral<uint64_t>`; the value is used modulo `2^64`. -/
  to_integral_u64 : List Char → Nat
  /-- Call `fz::to_integral<resource_type>`. -/
  to_integral_resource : List Char → Int
  /-- Digest `fz::hash_accumulator(sha512)` computes over the bytes fed to it. -/
  sha512 : List Nat → List Nat
  /-- Directory `wxFileName::GetTempDir()`. -/
  GetTempDir : List Char
  /-- Character `wxFileName::GetPathSeparator()`. -/
  GetPathSeparator : Char
  /-- Directory `GetDownloadDir().GetPath()`. -/
  GetDownloadDir : List Char
  /-- Parser `Site::ParseUrl`, `none` when it fails. -/
  ParseUrl : List Char → Option ParsedUrl
  /-- Compile-time switch `FZ_AUTOUPDATECHECK`. -/
  FZ_AUTOUPDATECHECK : Bool
  /-- Option `OPTION_DEFAULT_DISABLEUPDATECHECK`. -/
  disable_updatecheck : Int
  /-- Option `OPTION_UPDATECHECK`. -/
  updatecheck : Int
  /-- Option `OPTION_UPDATECHECK_INTERVAL`, in days. -/
  updatecheck_interval : Int
  /-- Result of `CBuildInfo::IsUnstable()`. -/
  IsUnstable : Bool
  /-- Rendering `t.format(L"%Y-%m-%d %H:%M:%S", fz::datetime::utc)` of a time in milliseconds. -/
  format_utc : Int → List Char
  /-- Value of `now - GetBuildDate()` in milliseconds when the build date is empty. -/
  undated_age : Int → Int
  /-- Text `sprintf(_("Started update check on %s\n"), t.format(..., local))`. -/
  tr_started : Int → List Char
  /-- Text `sprintf(_("Own build type: %s\n"), build)`. -/
  tr_own_build_type : List Char → List Char
  /-- Translation `_("custom")`. -/
  tr_custom : List Char
  /-- Capabilities `CBuildInfo::GetCPUCaps(',')`. -/
  GetCPUCaps : List Char
  /-- Query parameters added on Windows (`osarch` and the registry values). -/
  msw_package_info : List (List Char × List Nat)
  /-- Environment variable `FZUPDATETEST`. -/
  FZUPDATETEST : List Char
  /-- Rendering `fz::query_string::to_string(true)` of the given parameters. -/
  query_string : List (List Char × List Nat) → List Char
  /-- Bytes `fz::base64_decode(updater_cert)` of the pinned certificate. -/
  updater_root : List Nat

/-- The method `CUpdater::UpdatableBuild`. -/
def UpdatableBuild (env : Env) : Bool :=
  decide (env.GetBuildType = w "nightly") || decide (env.GetBuildType = w "official")

/-- The method `version_information::update_available`; `checkbeta` is the value of
`OPTION_UPDATECHECK_CHECKBETA`. -/
def update_available (checkbeta : Int) (vi : version_information) : version_information :=
  if vi.nightly_.url_ ≠ [] ∧ checkbeta = 2 then { vi with available_ := vi.nightly_ }
  else if vi.beta_.version_ ≠ [] ∧ checkbeta ≠ 0 then { vi with available_ := vi.beta_ }
  else if vi.stable_.version_ ≠ [] then { vi with available_ := vi.stable_ }
  else { vi with available_ := {} }

/-- The method `CUpdater::GetFilename`. -/
def GetFilename (env : Env) (url : List Char) : List Char :=
  let ret := (afterLast (Char.ofNat 47) url).getD []
  let ret := ret.takeWhile (fun c => !(decide (c = Char.ofNat 63) || decide (c = Char.ofNat 35)))
  if env.platform = Platform.msw then
    ret.map (fun c => if c = Char.ofNat 58 then Char.ofNat 95 else c)
  else ret

/-! ## Manifest parsing (`CUpdater::ParseData`) -/

/-- The token test `token.substr(0, 4) == "sig:"`. -/
def is_sig_token (token : List Char) : Bool := decide (token.take 4 = w "sig:")

/-- The message the end-of-life signature is checked against:
`host + '|' + version + '|' + sprintf("%d.%d", major, minor)`, host `"unknown"` when empty. -/
def eol_data (env : Env) : List Nat :=
  let host := env.to_utf8 env.GetHostname
  let host := if host = [] then (w "unknown").map toByte else host
  host ++ [124] ++ env.to_utf8 env.GetFileZillaVersion ++ [124]
    ++ (fmt_d env.osMajor ++ w "." ++ fmt_d env.osMinor).map toByte

/-- The signature loop of the `eol` branch over `tokens[1..]`: every `sig:` token with a
non-empty decoded signature overwrites `valid_signature`. -/
def eol_valid_signature (env : Env) (tokens : List (List Char)) : Bool :=
  (tokens.drop 1).foldl
    (fun valid token =>
      if is_sig_token token then
        let raw_sig := env.base64_decode (token.drop 4)
        if raw_sig ≠ [] then env.verify (eol_data env) raw_sig else valid
      else valid)
    false

/-- The message a build signature is checked against: the decoded hash, a zero byte,
then the characters of the version or date. -/
def signed_message (hash versionOrDate : List Char) : List Nat :=
  hex_decode hash ++ [0] ++ versionOrDate.map toByte

/-- The signature loop of a build line over `tokens[6..]`: every `sig:` token overwrites
`valid_signature` (the guard `!raw_sig.empty() || !raw_hash.empty()` is kept as written). -/
def build_valid_signature (env : Env) (tokens : List (List Char))
    (hash versionOrDate : List Char) : Bool :=
  (tokens.drop 6).foldl
    (fun valid token =>
      if is_sig_token token then
        let raw_sig := env.base64_decode (token.drop 4)
        let raw_hash := signed_message hash versionOrDate
        if raw_sig ≠ [] ∨ raw_hash ≠ [] then env.verify raw_hash raw_sig else valid
      else valid)
    false

/-- The hash check `(c < 'a' || c > 'f') && (c < '0' || c > '9')` over all characters. -/
def valid_hash (hash : List Char) : Bool :=
  hash.all (fun c => !((decide (c.toNat < 97) || decide (c.toNat > 102))
    && (decide (c.toNat < 48) || decide (c.toNat > 57))))

/-- The value `fz::to_integral<uint64_t>(sizestr)` as an unsigned 64-bit number. -/
def parsed_size (env : Env) (sizestr : List Char) : Nat := env.to_integral_u64 sizestr % 2 ^ 64

/-- Lines 701-774 of `ParseData`: the build a line describes once the type and version
gate has passed; `none` stands for a `continue` (the line is dropped). -/
def parse_build (env : Env) (tokens : List (List Char)) (versionOrDate : List Char) :
    Option build :=
  let b : build := { version_ := versionOrDate }
  if tokens.length < 6 then some b
  else if UpdatableBuild env then
    let url := tokens.getD 2 []
    let sizestr := tokens.getD 3 []
    let hash_algo := tokens.getD 4 []
    let hash := tokens.getD 5 []
    if GetFilename env url = [] then none
    else if equal_insensitive_ascii hash_algo (w "sha512") = false then none
    else
      let size := parsed_size env sizestr
      if size = 0 then none
      else if build_valid_signature env tokens hash versionOrDate = false then none
      else
        let b : build :=
          { b with url_ := url, size_ := toInt64 size, hash_ := str_tolower_ascii hash }
        if valid_hash b.hash_ = false then none else some b
  else some b

/-- Lines 776-784 of `ParseData`: the channel assignment. -/
def store_build (env : Env) (type : List Char) (b : build) (vi : version_information) :
    version_information :=
  if type = w "nightly" ∧ UpdatableBuild env = true then { vi with nightly_ := b }
  else if type = w "release" then { vi with stable_ := b }
  else if type = w "beta" then { vi with beta_ := b }
  else vi

/-- Lines 669-699 of `ParseData`: whether the line is a build line that passes its
date or version gate. -/
def passes_gate (env : Env) (type versionOrDate : List Char) : Bool :=
  if type = w "nightly" then
    match env.datetime versionOrDate with
    | none => false
    | some nightlyDate =>
      match env.GetBuildDate with
      | none => false
      | some buildDate => !decide (nightlyDate ≤ buildDate)
  else if type = w "release" ∨ type = w "beta" then
    !decide (env.ConvertToVersionNumber versionOrDate
      ≤ env.ConvertToVersionNumber env.GetFileZillaVersion)
  else false

/-- One pass through the body of the `while` loop of `ParseData` for a line whose token
list is not empty (lines 611-784). -/
def parse_line (env : Env) (tokens : List (List Char)) (vi : version_information) :
    version_information :=
  let type := tokens.getD 0 []
  if tokens.length < 2 then vi
  else if type = w "resources" then
    if UpdatableBuild env then
      { vi with resources_ := map_assign vi.resources_ 0 (tokens.getD 1 []) }
    else vi
  else if type = w "resource" then
    if 3 ≤ tokens.length then
      let resource := (tokens.drop 2).foldl
        (fun r t => (if r ≠ [] then r ++ [Char.ofNat 32] else r) ++ t) []
      let kind := env.to_integral_resource (tokens.getD 1 [])
      { vi with resources_ := map_assign vi.resources_ kind resource }
    else vi
  else if type = w "eol" ∧ env.platform ≠ Platform.other then
    -- the branch compiled on `__WXMSW__` and `__WXMAC__`; afterwards the line falls
    -- through to the type test, which skips it
    if eol_valid_signature env tokens then { vi with eol_ := true } else vi
  else
    let versionOrDate := tokens.getD 1 []
    if passes_gate env type versionOrDate then
      match parse_build env tokens versionOrDate with
      | none => vi
      | some b => store_build env type b vi
    else vi

/-- The `while` loop of `ParseData` (lines 587-785). Each round removes at least one
character from the text, so `fuel = raw.length` rounds always suffice. -/
def parse_loop (env : Env) : Nat → List Char → version_information → version_information
  | 0, _, vi => vi
  | fuel + 1, raw, vi =>
    if raw = [] then vi
    else
      let line := (splitLine raw).1
      let rest := ((splitLine raw).2).getD []
      let tokens := strtok line delims
      if tokens = [] then { vi with changelog_ := trim rest }
      else parse_loop env fuel rest (parse_line env tokens vi)

/-- The method `CUpdater::ParseData`, as a function from the raw manifest text to the
`version_information_` it leaves behind. -/
def ParseData (env : Env) (raw : List Char) : version_information :=
  update_available env.checkbeta (parse_loop env raw.length raw {})

/-! ## File system and checksum verification -/

/-- What opening a file for reading and reading it to the end delivers. -/
inductive FileRead
  | cannot_open
  | read_error
  | data (bytes : List Nat)
deriving DecidableEq

/-- The file system as the updater observes it during one call. The fields are
independent observations: nothing ties `get_size` to the bytes a read delivers. -/
structure FileSys where
  /-- Whether `fz::local_filesys::get_file_type(p)` differs from `unknown`. -/
  get_file_type_known : List Char → Bool
  /-- Result of `fz::local_filesys::get_size(p)`, negative when it cannot be obtained. -/
  get_size : List Char → Int
  /-- Outcome of `fz::file f(p, reading)` followed by the read loop. -/
  file : List Char → FileRead
  /-- Whether `wxRenameFile(src, dst, false)` succeeds. -/
  rename_ok : List Char → List Char → Bool

/-- Accesses to a file that `VerifyChecksum` makes, in order. -/
inductive FsAccess
  | get_size (p : List Char)
  | open_file (p : List Char)
  | read (p : List Char)
deriving DecidableEq

/-- The read loop of `VerifyChecksum`: each `f.read(buffer, 65536)` hands over at most
65536 of the remaining bytes, which `acc.update` appends; a read of 0 bytes ends the loop. -/
def read_loop : Nat → List Nat → List Nat → List Nat
  | 0, _, acc => acc
  | fuel + 1, rest, acc =>
    if rest = [] then acc
    else read_loop fuel (rest.drop 65536) (acc ++ rest.take 65536)

/-- The method `CUpdater::VerifyChecksum` together with the file accesses it made. -/
def VerifyChecksumT (env : Env) (fs : FileSys) (file : List Char) (size : Int)
    (checksum : List Char) : Bool × List FsAccess :=
  if file = [] ∨ checksum = [] then (false, [])
  else
    let filesize := fs.get_size file
    if filesize < 0 then (false, [FsAccess.get_size file])
    else if filesize ≠ size then (false, [FsAccess.get_size file])
    else
      match fs.file file with
      | FileRead.cannot_open => (false, [FsAccess.get_size file, FsAccess.open_file file])
      | FileRead.read_error =>
        (false, [FsAccess.get_size file, FsAccess.open_file file, FsAccess.read file])
      | FileRead.data bytes =>
        let digest := hex_encode (env.sha512 (read_loop bytes.length bytes []))
        (decide (digest = checksum),
          [FsAccess.get_size file, FsAccess.open_file file, FsAccess.read file])

/-- The method `CUpdater::VerifyChecksum`. -/
def VerifyChecksum (env : Env) (fs : FileSys) (file : List Char) (size : Int)
    (checksum : List Char) : Bool :=
  (VerifyChecksumT env fs file size checksum).1

/-! ## Staging paths -/

/-- The method `CUpdater::GetTempFile`, from the available build's hash. -/
def GetTempFile (env : Env) (vi : version_information) : List Char :=
  let ret := env.GetTempDir
  if ret ≠ [] then
    let ret := if ret.getLast? ≠ some env.GetPathSeparator then ret ++ [env.GetPathSeparator]
      else ret
    ret ++ (w "fzupdate_" ++ vi.available_.hash_.take 16 ++ w ".tmp")
  else ret

/-- Index of the last occurrence of `c` (`s.rfind(c)`), `none` for `npos`. -/
def rfind (c : Char) (s : List Char) : Option Nat :=
  (afterLast c s).map (fun r => s.length - r.length - 1)

/-- The insertion point `pos` computed inside the loop of `GetLocalFile`. -/
def ext_pos (fn : List Char) : Option Nat :=
  if fn.length > 8 ∧ str_tolower_ascii (fn.drop (fn.length - 8)) = w ".tar.bz2" then
    some (fn.length - 8)
  else rfind (Char.ofNat 46) fn

/-- The candidate path built for counter value `i` inside the loop of `GetLocalFile`. -/
def local_candidate (dl fn : List Char) (i : Nat) : List Char :=
  match ext_pos fn with
  | none => dl ++ fn ++ (w " (" ++ fmt_d i ++ w ")")
  | some pos => dl ++ fn.take pos ++ (w " (" ++ fmt_d i ++ w ")") ++ fn.drop pos

/-- The loop condition of `GetLocalFile`. -/
def local_blocked (env : Env) (fs : FileSys) (b : build) (allow_existing : Bool)
    (f : List Char) : Bool :=
  fs.get_file_type_known f && (!allow_existing || !VerifyChecksum env fs f b.size_ b.hash_)

/-- The `while` loop of `GetLocalFile`; `i` is the counter, `f` the current candidate.
Started with `i = 1` it makes at most 99 tests, so 99 units of fuel are never used up. -/
def GetLocalFile_loop (env : Env) (fs : FileSys) (b : build) (allow_existing : Bool)
    (dl fn : List Char) : Nat → Nat → List Char → List Char
  | 0, _, _ => []
  | fuel + 1, i, f =>
    if local_blocked env fs b allow_existing f then
      if i + 1 > 99 then []
      else GetLocalFile_loop env fs b allow_existing dl fn fuel (i + 1)
        (local_candidate dl fn (i + 1))
    else f

/-- The method `CUpdater::GetLocalFile`. -/
def GetLocalFile (env : Env) (fs : FileSys) (b : build) (allow_existing : Bool) : List Char :=
  let fn := GetFilename env b.url_
  let dl := env.GetDownloadDir
  GetLocalFile_loop env fs b allow_existing dl fn 99 1 (dl ++ fn)

/-! ## Engine commands and the coordinator -/

/-- Reply code `FZ_REPLY_OK` of the engine interface (`include/commands.h`). -/
def FZ_REPLY_OK : Nat := 0

/-- Reply code `FZ_REPLY_WOULDBLOCK` of the engine interface. -/
def FZ_REPLY_WOULDBLOCK : Nat := 1

/-- Reply code `FZ_REPLY_ERROR` of the engine interface. -/
def FZ_REPLY_ERROR : Nat := 2

/-- The commands the updater queues. -/
inductive CCommand
  | disconnect
  | connect (protocol : ServerProtocol) (host : List Char)
  | transfer (local_file : List Char) (remote_path : List Char) (remote_file : List Char)
  | http_request (uri : List Char)
deriving DecidableEq

/-- The engine: `Execute n c` is the reply of the call `engine_->Execute(c)` that is
the `n`-th one made (counting from 0), so that any sequence of replies can be described. -/
structure Engine where
  Execute : Nat → CCommand → Nat

/-- What the updater answers to an asynchronous request of the engine. -/
inductive AsyncReply
  | fileexists_resume
  | certificate (trusted : Bool)
  | other
deriving DecidableEq

/-- Changes the updater makes to the file system. -/
inductive FsOp
  | remove_file (p : List Char)
  | rename (src dst : List Char) (succeeded : Bool)
deriving DecidableEq

/-- The members of `CUpdater` that the modelled methods use, together with the options the
object writes (which it also reads back) and records of what it did to its surroundings. -/
structure CUpdater where
  state_ : UpdaterState := UpdaterState.idle
  local_file_ : List Char := []
  output_buffer_ : List Nat := []
  m_use_internal_rootcert : Bool := false
  raw_version_information_ : List Char := []
  version_information_ : version_information := {}
  pending_commands_ : List CCommand := []
  manual_ : Bool := false
  /-- Value last written to `OPTION_UPDATECHECK_NEWVERSION`. -/
  option_newversion : List Char := []
  /-- Number of `Execute` calls made so far. -/
  engine_calls : Nat := 0
  /-- File-system changes issued so far, oldest first. -/
  fs_ops : List FsOp := []
  /-- The member `handlers_`: handlers by identity, `none` for a null slot. -/
  handlers_ : List (Option Nat) := []
  /-- Current value of `OPTION_UPDATECHECK_LASTDATE`. -/
  option_lastdate : List Char := []
  /-- Current value of `OPTION_UPDATECHECK_LASTVERSION`. -/
  option_lastversion : List Char := []
  /-- Calls `handler->UpdaterStateChanged(s, b)` made so far, oldest first. -/
  published : List (Nat × UpdaterState × build) := []
  /-- Replies handed to `engine_->SetAsyncRequestReply` so far, oldest first. -/
  async_replies : List AsyncReply := []
deriving DecidableEq

/-- The method `CUpdater::DownloadedFile`. -/
def DownloadedFile (u : CUpdater) : List Char :=
  if u.state_ = UpdaterState.newversion_ready then u.local_file_ else []

/-- The method `CUpdater::ContinueDownload` on the queue and the call counter. -/
def ContinueDownload_queue (eng : Engine) : Nat → List CCommand → Nat × List CCommand × Nat
  | calls, [] => (FZ_REPLY_OK, [], calls)
  | calls, c :: cs =>
    if eng.Execute calls c = FZ_REPLY_OK then ContinueDownload_queue eng (calls + 1) cs
    else (eng.Execute calls c, c :: cs, calls + 1)

/-- The method `CUpdater::ContinueDownload`. -/
def ContinueDownload (eng : Engine) (u : CUpdater) : Nat × CUpdater :=
  let r := ContinueDownload_queue eng u.engine_calls u.pending_commands_
  (r.1, { u with pending_commands_ := r.2.1, engine_calls := r.2.2 })

/-- The method `CUpdater::CreateConnectCommand`. -/
def CreateConnectCommand (env : Env) (u : CUpdater) (url : List Char) : Bool × CUpdater :=
  match env.ParseUrl url with
  | none => (false, u)
  | some s =>
    if s.protocol ≠ ServerProtocol.HTTP ∧ s.protocol ≠ ServerProtocol.HTTPS then (false, u)
    else (true, { u with pending_commands_ :=
      u.pending_commands_ ++ [CCommand.connect s.protocol s.host] })

/-- The method `CUpdater::CreateTransferCommand`. -/
def CreateTransferCommand (env : Env) (u : CUpdater) (url local_file : List Char) :
    Bool × CUpdater :=
  match env.ParseUrl url with
  | none => (false, u)
  | some s =>
    if s.protocol ≠ ServerProtocol.HTTP ∧ s.protocol ≠ ServerProtocol.HTTPS then (false, u)
    else (true, { u with pending_commands_ :=
      u.pending_commands_ ++ [CCommand.transfer local_file s.path s.file] })

/-- The method `CUpdater::Download`. -/
def Download (env : Env) (eng : Engine) (u : CUpdater) (url local_file : List Char) :
    Nat × CUpdater :=
  let u0 := { u with pending_commands_ := [CCommand.disconnect] }
  let c := CreateConnectCommand env u0 url
  if c.1 = false then (FZ_REPLY_ERROR, c.2)
  else
    let t := CreateTransferCommand env c.2 url local_file
    if t.1 = false then (FZ_REPLY_ERROR, t.2)
    else ContinueDownload eng t.2

/-- The method `CUpdater::ProcessFinishedDownload`. -/
def ProcessFinishedDownload (env : Env) (fs : FileSys) (u : CUpdater) :
    UpdaterState × CUpdater :=
  let available := u.version_information_.available_
  let temp := GetTempFile env u.version_information_
  if temp = [] then (UpdaterState.newversion, u)
  else if VerifyChecksum env fs temp available.size_ available.hash_ = false then
    (UpdaterState.newversion, { u with fs_ops := u.fs_ops ++ [FsOp.remove_file temp] })
  else
    let local_file := GetLocalFile env fs available false
    if local_file = [] then
      (UpdaterState.newversion, { u with fs_ops := u.fs_ops ++ [FsOp.remove_file temp] })
    else if fs.rename_ok temp local_file = false then
      (UpdaterState.newversion, { u with fs_ops :=
        u.fs_ops ++ [FsOp.rename temp local_file false, FsOp.remove_file temp] })
    else
      (UpdaterState.newversion_ready, { u with local_file_ := local_file, fs_ops :=
        u.fs_ops ++ [FsOp.rename temp local_file true] })

/-- The effect of the call `ParseData()` on the object: the parsed aggregate replaces
`version_information_`, and the raw text is written to `OPTION_UPDATECHECK_NEWVERSION`. -/
def ParseData_call (env : Env) (u : CUpdater) : CUpdater :=
  { u with version_information_ := ParseData env u.raw_version_information_,
           option_newversion := u.raw_version_information_ }

/-- The method `CUpdater::ProcessFinishedData`. -/
def ProcessFinishedData (env : Env) (fs : FileSys) (eng : Engine) (u : CUpdater)
    (can_download : Bool) : UpdaterState × CUpdater :=
  let u1 := ParseData_call env u
  let available := u1.version_information_.available_
  if u1.version_information_.eol_ = true then (UpdaterState.eol, u1)
  else if available.version_ = [] then (UpdaterState.idle, u1)
  else if available.url_ ≠ [] then
    let temp := GetTempFile env u1.version_information_
    let local_file := GetLocalFile env fs available true
    if local_file ≠ [] ∧ fs.get_file_type_known local_file = true then
      (UpdaterState.newversion_ready, { u1 with local_file_ := local_file })
    else
      let u2 := { u1 with m_use_internal_rootcert := false }
      if temp = [] ∨ local_file = [] then (UpdaterState.newversion, u2)
      else
        let size := fs.get_size temp
        if size ≥ 0 ∧ size ≥ available.size_ then ProcessFinishedDownload env fs u2
        else if can_download = false then (UpdaterState.newversion, u2)
        else
          let d := Download env eng u2 available.url_ temp
          if d.1 ≠ FZ_REPLY_WOULDBLOCK then (UpdaterState.newversion, d.2)
          else (UpdaterState.newversion_downloading, d.2)
  else (UpdaterState.newversion, u1)

/-- The byte test of `FilterOutput`: `output_buffer_[i] < 10` or, as an unsigned
character, `> 127`. -/
def invalid_byte (b : Nat) : Bool := decide (b % 256 < 10) || decide (b % 256 > 127)

/-- The `for` loop of `FilterOutput`: the characters copied, or `none` at the first
invalid byte. -/
def FilterOutput_loop : List Nat → Option (List Char)
  | [] => some []
  | b :: bs =>
    if invalid_byte b then none
    else (FilterOutput_loop bs).map (fun cs => Char.ofNat (b % 256) :: cs)

/-- The method `CUpdater::FilterOutput`. -/
def FilterOutput (u : CUpdater) : Bool × CUpdater :=
  if u.state_ ≠ UpdaterState.checking then (false, u)
  else
    match FilterOutput_loop u.output_buffer_ with
    | none => (false, { u with raw_version_information_ := [] })
    | some cs => (true, { u with raw_version_information_ := cs })

/-! ## Subscribers and state changes -/

/-- Whether the non-null handler `h` occupies a slot of the list. -/
def registered (h : Nat) (hs : List (Option Nat)) : Bool := hs.contains (some h)

/-- The second loop of `AddHandler`: put `h` into the first null slot; `none` when the list
has no null slot. -/
def fill_first_null (h : Nat) : List (Option Nat) → Option (List (Option Nat))
  | [] => none
  | none :: rest => some (some h :: rest)
  | some x :: rest => (fill_first_null h rest).map (fun l => some x :: l)

/-- The loop of `RemoveHandler`: the first slot holding `h` becomes null. -/
def clear_first (h : Nat) : List (Option Nat) → List (Option Nat)
  | [] => []
  | x :: rest => if x = some h then none :: rest else x :: clear_first h rest

/-- The method `CUpdater::AddHandler`; a handler is named by its identity (its address). -/
def AddHandler (u : CUpdater) (handler : Nat) : CUpdater :=
  if registered handler u.handlers_ then u
  else
    match fill_first_null handler u.handlers_ with
    | some l => { u with handlers_ := l }
    | none => { u with handlers_ := u.handlers_ ++ [some handler] }

/-- The method `CUpdater::RemoveHandler`. -/
def RemoveHandler (u : CUpdater) (handler : Nat) : CUpdater :=
  { u with handlers_ := clear_first handler u.handlers_ }

/-- The constructor `CUpdater::CUpdater(parent, engine_context)`, given the stored values
of the three options the object reads back. -/
def CUpdater_new (parent : Nat) (lastdate newversion lastversion : List Char) : CUpdater :=
  AddHandler { state_ := UpdaterState.idle, option_lastdate := lastdate,
               option_newversion := newversion, option_lastversion := lastversion } parent

/-- The method `CUpdater::Busy`. -/
def Busy (u : CUpdater) : Bool :=
  decide (u.state_ = UpdaterState.checking)
    || decide (u.state_ = UpdaterState.newversion_downloading)

/-- The method `CUpdater::SetState`. The handlers are called in list order; what they do
in turn is outside the object and only the calls are recorded. -/
def SetState (u : CUpdater) (s : UpdaterState) : CUpdater :=
  if s ≠ u.state_ then
    let queue := if s ≠ UpdaterState.checking ∧ s ≠ UpdaterState.newversion_downloading then []
      else u.pending_commands_
    let b := u.version_information_.available_
    let calls := u.handlers_.filterMap (fun h => h.map (fun id => (id, s, b)))
    { u with state_ := s, pending_commands_ := queue, published := u.published ++ calls }
  else u

/-! ## Starting a check -/

/-- Length of a day in milliseconds, `fz::duration::from_days(1)`. -/
def day_ms : Int := 1000 * 3600 * 24

/-- The method `CUpdater::LongTimeSinceLastCheck`; `now` is the value of
`fz::datetime::now()` in milliseconds. The getters of `fz::duration` divide with
truncation. -/
def LongTimeSinceLastCheck (env : Env) (now : Int) (u : CUpdater) : Bool :=
  if u.option_lastdate = [] then true
  else
    match env.datetime u.option_lastdate with
    | none => true
    | some lastCheck =>
      let span := now - lastCheck
      if Int.tdiv span 1000 < 0 then true
      else
        let days := if env.IsUnstable = false then env.updatecheck_interval else 1
        decide (Int.tdiv (Int.tdiv (Int.tdiv span 1000) 3600) 24 ≥ days)

/-- The parameters `GetUrl` puts into the query string. -/
def GetUrl_parameters (env : Env) (u : CUpdater) : List (List Char × List Nat) :=
  let host := env.to_utf8 env.GetHostname
  let host := if host = [] then (w "unknown").map toByte else host
  [(w "platform", host), (w "version", env.to_utf8 env.GetFileZillaVersion)]
    ++ (if env.platform ≠ Platform.other then
          [(w "osversion", (fmt_d env.osMajor ++ w "." ++ fmt_d env.osMinor).map toByte)]
        else [])
    ++ (if env.platform = Platform.msw then env.msw_package_info else [])
    ++ (if env.to_utf8 env.GetCPUCaps ≠ [] then [(w "cpuid", env.to_utf8 env.GetCPUCaps)]
        else [])
    ++ [(w "initial", if u.option_lastversion ≠ env.GetFileZillaVersion then [49] else [48])]
    ++ (if u.manual_ = true then [(w "manual", [49])] else [])
    ++ (if env.FZUPDATETEST = w "1" then [(w "test", [49])] else [])

/-- The method `CUpdater::GetUrl`, as the text of the URI. -/
def GetUrl (env : Env) (u : CUpdater) : List Char :=
  w "https://update.filezilla-project.org/update.php?"
    ++ env.query_string (GetUrl_parameters env u)

/-- The method `CUpdater::Request` for the URI of `GetUrl` (scheme `https`, host
`update.filezilla-project.org`), its only caller. -/
def Request (eng : Engine) (u : CUpdater) (uri : List Char) : Nat × CUpdater :=
  ContinueDownload eng
    { u with pending_commands_ :=
        [CCommand.disconnect,
         CCommand.connect ServerProtocol.HTTPS (w "update.filezilla-project.org"),
         CCommand.http_request uri] }

/-- The method `CUpdater::Run`. The third component is the text the call assigns to
`log_`, `none` when it leaves `log_` alone. -/
def Run (env : Env) (eng : Engine) (now : Int) (u : CUpdater) (manual : Bool) :
    Bool × CUpdater × Option (List Char) :=
  if u.state_ ≠ UpdaterState.idle ∧ u.state_ ≠ UpdaterState.failed
      ∧ u.state_ ≠ UpdaterState.newversion ∧ u.state_ ≠ UpdaterState.newversion_ready
      ∧ u.state_ ≠ UpdaterState.newversion_stale ∧ u.state_ ≠ UpdaterState.eol then
    (false, u, none)
  else
    let u1 : CUpdater :=
      { u with option_lastdate := env.format_utc now, local_file_ := [], manual_ := manual }
    let build := if env.GetBuildType = [] then env.tr_custom else env.GetBuildType
    let log := env.tr_started now ++ env.tr_own_build_type build
    let u2 := SetState u1 UpdaterState.checking
    let u3 : CUpdater := { u2 with m_use_internal_rootcert := true }
    let r := Request eng u3 (GetUrl env u3)
    let u4 := if r.1 ≠ FZ_REPLY_WOULDBLOCK then SetState r.2 UpdaterState.failed else r.2
    let u5 : CUpdater := { u4 with raw_version_information_ := [] }
    (decide (u5.state_ = UpdaterState.checking), u5, some log)

/-- The method `CUpdater::RunIfNeeded`. -/
def RunIfNeeded (env : Env) (fs : FileSys) (eng : Engine) (now : Int) (u : CUpdater) :
    CUpdater :=
  let b := u.version_information_.available_
  if u.state_ = UpdaterState.idle ∨ u.state_ = UpdaterState.failed
      ∨ u.state_ = UpdaterState.newversion_stale ∨ u.state_ = UpdaterState.eol
      ∨ LongTimeSinceLastCheck env now u = true
      ∨ (u.state_ = UpdaterState.newversion ∧ b.url_ ≠ [])
      ∨ (u.state_ = UpdaterState.newversion_ready
          ∧ VerifyChecksum env fs (DownloadedFile u) b.size_ b.hash_ = false) then
    (Run env eng now u true).2.1
  else u

/-- The value `fz::datetime::now() - CBuildInfo::GetBuildDate()` in milliseconds. -/
def build_age (env : Env) (now : Int) : Int :=
  match env.GetBuildDate with
  | some buildDate => now - buildDate
  | none => env.undated_age now

/-- The method `CUpdater::AutoRunIfNeeded`. -/
def AutoRunIfNeeded (env : Env) (eng : Engine) (now : Int) (u : CUpdater) : CUpdater :=
  if env.FZ_AUTOUPDATECHECK = false then u
  else if u.state_ = UpdaterState.failed ∨ u.state_ = UpdaterState.idle
      ∨ u.state_ = UpdaterState.newversion_stale then
    if env.disable_updatecheck = 0 ∧ env.updatecheck ≠ 0 then
      if LongTimeSinceLastCheck env now u = true then (Run env eng now u false).2.1 else u
    else if build_age env now ≥ (31 * 6) * day_ms then
      SetState { u with version_information_ := {} } UpdaterState.newversion_stale
    else u
  else u

/-- The method `CUpdater::Init` (arming the timer and registering the instance are left
out). -/
def Init (env : Env) (fs : FileSys) (eng : Engine) (now : Int) (u : CUpdater) : CUpdater :=
  if Busy u then u
  else
    let u1 : CUpdater :=
      if env.disable_updatecheck ≠ 0 ∨ LongTimeSinceLastCheck env now u = false then
        { u with raw_version_information_ := u.option_newversion }
      else u
    let p := ProcessFinishedData env fs eng u1 env.FZ_AUTOUPDATECHECK
    AutoRunIfNeeded env eng now (SetState p.2 p.1)

/-! ## Engine notifications -/

/-- Reply flag `FZ_REPLY_DISCONNECTED` of the engine interface. -/
def FZ_REPLY_DISCONNECTED : Nat := 64

/-- Command identifiers an operation notification can carry. -/
inductive Command
  | connect
  | disconnect
  | transfer
  | http_request
  | other
deriving DecidableEq

/-- The method `CUpdater::ProcessOperation`. -/
def ProcessOperation (env : Env) (fs : FileSys) (eng : Engine) (u : CUpdater)
    (commandId : Command) (replyCode : Nat) : CUpdater :=
  if u.state_ ≠ UpdaterState.checking ∧ u.state_ ≠ UpdaterState.newversion_downloading then u
  else if u.pending_commands_ = [] then SetState u UpdaterState.failed
  else
    let proceed : Bool := decide (replyCode = FZ_REPLY_OK)
      || (decide (commandId = Command.disconnect)
          && decide (replyCode &&& FZ_REPLY_DISCONNECTED ≠ 0))
    let c := if proceed then
        ContinueDownload eng { u with pending_commands_ := u.pending_commands_.tail }
      else (replyCode, u)
    if proceed = true ∧ c.1 = FZ_REPLY_WOULDBLOCK then c.2
    else if c.1 ≠ FZ_REPLY_OK then
      SetState c.2 (if c.2.state_ ≠ UpdaterState.checking then UpdaterState.newversion
        else UpdaterState.failed)
    else if c.2.state_ = UpdaterState.checking then
      let f := FilterOutput c.2
      if f.1 = false then SetState f.2 UpdaterState.failed
      else
        let u2 : CUpdater := { f.2 with option_lastversion := env.GetFileZillaVersion }
        let p := ProcessFinishedData env fs eng u2 true
        SetState p.2 p.1
    else
      let p := ProcessFinishedDownload env fs c.2
      SetState p.2 p.1

/-- The empty build `build()`: no version, URL or hash, size -1. -/
def empty_build : build := { url_ := [], version_ := [], hash_ := [], size_ := -1 }

/-- Manifest text made of the given lines, each closed by a line feed. -/
def join_lines (lines : List (List Char)) : List Char :=
  lines.flatMap (fun l => l ++ [LF])

/-- The line is a `nightly`, `release` or `beta` line. -/
def is_build_line (tokens : List (List Char)) : Bool :=
  decide (tokens.getD 0 [] = w "nightly") || decide (tokens.getD 0 [] = w "release")
    || decide (tokens.getD 0 [] = w "beta")

/-- No `sig:` token among `tokens[6..]` carries a signature that verifies over the decoded
hash (token 5), a zero byte and the version or date (token 1). -/
def no_valid_sig (env : Env) (tokens : List (List Char)) : Bool :=
  (tokens.drop 6).all (fun t => !(is_sig_token t
    && env.verify (signed_message (tokens.getD 5 []) (tokens.getD 1 []))
      (env.base64_decode (t.drop 4))))

/-- A build line without a valid signature in one of the situations where the parser
drops it: it fails its date or version gate, or it has at least six tokens on an
updatable build, or it is a nightly line on a build that is not updatable. -/
def unsigned_build_line (env : Env) (tokens : List (List Char)) : Bool :=
  is_build_line tokens && no_valid_sig env tokens
    && (!passes_gate env (tokens.getD 0 []) (tokens.getD 1 [])
        || (decide (6 ≤ tokens.length) && UpdatableBuild env)
        || (decide (tokens.getD 0 [] = w "nightly") && !UpdatableBuild env))

/-- A `release` line whose version does not exceed the running version. -/
def old_release_line (env : Env) (tokens : List (List Char)) : Bool :=
  decide (tokens.getD 0 [] = w "release") && decide (2 ≤ tokens.length)
    && decide (env.ConvertToVersionNumber (tokens.getD 1 [])
        ≤ env.ConvertToVersionNumber env.GetFileZillaVersion)

/-- Every channel build that has a URL also has a version. -/
def channels_versioned (vi : version_information) : Prop :=
  (vi.stable_.url_ ≠ [] → vi.stable_.version_ ≠ []) ∧
  (vi.beta_.url_ ≠ [] → vi.beta_.version_ ≠ []) ∧
  (vi.nightly_.url_ ≠ [] → vi.nightly_.version_ ≠ [])

/-- The situations in which `RunIfNeeded` starts a check: the state is not an active one
and it is `idle`, `failed`, `newversion_stale` or `eol`, or a long time has passed since
the last check, or it is `newversion` with a URL, or it is `newversion_ready` and the
downloaded file fails verification. -/
def starts_check (env : Env) (fs : FileSys) (now : Int) (u : CUpdater) : Prop :=
  (u.state_ ≠ UpdaterState.checking ∧ u.state_ ≠ UpdaterState.newversion_downloading) ∧
  (u.state_ = UpdaterState.idle ∨ u.state_ = UpdaterState.failed
    ∨ u.state_ = UpdaterState.newversion_stale ∨ u.state_ = UpdaterState.eol
    ∨ LongTimeSinceLastCheck env now u = true
    ∨ (u.state_ = UpdaterState.newversion ∧ u.version_information_.available_.url_ ≠ [])
    ∨ (u.state_ = UpdaterState.newversion_ready
        ∧ VerifyChecksum env fs (DownloadedFile u) u.version_information_.available_.size_
            u.version_information_.available_.hash_ = false))

/-- The 99 candidate paths of `GetLocalFile` in the order it tries them: the plain name,
then the names for the counter values 2 to 99. -/
def local_candidates (dl fn : List Char) : List (List Char) :=
  (dl ++ fn) :: (List.range' 2 98).map (local_candidate dl fn)

/-- The text ` (n)` that `GetLocalFile` inserts. -/
def counter_tag (n : Nat) : List Char := w " (" ++ fmt_d n ++ w ")"

/-- The candidate for counter value `n` as claim C14 words it: the text ` (n)` goes before
a trailing `.tar.bz2` when the name ends with it, otherwise before the last `.`, and is
appended when there is no `.`. -/
def claimed_local_candidate (dl fn : List Char) (n : Nat) : List Char :=
  if (w ".tar.bz2").isSuffixOf fn then
    dl ++ fn.take (fn.length - 8) ++ counter_tag n ++ fn.drop (fn.length - 8)
  else
    match rfind (Char.ofNat 46) fn with
    | none => dl ++ fn ++ counter_tag n
    | some pos => dl ++ fn.take pos ++ counter_tag n ++ fn.drop pos

/-- The claim's reading of `GetFilename`: the URL is cut at its first `?` or `#`, and the
text after the last `/` of what remains is taken (empty when there is no `/`). -/
def claimed_GetFilename (url : List Char) : List Char :=
  (afterLast (Char.ofNat 47)
    (url.takeWhile (fun c => !(decide (c = Char.ofNat 63) || decide (c = Char.ofNat 35))))).getD []

/-- A call of one of the two subscriber methods. -/
inductive HandlerCall where
  | add (handler : Nat)
  | remove (handler : Nat)
  deriving DecidableEq, Repr

/-- The coordinator after one subscriber call. -/
def handler_call (u : CUpdater) : HandlerCall → CUpdater
  | HandlerCall.add h => AddHandler u h
  | HandlerCall.remove h => RemoveHandler u h

/-- The coordinator after a sequence of subscriber calls, first call first. -/
def handler_calls (u : CUpdater) (calls : List HandlerCall) : CUpdater :=
  calls.foldl handler_call u

/-- The line is an `eol` line. -/
def is_eol_line (tokens : List (List Char)) : Bool := decide (tokens.getD 0 [] = w "eol")

/-- The line is an `eol` line that sets the flag: it has a second token, the platform has
the end-of-life branch and the signature loop ends with a valid signature. -/
def sets_eol (env : Env) (tokens : List (List Char)) : Bool :=
  is_eol_line tokens && decide (2 ≤ tokens.length) && decide (env.platform ≠ Platform.other)
    && eol_valid_signature env tokens

/-- The line stores a build in a channel: it has a second token, it is a `nightly`,
`release` or `beta` line that passes its date or version gate, the checks of the build
leave a build, and the channel assignment takes it (a nightly only on an updatable
build). -/
def stores_build (env : Env) (tokens : List (List Char)) : Bool :=
  decide (2 ≤ tokens.length)
    && passes_gate env (tokens.getD 0 []) (tokens.getD 1 [])
    && (parse_build env tokens (tokens.getD 1 [])).isSome
    && (decide (tokens.getD 0 [] ≠ w "nightly") || UpdatableBuild env)

/-- The lines the loop of `ParseData` hands to its body: the lines of the text up to, and
without, the first line that has no tokens (with the fuel of `parse_loop`). -/
def structured_lines_loop : Nat → List Char → List (List Char)
  | 0, _ => []
  | fuel + 1, raw =>
    if raw = [] then []
    else if strtok (splitLine raw).1 delims = [] then []
    else (splitLine raw).1 :: structured_lines_loop fuel (((splitLine raw).2).getD [])

/-- The lines of a manifest before its first line without tokens. -/
def structured_lines (raw : List Char) : List (List Char) :=
  structured_lines_loop raw.length raw

/-- The character is one of `0-9`, `a-f`, `A-F`. -/
def is_hex_digit (c : Char) : Bool := (hex_char_to_int c).isSome

/-! ## Sample surroundings

Concrete oracles, used only to evaluate the definitions above at explicit inputs. -/

/-- Decimal value of a digit string; 0 when the text is empty or holds another character. -/
def sample_to_integral (s : List Char) : Nat :=
  if s = [] ∨ s.any (fun c => decide (c.toNat < 48) || decide (c.toNat > 57)) then 0
  else s.foldl (fun n c => n * 10 + (c.toNat - 48)) 0

/-- A stand-in for `ConvertToVersionNumber`: dotted components read in base 1024. -/
def sample_version_number (s : List Char) : Int :=
  ((strtok s [Char.ofNat 46]).foldl (fun n t => n * 1024 + sample_to_integral t) 0 : Nat)

/-- A stand-in for date parsing: the digits of `YYYY-MM-DD` read as one number. -/
def sample_datetime (s : List Char) : Option Int :=
  let n := sample_to_integral (s.filter (fun c => !decide (c = Char.ofNat 45)))
  if n = 0 then none else some (n : Int)

/-- A stand-in for signature verification: the one-byte signature that names the sum of
the message bytes is the valid one. -/
def sample_verify (message signature : List Nat) : Bool :=
  decide (signature = [65 + message.sum % 26])

/-- The SHA-512 digests of the empty input and of the three bytes `abc` (the two
standard test vectors); other inputs get 64 zero bytes. -/
def sample_sha512 (bytes : List Nat) : List Nat :=
  if bytes = [] then
    [207, 131, 225, 53, 126, 239, 184, 189, 241, 84, 40, 80, 214, 109, 128, 7, 214, 32, 228, 5,
     11, 87, 21, 220, 131, 244, 169, 33, 211, 108, 233, 206, 71, 208, 209, 60, 93, 133, 242, 176,
     255, 131, 24, 210, 135, 126, 236, 47, 99, 185, 49, 189, 71, 65, 122, 129, 165, 56, 50, 122,
     249, 39, 218, 62]
  else if bytes = [97, 98, 99] then
    [221, 175, 53, 161, 147, 97, 122, 186, 204, 65, 115, 73, 174, 32, 65, 49, 18, 230, 250, 78,
     137, 169, 126, 162, 10, 158, 238, 230, 75, 85, 211, 154, 33, 146, 153, 42, 39, 79, 193, 168,
     54, 186, 60, 35, 163, 254, 235, 189, 69, 77, 68, 35, 100, 60, 232, 14, 42, 154, 201, 79,
     165, 76, 164, 159]
  else List.replicate 64 0

/-- A stand-in for `Site::ParseUrl`: accepts text starting with `http://`. -/
def sample_ParseUrl (url : List Char) : Option ParsedUrl :=
  if url.take 7 = w "http://" then
    let host := (url.drop 7).takeWhile (fun c => !decide (c = Char.ofNat 47))
    let file := (afterLast (Char.ofNat 47) url).getD []
    some { protocol := ServerProtocol.HTTP, host := host, path := [], file := file }
  else none

/-- An official build of version 3.0.0 on a platform without the end-of-life branch. -/
def sample_env : Env where
  GetFileZillaVersion := w "3.0.0"
  ConvertToVersionNumber := sample_version_number
  GetBuildType := w "official"
  GetBuildDate := some 20200101
  datetime := sample_datetime
  checkbeta := 0
  platform := Platform.other
  GetHostname := w "x86_64-pc-linux-gnu"
  osMajor := 0
  osMinor := 0
  to_utf8 := fun s => s.map toByte
  base64_decode := fun s => s.map toByte
  verify := sample_verify
  to_integral_u64 := sample_to_integral
  to_integral_resource := fun s => (sample_to_integral s : Int)
  sha512 := sample_sha512
  GetTempDir := w "/tmp"
  GetPathSeparator := Char.ofNat 47
  GetDownloadDir := w "/dl/"
  ParseUrl := sample_ParseUrl
  FZ_AUTOUPDATECHECK := true
  disable_updatecheck := 0
  updatecheck := 1
  updatecheck_interval := 7
  IsUnstable := false
  format_utc := fun t => fmt_d t
  undated_age := fun _ => 0
  tr_started := fun t => w "Started update check on " ++ fmt_d t ++ [LF]
  tr_own_build_type := fun b => w "Own build type: " ++ b ++ [LF]
  tr_custom := w "custom"
  GetCPUCaps := w "sse2"
  msw_package_info := []
  FZUPDATETEST := []
  query_string := fun ps =>
    List.intercalate (w "&") (ps.map (fun p => p.1 ++ w "=" ++ p.2.map Char.ofNat))
  updater_root := [48, 130]

/-- Upper-case SHA-512 digest of the three bytes `abc`, as a manifest would carry it. -/
def sample_hash : List Char :=
  w ("DDAF35A193617ABACC417349AE20413112E6FA4E89A97EA20A9EEEE64B55D39A"
    ++ "2192992A274FC1A836BA3C23A3FEEBBD454D4423643CE80E2A9AC94FA54CA49F")

/-- Scenario A: a signed release line for version 9.9.9 and a file of 3 bytes. -/
def scenario_A_line : List Char :=
  w "release 9.9.9 http://x/f.tar.bz2 3 sha512 " ++ sample_hash ++ w " sig:P"

/-- Scenario B: the line of scenario A without its `sig:` token. -/
def scenario_B_line : List Char :=
  w "release 9.9.9 http://x/f.tar.bz2 3 sha512 " ++ sample_hash

/-- The line of scenario A with the size token `2^63`. -/
def scenario_big_line : List Char :=
  w "release 9.9.9 http://x/f.tar.bz2 9223372036854775808 sha512 " ++ sample_hash ++ w " sig:P"

/-- Scenario D: an end-of-life line whose signature is valid on `sample_env_msw`. -/
def scenario_D_line : List Char := w "eol sig:B"

/-- The sample build with the beta-inclusion level set to 2 (nightlies wanted). -/
def sample_env_level2 : Env := { sample_env with checkbeta := 2 }

/-- The sample build compiled for a platform with the end-of-life branch. -/
def sample_env_msw : Env :=
  { sample_env with platform := Platform.msw, GetHostname := w "x86_64-w64-mingw32",
                    osMajor := 6, osMinor := 1 }

/-- A file system without any file, on which renaming succeeds. -/
def empty_fs : FileSys where
  get_file_type_known := fun _ => false
  get_size := fun _ => -1
  file := fun _ => FileRead.cannot_open
  rename_ok := fun _ _ => true

/-- A file system holding the finished download `/dl/f.tar.bz2` (the three bytes `abc`)
and nothing else. -/
def ready_fs : FileSys where
  get_file_type_known := fun p => decide (p = w "/dl/f.tar.bz2")
  get_size := fun p => if p = w "/dl/f.tar.bz2" then 3 else -1
  file := fun p => if p = w "/dl/f.tar.bz2" then FileRead.data [97, 98, 99]
    else FileRead.cannot_open
  rename_ok := fun _ _ => true

/-- Scenario C: a file system whose only file is a staged download of the expected size
(3 bytes) with other content, at the staging path of the scenario-A build. -/
def stale_fs : FileSys where
  get_file_type_known := fun p => decide (p = w "/tmp/fzupdate_ddaf35a193617aba.tmp")
  get_size := fun p => if p = w "/tmp/fzupdate_ddaf35a193617aba.tmp" then 3 else -1
  file := fun p => if p = w "/tmp/fzupdate_ddaf35a193617aba.tmp" then
      FileRead.data [120, 121, 122]
    else FileRead.cannot_open
  rename_ok := fun _ _ => true

/-- A file system whose only file is the complete staged download (the bytes `abc`). -/
def staged_fs : FileSys where
  get_file_type_known := fun p => decide (p = w "/tmp/fzupdate_ddaf35a193617aba.tmp")
  get_size := fun p => if p = w "/tmp/fzupdate_ddaf35a193617aba.tmp" then 3 else -1
  file := fun p => if p = w "/tmp/fzupdate_ddaf35a193617aba.tmp" then
      FileRead.data [97, 98, 99]
    else FileRead.cannot_open
  rename_ok := fun _ _ => true

/-- The coordinator after it has parsed the manifest of scenario A on the sample build. -/
def scenario_A_updater : CUpdater :=
  { raw_version_information_ := scenario_A_line ++ [LF],
    version_information_ := ParseData sample_env (scenario_A_line ++ [LF]) }

/-- A coordinator in state `idle` whose last check was made at time 1000000000. -/
def idle_checked_updater : CUpdater :=
  { state_ := UpdaterState.idle, option_lastdate := w "1000000000" }

/-- A coordinator in the middle of a check: the manual check started from
`idle_checked_updater` on an engine that accepts the first command. -/
def checking_updater : CUpdater :=
  (Run sample_env { Execute := fun _ _ => FZ_REPLY_WOULDBLOCK } 1000000000
    idle_checked_updater true).2.1

/-- An engine that answers every command with `FZ_REPLY_ERROR`. -/
def failing_engine : Engine where
  Execute := fun _ _ => FZ_REPLY_ERROR

/-- A freshly constructed coordinator (handler 1) on a machine whose options hold the
manifest of scenario A from a check made at time 1000000000. -/
def cached_updater : CUpdater :=
  CUpdater_new 1 (w "1000000000") (scenario_A_line ++ [LF]) (w "3.0.0")

/-- A file system whose only entry is `/dl/.tar.bz2`. -/
def dotfile_fs : FileSys where
  get_file_type_known := fun p => decide (p = w "/dl/.tar.bz2")
  get_size := fun p => if p = w "/dl/.tar.bz2" then 3 else -1
  file := fun p => if p = w "/dl/.tar.bz2" then FileRead.data [97, 98, 99]
    else FileRead.cannot_open
  rename_ok := fun _ _ => true

/-- The sample build on a machine whose download directory is the empty path. -/
def sample_env_nodir : Env := { sample_env with GetDownloadDir := [] }

/-- The sample build on a machine whose user switched automatic update checks off. -/
def sample_env_nocheck : Env := { sample_env with updatecheck := 0 }

/-- The sample build compiled without automatic update checks, update checks off. -/
def sample_env_noauto : Env := { sample_env_nocheck with FZ_AUTOUPDATECHECK := false }

/-- The coordinator of scenario A once the 9.9.9 build has been offered. -/
def offered_updater : CUpdater :=
  { scenario_A_updater with state_ := UpdaterState.newversion }

/-- An engine that completes its first two commands at once and accepts the third. -/
def two_then_block_engine : Engine where
  Execute := fun n _ => if n < 2 then FZ_REPLY_OK else FZ_REPLY_WOULDBLOCK

/-- A coordinator with the three commands of a download in its queue. -/
def queued_updater : CUpdater :=
  { state_ := UpdaterState.newversion_downloading,
    pending_commands_ := [CCommand.disconnect, CCommand.connect ServerProtocol.HTTP (w "x"),
      CCommand.transfer (w "/tmp/t") [] (w "f")] }

/-- A self-compiled build of version 3.0.0: the build type is empty. -/
def sample_env_custom : Env := { sample_env with GetBuildType := [] }

/-- A manifest for a platform with the end-of-life branch: a validly signed `eol` line, a
resource line, a line of unknown type, the unsigned build line of scenario B, then a blank
line and a changelog. -/
def eol_mixed_manifest : List Char :=
  join_lines [scenario_D_line, w "resource 1 some text", w "foo bar", scenario_B_line, [],
    w "notes"]

/-- An engine that answers every command with `FZ_REPLY_WOULDBLOCK`. -/
def blocking_engine : Engine where
  Execute := fun _ _ => FZ_REPLY_WOULDBLOCK

/-! # Properties -/

/-! ## Tokens and lines -/

theorem strtokAux_ne_nil (ds : List Char) (s cur : List Char) :
    ∀ t ∈ strtokAux ds s cur, t ≠ [] := by
  induction s generalizing cur with
  | nil =>
    intro t ht
    by_cases hc : cur = []
    · simp [strtokAux, hc] at ht
    · simp only [strtokAux, hc, if_false, List.mem_singleton] at ht
      subst ht
      simpa using hc
  | cons c cs ih =>
    intro t ht
    by_cases hd : c ∈ ds
    · by_cases hc : cur = []
      · simp only [strtokAux, hd, hc, if_true] at ht
        exact ih [] t ht
      · simp only [strtokAux, hd, hc, if_true, if_false, List.mem_cons] at ht
        rcases ht with ht | ht
        · subst ht
          simpa using hc
        · exact ih [] t ht
    · simp only [strtokAux, hd, if_false] at ht
      exact ih (c :: cur) t ht

/-- Tokens delivered by `strtok` are never empty. -/
theorem strtok_ne_nil (s ds : List Char) : ∀ t ∈ strtok s ds, t ≠ [] :=
  strtokAux_ne_nil ds s []

theorem splitLine_of_not_mem (l : List Char) (h : LF ∉ l) : splitLine l = (l, none) := by
  induction l with
  | nil => rfl
  | cons c cs ih =>
    have hc : c ≠ LF := fun e => h (by simp [e])
    have hcs : LF ∉ cs := fun e => h (by simp [e])
    simp [splitLine, hc, ih hcs]

theorem splitLine_append (l rest : List Char) (h : LF ∉ l) :
    splitLine (l ++ LF :: rest) = (l, some rest) := by
  induction l with
  | nil => simp [splitLine]
  | cons c cs ih =>
    have hc : c ≠ LF := fun e => h (by simp [e])
    have hcs : LF ∉ cs := fun e => h (by simp [e])
    simp [splitLine, hc, ih hcs]

theorem parse_loop_nil (env : Env) (n : Nat) (vi : version_information) :
    parse_loop env n [] vi = vi := by
  cases n <;> simp [parse_loop]

/-- A final line without line feed is handled in one round. -/
theorem parse_loop_last (env : Env) (n : Nat) (last : List Char) (vi : version_information)
    (hn : last.length ≤ n) (hlf : LF ∉ last) (hne : last ≠ [])
    (htok : strtok last delims ≠ []) :
    parse_loop env n last vi = parse_line env (strtok last delims) vi := by
  cases n with
  | zero =>
    exfalso
    apply hne
    exact List.length_eq_zero.mp (Nat.le_zero.mp hn)
  | succ k =>
    simp [parse_loop, hne, splitLine_of_not_mem last hlf, htok, parse_loop_nil]

/-- A line closed by a line feed is handled in one round, the loop going on with the rest. -/
theorem parse_loop_line (env : Env) (n : Nat) (l rest : List Char) (vi : version_information)
    (hlf : LF ∉ l) (htok : strtok l delims ≠ []) :
    parse_loop env (n + 1) (l ++ LF :: rest) vi
      = parse_loop env n rest (parse_line env (strtok l delims) vi) := by
  simp [parse_loop, splitLine_append l rest hlf, htok]

/-- Lines that the loop body leaves without effect can be skipped. -/
theorem parse_loop_skip (env : Env) (P : List (List Char) → Prop)
    (hP : ∀ tokens vi, P tokens → tokens ≠ [] ∧ parse_line env tokens vi = vi)
    (lines : List (List Char)) (last : List Char) (vi : version_information)
    (hlines : ∀ l ∈ lines, LF ∉ l ∧ P (strtok l delims))
    (hlf : LF ∉ last) (hlast : last = [] ∨ P (strtok last delims)) :
    ∀ n, (join_lines lines ++ last).length ≤ n →
      parse_loop env n (join_lines lines ++ last) vi = vi := by
  induction lines with
  | nil =>
    intro n hn
    simp only [join_lines, List.flatMap_nil, List.nil_append] at hn ⊢
    by_cases hne : last = []
    · subst hne
      exact parse_loop_nil env n vi
    · rcases hlast with h | h
      · exact absurd h hne
      · rw [parse_loop_last env n last vi hn hlf hne (hP _ vi h).1]
        exact (hP _ vi h).2
  | cons l ls ih =>
    intro n hn
    have hl := hlines l (by simp)
    have hls : ∀ l1 ∈ ls, LF ∉ l1 ∧ P (strtok l1 delims) :=
      fun l1 h1 => hlines l1 (by simp [h1])
    have hjoin : join_lines (l :: ls) ++ last = l ++ LF :: (join_lines ls ++ last) := by
      simp [join_lines]
    rw [hjoin] at hn ⊢
    cases n with
    | zero => simp at hn
    | succ k =>
      rw [parse_loop_line env k l _ vi hl.1 (hP _ vi hl.2).1, (hP _ vi hl.2).2]
      apply ih hls
      simp only [List.length_append, List.length_cons] at hn ⊢
      omega

theorem splitLine_rest_length (raw : List Char) (h : raw ≠ []) :
    ((splitLine raw).2.getD []).length < raw.length := by
  induction raw with
  | nil => exact absurd rfl h
  | cons c cs ih =>
    by_cases hc : c = LF
    · simp [splitLine, hc]
    · by_cases hcs : cs = []
      · subst hcs
        simp [splitLine, hc]
      · have := ih hcs
        simp only [splitLine, hc, if_false, List.length_cons]
        omega

/-- The fuel of `parse_loop` is never what stops it: any two amounts of at least
`raw.length` give the same result. -/
theorem parse_loop_fuel (env : Env) (n : Nat) :
    ∀ (m : Nat) (raw : List Char) (vi : version_information),
      raw.length ≤ n → raw.length ≤ m → parse_loop env n raw vi = parse_loop env m raw vi := by
  induction n with
  | zero =>
    intro m raw vi hn _
    have : raw = [] := List.length_eq_zero.mp (Nat.le_zero.mp hn)
    subst this
    rw [parse_loop_nil, parse_loop_nil]
  | succ k ih =>
    intro m raw vi hn hm
    by_cases hr : raw = []
    · subst hr
      rw [parse_loop_nil, parse_loop_nil]
    · have hlt := splitLine_rest_length raw hr
      cases m with
      | zero =>
        exact absurd (List.length_eq_zero.mp (Nat.le_zero.mp hm)) hr
      | succ j =>
        unfold parse_loop
        simp only [hr, if_false]
        split_ifs
        · rfl
        · exact ih j _ _ (by omega) (by omega)

/-- The fuel of `GetLocalFile_loop` is never what stops it: started with counter `i ≤ 99`,
any two amounts of at least `100 - i` give the same result (`GetLocalFile` starts with
`i = 1` and 99). -/
theorem GetLocalFile_loop_fuel (env : Env) (fs : FileSys) (b : build) (allow_existing : Bool)
    (dl fn : List Char) (fuel1 : Nat) :
    ∀ (fuel2 i : Nat) (f : List Char), i ≤ 99 → 100 ≤ fuel1 + i → 100 ≤ fuel2 + i →
      GetLocalFile_loop env fs b allow_existing dl fn fuel1 i f
        = GetLocalFile_loop env fs b allow_existing dl fn fuel2 i f := by
  induction fuel1 with
  | zero =>
    intro fuel2 i f hi h1 _
    omega
  | succ k ih =>
    intro fuel2 i f hi h1 h2
    cases fuel2 with
    | zero => omega
    | succ j =>
      unfold GetLocalFile_loop
      split_ifs with hb hlim
      · rfl
      · exact ih j (i + 1) _ (by omega) (by omega) (by omega)
      · rfl

/-! ## C1: build lines without a valid signature -/

theorem foldl_false_of_all {α : Type} (f : Bool → α → Bool) (l : List α)
    (h : ∀ t ∈ l, f false t = false) : l.foldl f false = false := by
  induction l with
  | nil => rfl
  | cons a as ih =>
    simp only [List.foldl_cons]
    rw [h a (by simp)]
    exact ih (fun t ht => h t (by simp [ht]))

/-- Without a verifying `sig:` token the signature loop ends with `valid_signature` false. -/
theorem build_valid_signature_false (env : Env) (tokens : List (List Char))
    (h : no_valid_sig env tokens = true) :
    build_valid_signature env tokens (tokens.getD 5 []) (tokens.getD 1 []) = false := by
  unfold build_valid_signature
  apply foldl_false_of_all
  intro t ht
  simp only [no_valid_sig, List.all_eq_true] at h
  have ht1 := h t ht
  by_cases hs : is_sig_token t = true
  · simp only [hs, Bool.true_and, Bool.not_eq_true_eq_eq_false, Bool.not_eq_eq_eq_not,
      Bool.not_true] at ht1
    simp only [hs, if_true, ht1]
    split_ifs <;> rfl
  · simp [hs]

/-- On an updatable build a line of six or more tokens without a valid signature yields
no build. -/
theorem parse_build_unsigned (env : Env) (tokens : List (List Char))
    (hlen : 6 ≤ tokens.length) (hupd : UpdatableBuild env = true)
    (h : no_valid_sig env tokens = true) :
    parse_build env tokens (tokens.getD 1 []) = none := by
  have hl : ¬ tokens.length < 6 := by omega
  have hv := build_valid_signature_false env tokens h
  simp only [parse_build, hl, hupd, if_true, if_false, hv]
  split_ifs <;> rfl

theorem store_build_nightly_not_updatable (env : Env) (b : build) (vi : version_information)
    (hupd : UpdatableBuild env = false) : store_build env (w "nightly") b vi = vi := by
  have h1 : w "nightly" ≠ w "release" := by decide
  have h2 : w "nightly" ≠ w "beta" := by decide
  simp [store_build, hupd, h1, h2]

theorem parse_build_not_updatable (env : Env) (tokens : List (List Char)) (v : List Char)
    (hupd : UpdatableBuild env = false) :
    parse_build env tokens v = some { version_ := v } := by
  unfold parse_build
  by_cases hl : tokens.length < 6
  · simp [hl]
  · simp [hl, hupd]

/-- The loop body leaves the aggregate untouched on an unsigned build line. -/
theorem parse_line_unsigned (env : Env) (tokens : List (List Char)) (vi : version_information)
    (h : unsigned_build_line env tokens = true) :
    tokens ≠ [] ∧ parse_line env tokens vi = vi := by
  simp only [unsigned_build_line, Bool.and_eq_true, Bool.or_eq_true, is_build_line,
    decide_eq_true_eq, Bool.not_eq_true_eq_eq_false, Bool.not_eq_eq_eq_not, Bool.not_true] at h
  obtain ⟨⟨htype, hsig⟩, hcase⟩ := h
  have hne : tokens ≠ [] := by
    intro e
    subst e
    rcases htype with (ht | ht) | ht <;> exact absurd ht (by decide)
  refine ⟨hne, ?_⟩
  have hr1 : tokens.getD 0 [] ≠ w "resources" := by
    rcases htype with (ht | ht) | ht <;> rw [ht] <;> decide
  have hr2 : tokens.getD 0 [] ≠ w "resource" := by
    rcases htype with (ht | ht) | ht <;> rw [ht] <;> decide
  have hr3 : tokens.getD 0 [] ≠ w "eol" := by
    rcases htype with (ht | ht) | ht <;> rw [ht] <;> decide
  unfold parse_line
  simp only [hr1, hr2, hr3, false_and, if_false]
  split_ifs with h2 hg
  · rfl
  · rcases hcase with (hgate | ⟨hlen, hupd⟩) | ⟨hn, hupd⟩
    · rw [hgate] at hg
      exact absurd hg (by decide)
    · rw [parse_build_unsigned env tokens hlen hupd hsig]
    · rw [parse_build_not_updatable env tokens _ hupd, hn]
      exact store_build_nightly_not_updatable env _ vi hupd
  · rfl

/-- C1 (amended). A `nightly`, `release` or `beta` line that carries no `sig:` token (among
`tokens[6..]`) whose signature verifies over decoded hash, zero byte and version is dropped
without effect whenever it has at least six tokens and the running build is updatable (and
also when it fails its date or version gate, or is a nightly line on a build that is not
updatable): the loop body returns the aggregate it was given, so every channel keeps its
build. A manifest made only of such lines parses to the empty aggregate, with an empty
available build, and `ProcessFinishedData` answers `idle`. -/
theorem C1_unsigned_line_leaves_channels (env : Env) :
    (∀ (tokens : List (List Char)) (vi : version_information),
      unsigned_build_line env tokens = true → parse_line env tokens vi = vi) ∧
    (∀ (lines : List (List Char)) (last : List Char) (fs : FileSys) (eng : Engine)
      (u : CUpdater) (can_download : Bool),
      (∀ l ∈ lines, LF ∉ l ∧ unsigned_build_line env (strtok l delims) = true) →
      LF ∉ last → (last = [] ∨ unsigned_build_line env (strtok last delims) = true) →
      u.raw_version_information_ = join_lines lines ++ last →
      ParseData env u.raw_version_information_ = {} ∧
      (ParseData env u.raw_version_information_).available_ = empty_build ∧
      (ProcessFinishedData env fs eng u can_download).1 = UpdaterState.idle) := by
  refine ⟨fun tokens vi h => (parse_line_unsigned env tokens vi h).2, ?_⟩
  intro lines last fs eng u can_download hlines hlf hlast hraw
  have hloop : parse_loop env u.raw_version_information_.length u.raw_version_information_ {}
      = {} := by
    rw [hraw]
    exact parse_loop_skip env (fun t => unsigned_build_line env t = true)
      (fun tokens vi h => parse_line_unsigned env tokens vi h) lines last {} hlines hlf hlast
      _ (Nat.le_refl _)
  have hparse : ParseData env u.raw_version_information_ = {} := by
    unfold ParseData
    rw [hloop]
    simp [update_available]
  refine ⟨hparse, by rw [hparse]; rfl, ?_⟩
  simp [ProcessFinishedData, ParseData_call, hparse]

set_option maxRecDepth 100000 in
/-- Scenario B on the sample build: the unsigned line has six tokens, is dropped, and the
decision is `idle`. -/
theorem C1_unsigned_line_leaves_channels_witness :
    unsigned_build_line sample_env (strtok scenario_B_line delims) = true ∧
    parse_line sample_env (strtok scenario_B_line delims)
        { stable_ := { version_ := w "4.0.0" } }
      = { stable_ := { version_ := w "4.0.0" } } ∧
    (ProcessFinishedData sample_env empty_fs blocking_engine
      { raw_version_information_ := join_lines [scenario_B_line] ++ [] } true).1
      = UpdaterState.idle :=
  ⟨by decide,
   (C1_unsigned_line_leaves_channels sample_env).1 _ _ (by decide),
   ((C1_unsigned_line_leaves_channels sample_env).2 [scenario_B_line] [] empty_fs
      blocking_engine { raw_version_information_ := join_lines [scenario_B_line] ++ [] } true
      (by decide) (by decide) (Or.inl rfl) rfl).2.2⟩

set_option maxRecDepth 100000 in
/-- C1 as stated fails: the two-token line `release 9.9.9` carries no signature at all, yet
on the sample build (version 3.0.0) it fills the stable channel with a version-only build,
which becomes the available build, and the decision is `newversion`, not `idle`. -/
theorem C1_counterexample :
    is_build_line [w "release", w "9.9.9"] = true ∧
    no_valid_sig sample_env [w "release", w "9.9.9"] = true ∧
    strtok (w "release 9.9.9") delims = [w "release", w "9.9.9"] ∧
    (parse_line sample_env [w "release", w "9.9.9"] {}).stable_
      = { version_ := w "9.9.9" } ∧
    (parse_line sample_env [w "release", w "9.9.9"] {}).stable_
      ≠ ({} : version_information).stable_ ∧
    (ParseData sample_env (w "release 9.9.9" ++ [LF])).available_.version_ = w "9.9.9" ∧
    (ProcessFinishedData sample_env empty_fs blocking_engine
      { raw_version_information_ := w "release 9.9.9" ++ [LF] } true).1
      = UpdaterState.newversion := by
  decide

/-! ## C2: a signed release line -/

theorem toNat_tolower_hex (c : Char) (h : is_hex_digit c = true) :
    let n := (tolower_ascii c).toNat
    (97 ≤ n ∧ n ≤ 102) ∨ (48 ≤ n ∧ n ≤ 57) := by
  simp only [is_hex_digit, hex_char_to_int] at h
  by_cases h1 : 97 ≤ c.toNat ∧ c.toNat ≤ 102
  · left
    have : ¬ (65 ≤ c.toNat ∧ c.toNat ≤ 90) := by omega
    simp only [tolower_ascii, this, if_false]
    exact h1
  · by_cases h2 : 65 ≤ c.toNat ∧ c.toNat ≤ 70
    · left
      have hc : c = Char.ofNat c.toNat := (Char.ofNat_toNat c).symm
      have h3 : c.toNat = 65 ∨ c.toNat = 66 ∨ c.toNat = 67 ∨ c.toNat = 68 ∨ c.toNat = 69
          ∨ c.toNat = 70 := by omega
      rcases h3 with h3 | h3 | h3 | h3 | h3 | h3 <;> rw [h3] at hc <;> subst hc <;> decide
    · by_cases h3 : 48 ≤ c.toNat ∧ c.toNat ≤ 57
      · right
        have : ¬ (65 ≤ c.toNat ∧ c.toNat ≤ 90) := by omega
        simp only [tolower_ascii, this, if_false]
        exact h3
      · simp [h1, h2, h3] at h

/-- A hash made of hexadecimal digits passes the character check after lower-casing. -/
theorem valid_hash_of_hex (hash : List Char) (h : ∀ c ∈ hash, is_hex_digit c = true) :
    valid_hash (str_tolower_ascii hash) = true := by
  simp only [valid_hash, str_tolower_ascii, List.all_eq_true, List.mem_map]
  rintro x ⟨c, hc, rfl⟩
  have := toNat_tolower_hex c (h c hc)
  simp only at this
  simp only [Bool.not_eq_true_eq_eq_false, Bool.not_eq_eq_eq_not, Bool.not_true,
    Bool.and_eq_false_eq_eq_false_or_eq_false, Bool.or_eq_false_iff, decide_eq_false_iff_not]
  omega

theorem signed_message_ne_nil (hash v : List Char) : signed_message hash v ≠ [] := by
  simp [signed_message]

/-- When the last token is `sig:S` and `S` verifies, the signature loop ends with
`valid_signature` true, whatever tokens precede it. -/
theorem build_valid_signature_last (env : Env) (head extra : List (List Char))
    (S hash v : List Char) (hsix : head.length = 6)
    (hsig : env.verify (signed_message hash v) (env.base64_decode S) = true) :
    build_valid_signature env (head ++ extra ++ [w "sig:" ++ S]) hash v = true := by
  unfold build_valid_signature
  have hdrop : (head ++ extra ++ [w "sig:" ++ S]).drop 6 = extra ++ [w "sig:" ++ S] := by
    rw [List.append_assoc, ← hsix, List.drop_left]
  have htake : is_sig_token (w "sig:" ++ S) = true := by
    simp [is_sig_token, w]
  have hdrop4 : (w "sig:" ++ S).drop 4 = S := by
    simp [w]
  rw [hdrop, List.foldl_append]
  simp only [List.foldl_cons, List.foldl_nil, htake, if_true, hdrop4,
    signed_message_ne_nil, ne_eq, not_false_eq_true, or_true, hsig]

theorem toInt64_of_lt (n : Nat) (h : n < 2 ^ 63) : toInt64 n = (n : Int) := by
  have h1 : n % 2 ^ 64 = n := Nat.mod_eq_of_lt (by omega)
  unfold toInt64
  rw [h1, if_pos h]

/-- The loop body on a well-formed signed release line stores the described build in the
stable channel. -/
theorem parse_line_signed_release (env : Env) (V URL SIZE ALGO HASH S : List Char)
    (extra : List (List Char)) (vi : version_information)
    (hupd : UpdatableBuild env = true)
    (hver : env.ConvertToVersionNumber env.GetFileZillaVersion < env.ConvertToVersionNumber V)
    (hurl : GetFilename env URL ≠ [])
    (hsize : parsed_size env SIZE ≠ 0)
    (halgo : equal_insensitive_ascii ALGO (w "sha512") = true)
    (hhex : ∀ c ∈ HASH, is_hex_digit c = true)
    (hsig : env.verify (signed_message HASH V) (env.base64_decode S) = true) :
    parse_line env ([w "release", V, URL, SIZE, ALGO, HASH] ++ extra ++ [w "sig:" ++ S]) vi
      = { vi with stable_ := { url_ := URL, version_ := V, hash_ := str_tolower_ascii HASH,
                               size_ := toInt64 (parsed_size env SIZE) } } := by
  have hv := build_valid_signature_last env [w "release", V, URL, SIZE, ALGO, HASH] extra S
    HASH V rfl hsig
  have hh := valid_hash_of_hex HASH hhex
  have h1 : w "release" ≠ w "resources" := by decide
  have h2 : w "release" ≠ w "resource" := by decide
  have h3 : w "release" ≠ w "eol" := by decide
  have h4 : w "release" ≠ w "nightly" := by decide
  have hgate : passes_gate env (w "release") V = true := by
    simp only [passes_gate, h4, if_false, true_or, if_true, Bool.not_eq_true_eq_eq_false,
      Bool.not_eq_eq_eq_not, Bool.not_true, decide_eq_false_iff_not]
    omega
  have hbuild : parse_build env ([w "release", V, URL, SIZE, ALGO, HASH] ++ extra
      ++ [w "sig:" ++ S]) V
      = some { url_ := URL, version_ := V, hash_ := str_tolower_ascii HASH,
               size_ := toInt64 (parsed_size env SIZE) } := by
    have hlen : ¬ ([w "release", V, URL, SIZE, ALGO, HASH] ++ extra
        ++ [w "sig:" ++ S]).length < 6 := by
      simp only [List.length_append, List.length_cons, List.length_nil]
      omega
    unfold parse_build
    simp only [hlen, if_false, hupd, if_true]
    have g2 : ([w "release", V, URL, SIZE, ALGO, HASH] ++ extra ++ [w "sig:" ++ S]).getD 2 []
        = URL := rfl
    have g3 : ([w "release", V, URL, SIZE, ALGO, HASH] ++ extra ++ [w "sig:" ++ S]).getD 3 []
        = SIZE := rfl
    have g4 : ([w "release", V, URL, SIZE, ALGO, HASH] ++ extra ++ [w "sig:" ++ S]).getD 4 []
        = ALGO := rfl
    have g5 : ([w "release", V, URL, SIZE, ALGO, HASH] ++ extra ++ [w "sig:" ++ S]).getD 5 []
        = HASH := rfl
    rw [g2, g3, g4, g5]
    simp only [hurl, halgo, hsize, hv, hh, if_false, Bool.true_eq_false]
  have hlen2 : ¬ ([w "release", V, URL, SIZE, ALGO, HASH] ++ extra
      ++ [w "sig:" ++ S]).length < 2 := by
    simp only [List.length_append, List.length_cons, List.length_nil]
    omega
  have g0 : ([w "release", V, URL, SIZE, ALGO, HASH] ++ extra ++ [w "sig:" ++ S]).getD 0 []
      = w "release" := rfl
  have g1 : ([w "release", V, URL, SIZE, ALGO, HASH] ++ extra ++ [w "sig:" ++ S]).getD 1 []
      = V := rfl
  unfold parse_line
  simp only [g0, g1, hlen2, if_false, h1, h2, h3, false_and, hgate, if_true, hbuild]
  simp [store_build, h4]

/-- C2 (amended). On an updatable running build, for every manifest consisting of a single
line (with or without its closing line feed) whose tokens are
`release V URL SIZE ALGO HASH ... sig:S`, where the version number of `V` exceeds the running
version's, `URL` yields a non-empty filename, `SIZE` parses to a non-zero integer below
`2^63`, `ALGO` equals `sha512` case-insensitively, `HASH` is made of hex digits and `S`
verifies over (decoded `HASH`, zero byte, `V`): `ParseData` stores in the stable channel the
build with `url = URL`, `version = V`, `hash = lowercase(HASH)`, `size = SIZE`, and
`available` is that build, for every beta-inclusion level. -/
theorem C2_signed_release_line (env : Env) (line tail V URL SIZE ALGO HASH S : List Char)
    (extra : List (List Char))
    (hupd : UpdatableBuild env = true)
    (hlf : LF ∉ line) (htail : tail = [] ∨ tail = [LF])
    (htok : strtok line delims
      = [w "release", V, URL, SIZE, ALGO, HASH] ++ extra ++ [w "sig:" ++ S])
    (hver : env.ConvertToVersionNumber env.GetFileZillaVersion < env.ConvertToVersionNumber V)
    (hurl : GetFilename env URL ≠ [])
    (hsize : parsed_size env SIZE ≠ 0) (hfit : parsed_size env SIZE < 2 ^ 63)
    (halgo : equal_insensitive_ascii ALGO (w "sha512") = true)
    (hhex : ∀ c ∈ HASH, is_hex_digit c = true)
    (hsig : env.verify (signed_message HASH V) (env.base64_decode S) = true) :
    (ParseData env (line ++ tail)).stable_
      = { url_ := URL, version_ := V, hash_ := str_tolower_ascii HASH,
          size_ := (parsed_size env SIZE : Int) } ∧
    (ParseData env (line ++ tail)).available_
      = { url_ := URL, version_ := V, hash_ := str_tolower_ascii HASH,
          size_ := (parsed_size env SIZE : Int) } := by
  have htokne : strtok line delims ≠ [] := by rw [htok]; simp
  have hV : V ≠ [] := strtok_ne_nil line delims V (by rw [htok]; simp)
  have hline : line ≠ [] := by
    intro e
    rw [e] at htokne
    exact htokne rfl
  have hstep := parse_line_signed_release env V URL SIZE ALGO HASH S extra {} hupd hver hurl
    hsize halgo hhex hsig
  rw [toInt64_of_lt _ hfit] at hstep
  have hloop : parse_loop env (line ++ tail).length (line ++ tail) {}
      = { stable_ := { url_ := URL, version_ := V, hash_ := str_tolower_ascii HASH,
                       size_ := (parsed_size env SIZE : Int) } } := by
    rcases htail with ht | ht
    · subst ht
      rw [List.append_nil, parse_loop_last env _ line {} (Nat.le_refl _) hlf hline htokne,
        htok, hstep]
    · subst ht
      have hlen : (line ++ [LF]).length = line.length + 1 := by simp
      rw [hlen, parse_loop_line env _ line [] {} hlf htokne, parse_loop_nil, htok, hstep]
  unfold ParseData
  rw [hloop]
  simp [update_available, hV]

set_option maxRecDepth 100000 in
/-- Scenario A on the sample build: every premise holds for the signed 9.9.9 line, and the
stable and available builds are the announced one. -/
theorem C2_signed_release_line_witness :
    (UpdatableBuild sample_env = true ∧ LF ∉ scenario_A_line ∧
      strtok scenario_A_line delims
        = [w "release", w "9.9.9", w "http://x/f.tar.bz2", w "3", w "sha512", sample_hash]
            ++ [] ++ [w "sig:" ++ w "P"] ∧
      parsed_size sample_env (w "3") ≠ 0 ∧ parsed_size sample_env (w "3") < 2 ^ 63) ∧
    ((ParseData sample_env (scenario_A_line ++ [LF])).stable_
      = { url_ := w "http://x/f.tar.bz2", version_ := w "9.9.9",
          hash_ := str_tolower_ascii sample_hash,
          size_ := (parsed_size sample_env (w "3") : Int) } ∧
    (ParseData sample_env (scenario_A_line ++ [LF])).available_
      = { url_ := w "http://x/f.tar.bz2", version_ := w "9.9.9",
          hash_ := str_tolower_ascii sample_hash,
          size_ := (parsed_size sample_env (w "3") : Int) }) :=
  ⟨by decide,
   C2_signed_release_line sample_env scenario_A_line [LF] (w "9.9.9") (w "http://x/f.tar.bz2")
     (w "3") (w "sha512") sample_hash (w "P") [] (by decide) (by decide) (Or.inr rfl)
     (by decide) (by decide) (by decide) (by decide) (by decide) (by decide) (by decide)
     (by decide)⟩

set_option maxRecDepth 100000 in
/-- C2 as stated fails: with the size token `9223372036854775808` every premise of the claim
holds on the sample build (the token parses to the non-zero integer `2^63`), but the stored
size is `-2^63`, not the value of the token. -/
theorem C2_counterexample :
    UpdatableBuild sample_env = true ∧
    strtok scenario_big_line delims
      = [w "release", w "9.9.9", w "http://x/f.tar.bz2", w "9223372036854775808", w "sha512",
          sample_hash, w "sig:P"] ∧
    sample_env.ConvertToVersionNumber sample_env.GetFileZillaVersion
      < sample_env.ConvertToVersionNumber (w "9.9.9") ∧
    GetFilename sample_env (w "http://x/f.tar.bz2") ≠ [] ∧
    parsed_size sample_env (w "9223372036854775808") = 9223372036854775808 ∧
    equal_insensitive_ascii (w "sha512") (w "sha512") = true ∧
    (∀ c ∈ sample_hash, is_hex_digit c = true) ∧
    sample_env.verify (signed_message sample_hash (w "9.9.9")) (sample_env.base64_decode (w "P"))
      = true ∧
    (ParseData sample_env (scenario_big_line ++ [LF])).stable_.size_ = -9223372036854775808 ∧
    (ParseData sample_env (scenario_big_line ++ [LF])).stable_.size_
      ≠ (parsed_size sample_env (w "9223372036854775808") : Int) := by
  decide

/-! ## C3: release lines that are not newer -/

/-- The loop body drops a release line whose version does not exceed the running one. -/
theorem parse_line_old_release (env : Env) (tokens : List (List Char))
    (vi : version_information) (h : old_release_line env tokens = true) :
    tokens ≠ [] ∧ parse_line env tokens vi = vi := by
  simp only [old_release_line, Bool.and_eq_true, decide_eq_true_eq] at h
  obtain ⟨⟨htype, hlen⟩, hver⟩ := h
  have hne : tokens ≠ [] := by
    intro e
    subst e
    simp at hlen
  refine ⟨hne, ?_⟩
  have h1 : w "release" ≠ w "resources" := by decide
  have h2 : w "release" ≠ w "resource" := by decide
  have h3 : w "release" ≠ w "eol" := by decide
  have h4 : w "release" ≠ w "nightly" := by decide
  have hgate : passes_gate env (w "release") (tokens.getD 1 []) = false := by
    simp only [passes_gate, h4, if_false, true_or, if_true, Bool.not_eq_eq_eq_not, Bool.not_false,
      decide_eq_true_eq]
    exact hver
  have hl : ¬ tokens.length < 2 := by omega
  unfold parse_line
  simp only [htype, hl, if_false, h1, h2, h3, false_and, hgate, Bool.false_eq_true]

/-- C3. For every manifest that contains only release lines whose version converts to a
number less than or equal to the running version's number (in particular a single such
line, with or without its closing line feed), `ParseData` yields the empty available build:
empty version, URL and hash, size -1. The environment is arbitrary, so this holds for
every beta-inclusion level and build kind. -/
theorem C3_old_release_offers_nothing (env : Env) (lines : List (List Char))
    (last : List Char)
    (hlines : ∀ l ∈ lines, LF ∉ l ∧ old_release_line env (strtok l delims) = true)
    (hlf : LF ∉ last)
    (hlast : last = [] ∨ old_release_line env (strtok last delims) = true) :
    (ParseData env (join_lines lines ++ last)).available_
      = { url_ := [], version_ := [], hash_ := [], size_ := -1 } := by
  have hloop := parse_loop_skip env (fun t => old_release_line env t = true)
    (fun tokens vi h => parse_line_old_release env tokens vi h) lines last {} hlines hlf hlast
    _ (Nat.le_refl _)
  unfold ParseData
  rw [hloop]
  simp [update_available]

set_option maxRecDepth 100000 in
/-- On the sample build (version 3.0.0) a manifest holding the release line for 3.0.0,
once closed by a line feed and once not, offers nothing. -/
theorem C3_old_release_offers_nothing_witness :
    (old_release_line sample_env (strtok (w "release 3.0.0 http://x/f.tar.bz2") delims)
      = true ∧ LF ∉ w "release 3.0.0 http://x/f.tar.bz2") ∧
    (ParseData sample_env (join_lines [w "release 3.0.0 http://x/f.tar.bz2"] ++ [])).available_
      = { url_ := [], version_ := [], hash_ := [], size_ := -1 } ∧
    (ParseData sample_env (join_lines [] ++ w "release 3.0.0 http://x/f.tar.bz2")).available_
      = { url_ := [], version_ := [], hash_ := [], size_ := -1 } :=
  ⟨by decide,
   C3_old_release_offers_nothing sample_env [w "release 3.0.0 http://x/f.tar.bz2"] []
     (by decide) (by decide) (Or.inl rfl),
   C3_old_release_offers_nothing sample_env [] (w "release 3.0.0 http://x/f.tar.bz2")
     (by decide) (by decide) (Or.inr (by decide))⟩

/-! ## C4: the selection policy -/

/-- C4 (amended). `update_available` implements the selection policy: if the nightly channel
holds a build with a non-empty URL and the beta-inclusion level is 2, `available` becomes
the nightly build; else if the beta channel holds a build with a non-empty version and the
level is not 0, the beta build; else if the stable channel holds a build with a non-empty
version, the stable build; else the empty build. In every case `available` equals one
channel's build or the empty build as a whole, and no other field of the aggregate
changes. -/
theorem C4_update_available_policy (checkbeta : Int) (vi : version_information) :
    (vi.nightly_.url_ ≠ [] ∧ checkbeta = 2 →
      (update_available checkbeta vi).available_ = vi.nightly_) ∧
    (¬ (vi.nightly_.url_ ≠ [] ∧ checkbeta = 2) → vi.beta_.version_ ≠ [] ∧ checkbeta ≠ 0 →
      (update_available checkbeta vi).available_ = vi.beta_) ∧
    (¬ (vi.nightly_.url_ ≠ [] ∧ checkbeta = 2) → ¬ (vi.beta_.version_ ≠ [] ∧ checkbeta ≠ 0) →
      vi.stable_.version_ ≠ [] →
      (update_available checkbeta vi).available_ = vi.stable_) ∧
    (¬ (vi.nightly_.url_ ≠ [] ∧ checkbeta = 2) → ¬ (vi.beta_.version_ ≠ [] ∧ checkbeta ≠ 0) →
      vi.stable_.version_ = [] →
      (update_available checkbeta vi).available_ = empty_build) ∧
    ((update_available checkbeta vi).available_ = vi.nightly_ ∨
      (update_available checkbeta vi).available_ = vi.beta_ ∨
      (update_available checkbeta vi).available_ = vi.stable_ ∨
      (update_available checkbeta vi).available_ = empty_build) ∧
    ((update_available checkbeta vi).nightly_ = vi.nightly_ ∧
      (update_available checkbeta vi).beta_ = vi.beta_ ∧
      (update_available checkbeta vi).stable_ = vi.stable_ ∧
      (update_available checkbeta vi).changelog_ = vi.changelog_ ∧
      (update_available checkbeta vi).resources_ = vi.resources_ ∧
      (update_available checkbeta vi).eol_ = vi.eol_) := by
  unfold update_available
  split_ifs with h1 h2 h3
  · refine ⟨fun _ => rfl, fun h => absurd h1 h, fun h => absurd h1 h, fun h => absurd h1 h,
      Or.inl rfl, rfl, rfl, rfl, rfl, rfl, rfl⟩
  · refine ⟨fun h => absurd h h1, fun _ _ => rfl, fun _ h => absurd h2 h,
      fun _ h => absurd h2 h, Or.inr (Or.inl rfl), rfl, rfl, rfl, rfl, rfl, rfl⟩
  · refine ⟨fun h => absurd h h1, fun _ h => absurd h h2, fun _ _ _ => rfl,
      fun _ _ h => absurd h h3, Or.inr (Or.inr (Or.inl rfl)), rfl, rfl, rfl, rfl, rfl, rfl⟩
  · refine ⟨fun h => absurd h h1, fun _ h => absurd h h2, fun _ _ h => absurd h h3,
      fun _ _ _ => rfl, Or.inr (Or.inr (Or.inr rfl)), rfl, rfl, rfl, rfl, rfl, rfl⟩

/-- The four branches of the policy at level 2, on aggregates whose channels differ. -/
theorem C4_update_available_policy_witness :
    (update_available 2
      { stable_ := { version_ := w "4.0.0" }, beta_ := { version_ := w "4.1.0-beta1" },
        nightly_ := { version_ := w "2030-01-01", url_ := w "http://x/n.tar.bz2" } }).available_
      = { version_ := w "2030-01-01", url_ := w "http://x/n.tar.bz2" } ∧
    (update_available 1
      { stable_ := { version_ := w "4.0.0" }, beta_ := { version_ := w "4.1.0-beta1" },
        nightly_ := { version_ := w "2030-01-01", url_ := w "http://x/n.tar.bz2" } }).available_
      = { version_ := w "4.1.0-beta1" } :=
  ⟨(C4_update_available_policy 2
      { stable_ := { version_ := w "4.0.0" }, beta_ := { version_ := w "4.1.0-beta1" },
        nightly_ := { version_ := w "2030-01-01", url_ := w "http://x/n.tar.bz2" } }).1
      (by decide),
   (C4_update_available_policy 1
      { stable_ := { version_ := w "4.0.0" }, beta_ := { version_ := w "4.1.0-beta1" },
        nightly_ := { version_ := w "2030-01-01", url_ := w "http://x/n.tar.bz2" } }).2.1
      (by decide) (by decide)⟩

set_option maxRecDepth 100000 in
/-- C4 as stated fails: a nightly channel that holds a build with a non-empty version but no
URL is not selected at level 2; `available` becomes the empty build. The two-token line
`nightly 2030-01-01` puts the parser in exactly that situation. -/
theorem C4_counterexample :
    ({ nightly_ := { version_ := w "2030-01-01" } } : version_information).nightly_.version_
      ≠ [] ∧
    (update_available 2 { nightly_ := { version_ := w "2030-01-01" } }).available_
      = empty_build ∧
    (update_available 2 { nightly_ := { version_ := w "2030-01-01" } }).available_
      ≠ ({ nightly_ := { version_ := w "2030-01-01" } } : version_information).nightly_ ∧
    sample_env_level2.checkbeta = 2 ∧
    (ParseData sample_env_level2 (w "nightly 2030-01-01" ++ [LF])).nightly_
      = { version_ := w "2030-01-01" } ∧
    (ParseData sample_env_level2 (w "nightly 2030-01-01" ++ [LF])).available_
      = empty_build := by
  decide

/-! ## C5: the byte filter -/

theorem invalid_byte_eq_false (b : Nat) :
    invalid_byte b = false ↔ (10 ≤ b % 256 ∧ b % 256 ≤ 127) := by
  simp only [invalid_byte, Bool.or_eq_false_iff, decide_eq_false_iff_not]
  omega

theorem FilterOutput_loop_some (buf : List Nat) (h : ∀ b ∈ buf, invalid_byte b = false) :
    FilterOutput_loop buf = some (buf.map (fun b => Char.ofNat (b % 256))) := by
  induction buf with
  | nil => rfl
  | cons b bs ih =>
    have hb := h b (by simp)
    have hbs := ih (fun x hx => h x (by simp [hx]))
    simp [FilterOutput_loop, hb, hbs]

theorem FilterOutput_loop_none (buf : List Nat) (h : ∃ b ∈ buf, invalid_byte b = true) :
    FilterOutput_loop buf = none := by
  induction buf with
  | nil => simp at h
  | cons b bs ih =>
    by_cases hb : invalid_byte b = true
    · simp [FilterOutput_loop, hb]
    · obtain ⟨x, hx, hxi⟩ := h
      have hx2 : x ∈ bs := by
        rcases List.mem_cons.mp hx with e | e
        · subst e
          exact absurd hxi hb
        · exact e
      simp [FilterOutput_loop, hb, ih ⟨x, hx2, hxi⟩]

/-- C5 (amended). In state `checking`, `FilterOutput` accepts the received buffer (returns
true and sets the raw manifest text to exactly the buffer's bytes, leaving everything else
as it was) if and only if every byte lies in the range [10,127], which holds line feed and
carriage return but not the tab; for every other buffer it returns false and leaves the raw
manifest text empty. -/
theorem C5_filter_output (u : CUpdater) (h : u.state_ = UpdaterState.checking) :
    ((FilterOutput u).1 = true ↔ ∀ b ∈ u.output_buffer_, 10 ≤ b % 256 ∧ b % 256 ≤ 127) ∧
    ((FilterOutput u).1 = true → (FilterOutput u).2
      = { u with raw_version_information_ :=
            u.output_buffer_.map (fun b => Char.ofNat (b % 256)) }) ∧
    ((FilterOutput u).1 = false → (FilterOutput u).2
      = { u with raw_version_information_ := [] }) := by
  by_cases hall : ∀ b ∈ u.output_buffer_, invalid_byte b = false
  · have hl := FilterOutput_loop_some u.output_buffer_ hall
    have hr : ∀ b ∈ u.output_buffer_, 10 ≤ b % 256 ∧ b % 256 ≤ 127 :=
      fun b hb => (invalid_byte_eq_false b).mp (hall b hb)
    have hF : FilterOutput u
        = (true, { u with raw_version_information_ :=
                            u.output_buffer_.map (fun b => Char.ofNat (b % 256)) }) := by
      simp only [FilterOutput, h, ne_eq, not_true_eq_false, if_false, hl]
    rw [hF]
    exact ⟨⟨fun _ => hr, fun _ => rfl⟩, fun _ => rfl, fun e => Bool.noConfusion e⟩
  · have hex : ∃ b ∈ u.output_buffer_, invalid_byte b = true := by
      by_contra hc
      apply hall
      intro b hb
      by_contra hb2
      exact hc ⟨b, hb, by simpa using hb2⟩
    have hl := FilterOutput_loop_none u.output_buffer_ hex
    have hr : ¬ ∀ b ∈ u.output_buffer_, 10 ≤ b % 256 ∧ b % 256 ≤ 127 :=
      fun hc => hall (fun b hb => (invalid_byte_eq_false b).mpr (hc b hb))
    have hF : FilterOutput u = (false, { u with raw_version_information_ := [] }) := by
      simp only [FilterOutput, h, ne_eq, not_true_eq_false, if_false, hl]
    rw [hF]
    exact ⟨⟨fun e => Bool.noConfusion e, fun e => absurd e hr⟩,
      fun e => Bool.noConfusion e, fun _ => rfl⟩

/-- The buffer `r`, line feed, carriage return is accepted and copied. -/
theorem C5_filter_output_witness :
    ({ state_ := UpdaterState.checking, output_buffer_ := [114, 10, 13] } : CUpdater).state_
      = UpdaterState.checking ∧
    (FilterOutput { state_ := UpdaterState.checking, output_buffer_ := [114, 10, 13] }).1
      = true ∧
    (FilterOutput { state_ := UpdaterState.checking, output_buffer_ := [114, 10, 13] }).2
      = { state_ := UpdaterState.checking, output_buffer_ := [114, 10, 13],
          raw_version_information_ := [Char.ofNat 114, Char.ofNat 10, Char.ofNat 13] } :=
  ⟨rfl,
   (C5_filter_output { state_ := UpdaterState.checking, output_buffer_ := [114, 10, 13] }
      rfl).1.mpr (by decide),
   (C5_filter_output { state_ := UpdaterState.checking, output_buffer_ := [114, 10, 13] }
      rfl).2.1 (by decide)⟩

/-- C5 as stated fails: in the buffer `a`, tab, `b` every byte is in [10,127] or is a tab,
yet `FilterOutput` returns false and the raw manifest text is left empty. -/
theorem C5_counterexample :
    (∀ b ∈ [97, 9, 98], (10 ≤ b ∧ b ≤ 127) ∨ b = 9 ∨ b = 13 ∨ b = 10) ∧
    (FilterOutput { state_ := UpdaterState.checking, output_buffer_ := [97, 9, 98] }).1
      = false ∧
    (FilterOutput { state_ := UpdaterState.checking, output_buffer_ := [97, 9, 98]
      }).2.raw_version_information_ = [] := by
  decide

/-! ## C6: the decision after a parse -/

/-- `ProcessFinishedDownload` answers `newversion` or `newversion_ready`. -/
theorem ProcessFinishedDownload_cases (env : Env) (fs : FileSys) (u : CUpdater) :
    (ProcessFinishedDownload env fs u).1 = UpdaterState.newversion ∨
    (ProcessFinishedDownload env fs u).1 = UpdaterState.newversion_ready := by
  unfold ProcessFinishedDownload
  simp only
  split_ifs
  · exact Or.inl rfl
  · exact Or.inl rfl
  · exact Or.inl rfl
  · exact Or.inl rfl
  · exact Or.inr rfl

/-- C6. `ProcessFinishedData` returns `eol` whenever the parsed eol flag is set, whatever
builds were parsed; otherwise `idle` when the available build has an empty version;
otherwise `newversion` when the available build has an empty URL. For every input the
result is one of `eol`, `idle`, `newversion`, `newversion_ready`, `newversion_downloading`,
and never `failed`, `checking` or `newversion_stale`. -/
theorem C6_decision_after_parse (env : Env) (fs : FileSys) (eng : Engine) (u : CUpdater)
    (can_download : Bool) :
    ((ParseData env u.raw_version_information_).eol_ = true →
      (ProcessFinishedData env fs eng u can_download).1 = UpdaterState.eol) ∧
    ((ParseData env u.raw_version_information_).eol_ = false →
      (ParseData env u.raw_version_information_).available_.version_ = [] →
      (ProcessFinishedData env fs eng u can_download).1 = UpdaterState.idle) ∧
    ((ParseData env u.raw_version_information_).eol_ = false →
      (ParseData env u.raw_version_information_).available_.version_ ≠ [] →
      (ParseData env u.raw_version_information_).available_.url_ = [] →
      (ProcessFinishedData env fs eng u can_download).1 = UpdaterState.newversion) ∧
    ((ProcessFinishedData env fs eng u can_download).1 = UpdaterState.eol ∨
      (ProcessFinishedData env fs eng u can_download).1 = UpdaterState.idle ∨
      (ProcessFinishedData env fs eng u can_download).1 = UpdaterState.newversion ∨
      (ProcessFinishedData env fs eng u can_download).1 = UpdaterState.newversion_ready ∨
      (ProcessFinishedData env fs eng u can_download).1
        = UpdaterState.newversion_downloading) ∧
    ((ProcessFinishedData env fs eng u can_download).1 ≠ UpdaterState.failed ∧
      (ProcessFinishedData env fs eng u can_download).1 ≠ UpdaterState.checking ∧
      (ProcessFinishedData env fs eng u can_download).1 ≠ UpdaterState.newversion_stale) := by
  have hcases : (ProcessFinishedData env fs eng u can_download).1 = UpdaterState.eol ∨
      (ProcessFinishedData env fs eng u can_download).1 = UpdaterState.idle ∨
      (ProcessFinishedData env fs eng u can_download).1 = UpdaterState.newversion ∨
      (ProcessFinishedData env fs eng u can_download).1 = UpdaterState.newversion_ready ∨
      (ProcessFinishedData env fs eng u can_download).1
        = UpdaterState.newversion_downloading := by
    unfold ProcessFinishedData
    simp only
    split_ifs
    · exact Or.inl rfl
    · exact Or.inr (Or.inl rfl)
    · exact Or.inr (Or.inr (Or.inr (Or.inl rfl)))
    · exact Or.inr (Or.inr (Or.inl rfl))
    · rcases ProcessFinishedDownload_cases env fs
        { ParseData_call env u with m_use_internal_rootcert := false } with h | h
      · exact Or.inr (Or.inr (Or.inl h))
      · exact Or.inr (Or.inr (Or.inr (Or.inl h)))
    · exact Or.inr (Or.inr (Or.inl rfl))
    · exact Or.inr (Or.inr (Or.inl rfl))
    · exact Or.inr (Or.inr (Or.inr (Or.inr rfl)))
    · exact Or.inr (Or.inr (Or.inl rfl))
  refine ⟨?_, ?_, ?_, hcases, ?_⟩
  · intro h
    simp [ProcessFinishedData, ParseData_call, h]
  · intro h hv
    simp [ProcessFinishedData, ParseData_call, h, hv]
  · intro h hv hu
    simp [ProcessFinishedData, ParseData_call, h, hv, hu]
  · rcases hcases with h | h | h | h | h <;> rw [h] <;> decide

set_option maxRecDepth 100000 in
/-- Three runs on the sample builds: a validly signed `eol` line next to a signed release
line gives `eol`; the empty manifest gives `idle`; the version-only line `release 9.9.9`
gives `newversion`. -/
theorem C6_decision_after_parse_witness :
    (ProcessFinishedData sample_env_msw empty_fs blocking_engine
      { raw_version_information_ := join_lines [scenario_D_line, scenario_A_line] } true).1
      = UpdaterState.eol ∧
    (ProcessFinishedData sample_env empty_fs blocking_engine
      { raw_version_information_ := [] } true).1 = UpdaterState.idle ∧
    (ProcessFinishedData sample_env empty_fs blocking_engine
      { raw_version_information_ := w "release 9.9.9" } true).1 = UpdaterState.newversion :=
  ⟨(C6_decision_after_parse sample_env_msw empty_fs blocking_engine
      { raw_version_information_ := join_lines [scenario_D_line, scenario_A_line] } true).1
      (by decide),
   (C6_decision_after_parse sample_env empty_fs blocking_engine
      { raw_version_information_ := [] } true).2.1 (by decide) (by decide),
   (C6_decision_after_parse sample_env empty_fs blocking_engine
      { raw_version_information_ := w "release 9.9.9" } true).2.2.1 (by decide) (by decide)
      (by decide)⟩

/-! ## C7: the decision when the available build has a URL -/

theorem parse_build_version (env : Env) (tokens : List (List Char)) (v : List Char)
    (b : build) (h : parse_build env tokens v = some b) : b.version_ = v := by
  unfold parse_build at h
  simp only at h
  split_ifs at h <;> (cases h; rfl)

theorem store_build_versioned (env : Env) (type : List Char) (b : build)
    (vi : version_information) (hb : b.version_ ≠ []) (h : channels_versioned vi) :
    channels_versioned (store_build env type b vi) := by
  unfold store_build
  obtain ⟨h1, h2, h3⟩ := h
  split_ifs
  · exact ⟨h1, h2, fun _ => hb⟩
  · exact ⟨fun _ => hb, h2, h3⟩
  · exact ⟨h1, fun _ => hb, h3⟩
  · exact ⟨h1, h2, h3⟩

theorem getD_one_mem (tokens : List (List Char)) (h : ¬ tokens.length < 2) :
    tokens.getD 1 [] ∈ tokens := by
  match tokens, h with
  | [], h => simp at h
  | [_], h => simp at h
  | _ :: b :: _, _ => simp

theorem parse_line_versioned (env : Env) (tokens : List (List Char))
    (vi : version_information) (htok : ∀ t ∈ tokens, t ≠ [])
    (h : channels_versioned vi) : channels_versioned (parse_line env tokens vi) := by
  unfold parse_line
  simp only
  split_ifs with h2 _ _ _ _ _ _ hg
  · exact h
  · exact h
  · exact h
  · exact h
  · exact h
  · exact h
  · exact h
  · cases hb : parse_build env tokens (tokens.getD 1 []) with
    | none => exact h
    | some b =>
      have hv := parse_build_version env tokens _ b hb
      apply store_build_versioned env _ b vi _ h
      rw [hv]
      exact htok _ (getD_one_mem tokens h2)
  · exact h

theorem parse_loop_versioned (env : Env) (n : Nat) :
    ∀ (raw : List Char) (vi : version_information), channels_versioned vi →
      channels_versioned (parse_loop env n raw vi) := by
  induction n with
  | zero => intro raw vi h; exact h
  | succ k ih =>
    intro raw vi h
    unfold parse_loop
    simp only
    split_ifs
    · exact h
    · exact h
    · apply ih
      exact parse_line_versioned env _ vi (strtok_ne_nil _ _) h

/-- After `ParseData` an available build with a URL has a version. -/
theorem ParseData_available_version (env : Env) (raw : List Char)
    (h : (ParseData env raw).available_.url_ ≠ []) :
    (ParseData env raw).available_.version_ ≠ [] := by
  have hinv := parse_loop_versioned env raw.length raw {}
    ⟨fun e => absurd rfl e, fun e => absurd rfl e, fun e => absurd rfl e⟩
  obtain ⟨h1, h2, h3⟩ := hinv
  unfold ParseData update_available at h ⊢
  split_ifs at h ⊢ with c1 c2 c3
  · exact h3 h
  · exact c2.1
  · exact c3
  · exact absurd rfl h

/-- C7 (amended). When the parsed eol flag is not set and the available build has a URL:
`ProcessFinishedData` returns `newversion_ready`, records the local path and neither
queues nor executes a command whenever `GetLocalFile(available, true)` names an existing
file; it returns `newversion_downloading` if and only if no such file exists, the temp and
local paths are non-empty, the staged temp file is missing or smaller than the expected
size, downloading is allowed, and `Download` returned would-block; and in that same
situation it returns `newversion` when downloading is not allowed or `Download` returns
any other result. -/
theorem C7_decision_with_url (env : Env) (fs : FileSys) (eng : Engine) (u : CUpdater)
    (can_download : Bool)
    (heol : (ParseData env u.raw_version_information_).eol_ = false)
    (hurl : (ParseData env u.raw_version_information_).available_.url_ ≠ []) :
    let u1 := ParseData_call env u
    let available := u1.version_information_.available_
    let temp := GetTempFile env u1.version_information_
    let local_file := GetLocalFile env fs available true
    let u2 : CUpdater := { u1 with m_use_internal_rootcert := false }
    let r := ProcessFinishedData env fs eng u can_download
    (local_file ≠ [] ∧ fs.get_file_type_known local_file = true →
      r.1 = UpdaterState.newversion_ready ∧ r.2.local_file_ = local_file ∧
      r.2.pending_commands_ = u.pending_commands_ ∧ r.2.engine_calls = u.engine_calls) ∧
    (r.1 = UpdaterState.newversion_downloading ↔
      ¬ (local_file ≠ [] ∧ fs.get_file_type_known local_file = true) ∧
      temp ≠ [] ∧ local_file ≠ [] ∧
      (fs.get_size temp < 0 ∨ fs.get_size temp < available.size_) ∧
      can_download = true ∧
      (Download env eng u2 available.url_ temp).1 = FZ_REPLY_WOULDBLOCK) ∧
    (¬ (local_file ≠ [] ∧ fs.get_file_type_known local_file = true) →
      temp ≠ [] → local_file ≠ [] →
      (fs.get_size temp < 0 ∨ fs.get_size temp < available.size_) →
      (can_download = false ∨
        (Download env eng u2 available.url_ temp).1 ≠ FZ_REPLY_WOULDBLOCK) →
      r.1 = UpdaterState.newversion) := by
  intro u1 available temp local_file u2 r
  have hv : (ParseData_call env u).version_information_.available_.version_ ≠ [] :=
    ParseData_available_version env _ hurl
  have heol1 : (ParseData_call env u).version_information_.eol_ = false := heol
  have hurl1 : (ParseData_call env u).version_information_.available_.url_ ≠ [] := hurl
  have hr : r = (if local_file ≠ [] ∧ fs.get_file_type_known local_file = true then
        (UpdaterState.newversion_ready, { u1 with local_file_ := local_file })
      else if temp = [] ∨ local_file = [] then (UpdaterState.newversion, u2)
      else if fs.get_size temp ≥ 0 ∧ fs.get_size temp ≥ available.size_ then
        ProcessFinishedDownload env fs u2
      else if can_download = false then (UpdaterState.newversion, u2)
      else if (Download env eng u2 available.url_ temp).1 ≠ FZ_REPLY_WOULDBLOCK then
        (UpdaterState.newversion, (Download env eng u2 available.url_ temp).2)
      else (UpdaterState.newversion_downloading,
        (Download env eng u2 available.url_ temp).2)) := by
    show ProcessFinishedData env fs eng u can_download = _
    unfold ProcessFinishedData
    simp only [heol1, hv, hurl1, ne_eq, not_false_eq_true, if_true, if_false,
      Bool.false_eq_true]
  rw [hr]
  refine ⟨?_, ?_, ?_⟩
  · intro h
    rw [if_pos h]
    exact ⟨rfl, rfl, rfl, rfl⟩
  · constructor
    · intro h
      split_ifs at h with c1 c2 c3 c4 c5
      · rcases ProcessFinishedDownload_cases env fs u2 with e | e <;> rw [e] at h <;> cases h
      · refine ⟨c1, fun e => c2 (Or.inl e), fun e => c2 (Or.inr e), ?_, ?_, ?_⟩
        · by_contra hc
          apply c3
          constructor <;> omega
        · cases hcd : can_download
          · exact absurd hcd c4
          · rfl
        · by_contra hc
          exact c5 hc
    · rintro ⟨c1, c2, c3, c4, c5, c6⟩
      have n2 : ¬ (temp = [] ∨ local_file = []) := by
        rintro (e | e)
        · exact c2 e
        · exact c3 e
      have n3 : ¬ (fs.get_size temp ≥ 0 ∧ fs.get_size temp ≥ available.size_) := by
        rintro ⟨a, b⟩
        omega
      have n4 : ¬ can_download = false := by rw [c5]; decide
      have n5 : ¬ (Download env eng u2 available.url_ temp).1 ≠ FZ_REPLY_WOULDBLOCK :=
        fun e => e c6
      rw [if_neg c1, if_neg n2, if_neg n3, if_neg n4, if_neg n5]
  · intro c1 c2 c3 c4 c5
    have n2 : ¬ (temp = [] ∨ local_file = []) := by
      rintro (e | e)
      · exact c2 e
      · exact c3 e
    have n3 : ¬ (fs.get_size temp ≥ 0 ∧ fs.get_size temp ≥ available.size_) := by
      rintro ⟨a, b⟩
      omega
    rw [if_neg c1, if_neg n2, if_neg n3]
    rcases c5 with c5 | c5
    · rw [if_pos c5]
    · by_cases c4b : can_download = false
      · rw [if_pos c4b]
      · rw [if_neg c4b, if_pos c5]

set_option maxRecDepth 100000 in
/-- Scenario A on the sample build. With the finished download in place the decision is
`newversion_ready` and nothing is queued; with no file at all and an engine that answers
would-block the decision is `newversion_downloading`. -/
theorem C7_decision_with_url_witness :
    ((ParseData sample_env (scenario_A_line ++ [LF])).eol_ = false ∧
      (ParseData sample_env (scenario_A_line ++ [LF])).available_.url_ ≠ []) ∧
    ((ProcessFinishedData sample_env ready_fs blocking_engine
        { raw_version_information_ := scenario_A_line ++ [LF] } true).1
        = UpdaterState.newversion_ready ∧
      (ProcessFinishedData sample_env ready_fs blocking_engine
        { raw_version_information_ := scenario_A_line ++ [LF] } true).2.local_file_
        = w "/dl/f.tar.bz2" ∧
      (ProcessFinishedData sample_env ready_fs blocking_engine
        { raw_version_information_ := scenario_A_line ++ [LF] } true).2.pending_commands_
        = []) ∧
    (ProcessFinishedData sample_env empty_fs blocking_engine
        { raw_version_information_ := scenario_A_line ++ [LF] } true).1
      = UpdaterState.newversion_downloading :=
  ⟨by decide,
   by
    have h := (C7_decision_with_url sample_env ready_fs blocking_engine
      { raw_version_information_ := scenario_A_line ++ [LF] } true
      (by decide) (by decide)).1 (by decide)
    exact ⟨h.1, h.2.1.trans (by decide), h.2.2.1⟩,
   (C7_decision_with_url sample_env empty_fs blocking_engine
      { raw_version_information_ := scenario_A_line ++ [LF] } true
      (by decide) (by decide)).2.1.mpr (by decide)⟩

set_option maxRecDepth 100000 in
/-- C7 as stated fails on a platform with the end-of-life branch: for the manifest made of a
validly signed `eol` line and the signed release line of scenario A, the available build
has a URL and `GetLocalFile(available, true)` names an existing file, yet
`ProcessFinishedData` returns `eol`, not `newversion_ready`. (Last line: with the
finished file in place the answer is `newversion_ready` also when downloading is not
allowed, so the clause on `newversion` speaks of the situation in which a download would
be attempted.) -/
theorem C7_counterexample :
    (ParseData sample_env_msw (join_lines [scenario_D_line, scenario_A_line])).available_.url_
      = w "http://x/f.tar.bz2" ∧
    GetLocalFile sample_env_msw ready_fs
        (ParseData sample_env_msw (join_lines [scenario_D_line, scenario_A_line])).available_
        true = w "/dl/f.tar.bz2" ∧
    ready_fs.get_file_type_known (w "/dl/f.tar.bz2") = true ∧
    (ProcessFinishedData sample_env_msw ready_fs blocking_engine
        { raw_version_information_ := join_lines [scenario_D_line, scenario_A_line] } true).1
      = UpdaterState.eol ∧
    (ProcessFinishedData sample_env ready_fs blocking_engine
        { raw_version_information_ := join_lines [scenario_A_line] } false).1
      = UpdaterState.newversion_ready := by
  decide

/-! ## C8: placing a finished download -/

theorem read_loop_eq (n : Nat) :
    ∀ (rest acc : List Nat), rest.length ≤ n → read_loop n rest acc = acc ++ rest := by
  induction n with
  | zero =>
    intro rest acc h
    have : rest = [] := List.length_eq_zero.mp (Nat.le_zero.mp h)
    simp [read_loop, this]
  | succ k ih =>
    intro rest acc h
    unfold read_loop
    by_cases hr : rest = []
    · simp [hr]
    · rw [if_neg hr, ih]
      · rw [List.append_assoc, List.take_append_drop]
      · have hpos : 0 < rest.length := List.length_pos.mpr hr
        rw [List.length_drop]
        omega

/-- The read loop hands the whole content to the hash accumulator. -/
theorem read_loop_all (bytes : List Nat) : read_loop bytes.length bytes [] = bytes := by
  rw [read_loop_eq bytes.length bytes [] (Nat.le_refl _)]
  rfl

/-- A staged file of the expected size whose digest differs from the expected hash fails
verification, whether or not it can be opened and read. -/
theorem VerifyChecksum_wrong_digest (env : Env) (fs : FileSys) (file : List Char)
    (size : Int) (checksum : List Char)
    (h : ∀ bytes, fs.file file = FileRead.data bytes →
      hex_encode (env.sha512 bytes) ≠ checksum) :
    VerifyChecksum env fs file size checksum = false := by
  unfold VerifyChecksum VerifyChecksumT
  simp only
  split_ifs
  · rfl
  · rfl
  · rfl
  · cases hf : fs.file file with
    | cannot_open => rfl
    | read_error => rfl
    | data bytes =>
      simp only [read_loop_all]
      exact decide_eq_false (h bytes hf)

/-- C8. `ProcessFinishedDownload` returns `newversion_ready` if and only if the temp path is
non-empty, `VerifyChecksum(temp, available.size, available.hash)` succeeds,
`GetLocalFile(available, false)` is non-empty and the rename of the temp file to it
succeeds; the downloaded-file path then is that local path (also as `DownloadedFile`
reports it once the caller has set the returned state). In every other case it returns
`newversion`, the downloaded-file path is untouched, and whenever the temp path is non-empty
`remove_file(temp)` has been issued. In particular a staged file with the expected size but
a wrong digest is removed and the result is `newversion`. -/
theorem C8_finished_download (env : Env) (fs : FileSys) (u : CUpdater) :
    let available := u.version_information_.available_
    let temp := GetTempFile env u.version_information_
    let local_file := GetLocalFile env fs available false
    let r := ProcessFinishedDownload env fs u
    (r.1 = UpdaterState.newversion_ready ↔
      temp ≠ [] ∧ VerifyChecksum env fs temp available.size_ available.hash_ = true ∧
      local_file ≠ [] ∧ fs.rename_ok temp local_file = true) ∧
    (r.1 = UpdaterState.newversion_ready →
      r.2.local_file_ = local_file ∧
      DownloadedFile { r.2 with state_ := r.1 } = local_file ∧
      r.2.fs_ops = u.fs_ops ++ [FsOp.rename temp local_file true]) ∧
    (r.1 ≠ UpdaterState.newversion_ready →
      r.1 = UpdaterState.newversion ∧ r.2.local_file_ = u.local_file_ ∧
      (temp ≠ [] → FsOp.remove_file temp ∈ r.2.fs_ops)) ∧
    (temp ≠ [] → fs.get_size temp = available.size_ →
      (∀ bytes, fs.file temp = FileRead.data bytes →
        hex_encode (env.sha512 bytes) ≠ available.hash_) →
      r.1 = UpdaterState.newversion ∧ r.2.fs_ops = u.fs_ops ++ [FsOp.remove_file temp]) := by
  intro available temp local_file r
  by_cases h1 : temp = []
  · have hr : r = (UpdaterState.newversion, u) := by
      show ProcessFinishedDownload env fs u = _
      unfold ProcessFinishedDownload
      simp only
      rw [if_pos h1]
    rw [hr]
    refine ⟨⟨(fun e => by cases e), fun e => absurd h1 e.1⟩, (fun e => by cases e),
      fun _ => ⟨rfl, rfl, fun e => absurd h1 e⟩, fun e => absurd h1 e⟩
  · by_cases h2 : VerifyChecksum env fs temp available.size_ available.hash_ = false
    · have hr : r = (UpdaterState.newversion,
          { u with fs_ops := u.fs_ops ++ [FsOp.remove_file temp] }) := by
        show ProcessFinishedDownload env fs u = _
        unfold ProcessFinishedDownload
        simp only
        rw [if_neg h1, if_pos h2]
      rw [hr]
      refine ⟨⟨(fun e => by cases e), fun e => ?_⟩, (fun e => by cases e),
        fun _ => ⟨rfl, rfl, (fun _ => by simp)⟩, fun _ _ _ => ⟨rfl, rfl⟩⟩
      rw [e.2.1] at h2
      cases h2
    · have h2t : VerifyChecksum env fs temp available.size_ available.hash_ = true := by
        cases hc : VerifyChecksum env fs temp available.size_ available.hash_
        · exact absurd hc h2
        · rfl
      have hwrong : ¬ (∀ bytes, fs.file temp = FileRead.data bytes →
          hex_encode (env.sha512 bytes) ≠ available.hash_) := by
        intro hw
        rw [VerifyChecksum_wrong_digest env fs temp available.size_ available.hash_ hw] at h2t
        cases h2t
      by_cases h3 : local_file = []
      · have hr : r = (UpdaterState.newversion,
            { u with fs_ops := u.fs_ops ++ [FsOp.remove_file temp] }) := by
          show ProcessFinishedDownload env fs u = _
          unfold ProcessFinishedDownload
          simp only
          rw [if_neg h1, if_neg h2, if_pos h3]
        rw [hr]
        exact ⟨⟨(fun e => by cases e), fun e => absurd h3 e.2.2.1⟩, (fun e => by cases e),
          fun _ => ⟨rfl, rfl, (fun _ => by simp)⟩, fun _ _ hw => absurd hw hwrong⟩
      · by_cases h4 : fs.rename_ok temp local_file = false
        · have hr : r = (UpdaterState.newversion,
              { u with fs_ops := u.fs_ops
                  ++ [FsOp.rename temp local_file false, FsOp.remove_file temp] }) := by
            show ProcessFinishedDownload env fs u = _
            unfold ProcessFinishedDownload
            simp only
            rw [if_neg h1, if_neg h2, if_neg h3, if_pos h4]
          rw [hr]
          refine ⟨⟨(fun e => by cases e), fun e => ?_⟩, (fun e => by cases e),
            fun _ => ⟨rfl, rfl, (fun _ => by simp)⟩, fun _ _ hw => absurd hw hwrong⟩
          rw [e.2.2.2] at h4
          cases h4
        · have h4t : fs.rename_ok temp local_file = true := by
            cases hc : fs.rename_ok temp local_file
            · exact absurd hc h4
            · rfl
          have hr : r = (UpdaterState.newversion_ready,
              { u with local_file_ := local_file,
                       fs_ops := u.fs_ops ++ [FsOp.rename temp local_file true] }) := by
            show ProcessFinishedDownload env fs u = _
            unfold ProcessFinishedDownload
            simp only
            rw [if_neg h1, if_neg h2, if_neg h3, if_neg h4]
          rw [hr]
          exact ⟨⟨fun _ => ⟨h1, h2t, h3, h4t⟩, fun _ => rfl⟩, fun _ => ⟨rfl, rfl, rfl⟩,
            fun e => absurd rfl e, fun _ _ hw => absurd hw hwrong⟩

set_option maxRecDepth 100000 in
/-- Scenario C on the sample build: a staged file of 3 bytes with the wrong content is
removed and the answer is `newversion`; the complete staged file is renamed to
`/dl/f.tar.bz2` and the answer is `newversion_ready`. -/
theorem C8_finished_download_witness :
    ((ProcessFinishedDownload sample_env stale_fs scenario_A_updater).1
        = UpdaterState.newversion ∧
      (ProcessFinishedDownload sample_env stale_fs scenario_A_updater).2.fs_ops
        = scenario_A_updater.fs_ops
          ++ [FsOp.remove_file (GetTempFile sample_env
                scenario_A_updater.version_information_)]) ∧
    GetTempFile sample_env scenario_A_updater.version_information_
      = w "/tmp/fzupdate_ddaf35a193617aba.tmp" ∧
    (ProcessFinishedDownload sample_env staged_fs scenario_A_updater).1
      = UpdaterState.newversion_ready ∧
    (ProcessFinishedDownload sample_env staged_fs scenario_A_updater).2.local_file_
      = w "/dl/f.tar.bz2" :=
  ⟨(C8_finished_download sample_env stale_fs scenario_A_updater).2.2.2 (by decide) (by decide)
      (by
        intro bytes hb
        have hfile : stale_fs.file (GetTempFile sample_env
            scenario_A_updater.version_information_) = FileRead.data [120, 121, 122] := by
          decide
        rw [hfile] at hb
        cases hb
        decide),
   by decide,
   (C8_finished_download sample_env staged_fs scenario_A_updater).1.mpr (by decide),
   ((C8_finished_download sample_env staged_fs scenario_A_updater).2.1
      ((C8_finished_download sample_env staged_fs scenario_A_updater).1.mpr
        (by decide))).1.trans (by decide)⟩

/-! ## C9: the size check of `VerifyChecksum` -/

/-- C9. For every file whose size on disk differs from the expected size, `VerifyChecksum`
returns false whatever the file's content and the expected checksum are, and it does so
before opening or reading the file: the only access it may have made is the size query,
and the answer does not depend on what opening and reading would deliver. It also returns
false, without any access, for an empty path or an empty expected checksum. -/
theorem C9_size_mismatch_rejected (env : Env) (fs : FileSys) (file : List Char) (size : Int)
    (checksum : List Char) :
    (fs.get_size file ≠ size →
      VerifyChecksum env fs file size checksum = false ∧
      ((VerifyChecksumT env fs file size checksum).2 = [] ∨
        (VerifyChecksumT env fs file size checksum).2 = [FsAccess.get_size file]) ∧
      FsAccess.open_file file ∉ (VerifyChecksumT env fs file size checksum).2 ∧
      FsAccess.read file ∉ (VerifyChecksumT env fs file size checksum).2 ∧
      (∀ content : List Char → FileRead,
        VerifyChecksumT env { fs with file := content } file size checksum
          = VerifyChecksumT env fs file size checksum)) ∧
    (file = [] ∨ checksum = [] →
      VerifyChecksum env fs file size checksum = false ∧
      (VerifyChecksumT env fs file size checksum).2 = []) := by
  constructor
  · intro hsize
    by_cases h0 : file = [] ∨ checksum = []
    · have hT : ∀ g : FileSys, VerifyChecksumT env g file size checksum = (false, []) := by
        intro g
        unfold VerifyChecksumT
        rw [if_pos h0]
      unfold VerifyChecksum
      rw [hT fs]
      exact ⟨rfl, Or.inl rfl, by simp, by simp, fun content => hT _⟩
    · have hT : ∀ g : FileSys, g.get_size file = fs.get_size file →
          VerifyChecksumT env g file size checksum = (false, [FsAccess.get_size file]) := by
        intro g hg
        unfold VerifyChecksumT
        simp only
        rw [if_neg h0, hg]
        by_cases hneg : fs.get_size file < 0
        · rw [if_pos hneg]
        · rw [if_neg hneg, if_pos hsize]
      unfold VerifyChecksum
      rw [hT fs rfl]
      exact ⟨rfl, Or.inr rfl, by simp, by simp, fun content => hT _ rfl⟩
  · intro h0
    unfold VerifyChecksum VerifyChecksumT
    rw [if_pos h0]
    exact ⟨rfl, rfl⟩

set_option maxRecDepth 100000 in
/-- The finished download of 3 bytes checked against an expected size of 4: rejected after
the size query alone. -/
theorem C9_size_mismatch_rejected_witness :
    ready_fs.get_size (w "/dl/f.tar.bz2") ≠ 4 ∧
    VerifyChecksum sample_env ready_fs (w "/dl/f.tar.bz2") 4 (str_tolower_ascii sample_hash)
      = false ∧
    (VerifyChecksumT sample_env ready_fs (w "/dl/f.tar.bz2") 4
        (str_tolower_ascii sample_hash)).2
      = [FsAccess.get_size (w "/dl/f.tar.bz2")] :=
  ⟨by decide,
   ((C9_size_mismatch_rejected sample_env ready_fs (w "/dl/f.tar.bz2") 4
      (str_tolower_ascii sample_hash)).1 (by decide)).1,
   by decide⟩

/-! ## C10: the digest comparison of `VerifyChecksum` -/

theorem hex_encode_eq_nil (data : List Nat) (h : hex_encode data = []) : data = [] := by
  cases data with
  | nil => rfl
  | cons b bs => simp [hex_encode] at h

/-- C10 (amended). For every readable file whose size equals the expected size,
`VerifyChecksum` returns true if and only if the lower-case hex encoding of the SHA-512
digest of the file's content equals the expected checksum character for character; the
comparison is exact, not case-insensitive. -/
theorem C10_checksum_exact (env : Env) (fs : FileSys) (file : List Char) (size : Int)
    (checksum : List Char) (bytes : List Nat)
    (hfile : file ≠ []) (hsize : fs.get_size file = size) (hnn : 0 ≤ size)
    (hdata : fs.file file = FileRead.data bytes)
    (hdig : (env.sha512 bytes).length = 64) :
    VerifyChecksum env fs file size checksum = true
      ↔ hex_encode (env.sha512 bytes) = checksum := by
  have hne : hex_encode (env.sha512 bytes) ≠ [] := by
    intro e
    have := hex_encode_eq_nil _ e
    rw [this] at hdig
    simp at hdig
  by_cases hc : checksum = []
  · subst hc
    have : VerifyChecksum env fs file size [] = false := by
      unfold VerifyChecksum VerifyChecksumT
      rw [if_pos (Or.inr rfl)]
    rw [this]
    exact ⟨(fun e => by cases e), fun e => absurd e hne⟩
  · have h0 : ¬ (file = [] ∨ checksum = []) := by
      rintro (e | e)
      · exact hfile e
      · exact hc e
    have h1 : ¬ fs.get_size file < 0 := by omega
    have h2 : ¬ fs.get_size file ≠ size := fun e => e hsize
    unfold VerifyChecksum VerifyChecksumT
    simp only
    rw [if_neg h0, if_neg h1, if_neg h2, hdata]
    simp only [read_loop_all, decide_eq_true_eq]

set_option maxRecDepth 100000 in
/-- The finished download `abc` checked against its lower-case digest is accepted. -/
theorem C10_checksum_exact_witness :
    (w "/dl/f.tar.bz2" ≠ [] ∧ ready_fs.get_size (w "/dl/f.tar.bz2") = 3 ∧
      ready_fs.file (w "/dl/f.tar.bz2") = FileRead.data [97, 98, 99] ∧
      (sample_env.sha512 [97, 98, 99]).length = 64) ∧
    VerifyChecksum sample_env ready_fs (w "/dl/f.tar.bz2") 3 (str_tolower_ascii sample_hash)
      = true :=
  ⟨by decide,
   (C10_checksum_exact sample_env ready_fs (w "/dl/f.tar.bz2") 3
      (str_tolower_ascii sample_hash) [97, 98, 99] (by decide) (by decide) (by decide)
      (by decide) (by decide)).mpr (by decide)⟩

set_option maxRecDepth 100000 in
/-- C10 as stated fails: the file `abc` has the expected size 3 and the hex encoding of its
SHA-512 digest equals the upper-case checksum when compared case-insensitively, yet
`VerifyChecksum` returns false. -/
theorem C10_counterexample :
    ready_fs.get_size (w "/dl/f.tar.bz2") = 3 ∧
    ready_fs.file (w "/dl/f.tar.bz2") = FileRead.data [97, 98, 99] ∧
    equal_insensitive_ascii (hex_encode (sample_env.sha512 [97, 98, 99])) sample_hash = true ∧
    VerifyChecksum sample_env ready_fs (w "/dl/f.tar.bz2") 3 sample_hash = false := by
  decide

/-! ## C11: `Run` and `RunIfNeeded` while a sequence is active -/

/-- In an active state `Run` returns at its guard. -/
theorem Run_busy (env : Env) (eng : Engine) (now : Int) (u : CUpdater) (manual : Bool)
    (h : u.state_ = UpdaterState.checking ∨ u.state_ = UpdaterState.newversion_downloading) :
    Run env eng now u manual = (false, u, none) := by
  unfold Run
  rcases h with h | h <;> simp [h]

/-- C11. When the state is `checking` or `newversion_downloading`, `Run(manual)` returns
false for either value of `manual` and changes nothing: the object after the call equals
the object before it (state, command queue, downloaded-file path, manual flag, raw manifest
text, stored last-check date and everything else), and `log_` is not assigned. Likewise
`RunIfNeeded` in those states leaves the whole object, in particular state and queue,
unchanged. -/
theorem C11_busy_run_changes_nothing (env : Env) (fs : FileSys) (eng : Engine) (now : Int)
    (u : CUpdater)
    (h : u.state_ = UpdaterState.checking ∨ u.state_ = UpdaterState.newversion_downloading) :
    (∀ manual : Bool, Run env eng now u manual = (false, u, none)) ∧
    RunIfNeeded env fs eng now u = u := by
  refine ⟨fun manual => Run_busy env eng now u manual h, ?_⟩
  unfold RunIfNeeded
  simp only
  split_ifs
  · rw [Run_busy env eng now u true h]
  · rfl

set_option maxRecDepth 100000 in
/-- A coordinator in state `checking` with its three commands queued, never checked before
(so that a long time has passed): `Run(true)` and `RunIfNeeded` leave it as it is. -/
theorem C11_busy_run_changes_nothing_witness :
    (({ state_ := UpdaterState.checking,
        pending_commands_ := [CCommand.disconnect] } : CUpdater).state_
        = UpdaterState.checking ∨
      ({ state_ := UpdaterState.checking,
         pending_commands_ := [CCommand.disconnect] } : CUpdater).state_
        = UpdaterState.newversion_downloading) ∧
    LongTimeSinceLastCheck sample_env 1000000000
      { state_ := UpdaterState.checking, pending_commands_ := [CCommand.disconnect] } = true ∧
    Run sample_env blocking_engine 1000000000
        { state_ := UpdaterState.checking, pending_commands_ := [CCommand.disconnect] } true
      = (false, { state_ := UpdaterState.checking,
                  pending_commands_ := [CCommand.disconnect] }, none) ∧
    RunIfNeeded sample_env empty_fs blocking_engine 1000000000
        { state_ := UpdaterState.checking, pending_commands_ := [CCommand.disconnect] }
      = { state_ := UpdaterState.checking, pending_commands_ := [CCommand.disconnect] } :=
  ⟨Or.inl rfl, by decide,
   (C11_busy_run_changes_nothing sample_env empty_fs blocking_engine 1000000000
      { state_ := UpdaterState.checking, pending_commands_ := [CCommand.disconnect] }
      (Or.inl rfl)).1 true,
   (C11_busy_run_changes_nothing sample_env empty_fs blocking_engine 1000000000
      { state_ := UpdaterState.checking, pending_commands_ := [CCommand.disconnect] }
      (Or.inl rfl)).2⟩

/-! ## C12: when `RunIfNeeded` starts a check -/

theorem ContinueDownload_queue_calls (eng : Engine) (q : List CCommand) :
    ∀ calls : Nat, calls ≤ (ContinueDownload_queue eng calls q).2.2 ∧
      (q ≠ [] → calls < (ContinueDownload_queue eng calls q).2.2) := by
  induction q with
  | nil => intro calls; simp [ContinueDownload_queue]
  | cons c cs ih =>
    intro calls
    unfold ContinueDownload_queue
    split_ifs
    · have := (ih (calls + 1)).1
      exact ⟨by omega, fun _ => by omega⟩
    · simp

theorem SetState_engine_calls (u : CUpdater) (s : UpdaterState) :
    (SetState u s).engine_calls = u.engine_calls := by
  unfold SetState
  by_cases h : s ≠ u.state_
  · rw [if_pos h]
  · rw [if_neg h]

theorem SetState_option_lastdate (u : CUpdater) (s : UpdaterState) :
    (SetState u s).option_lastdate = u.option_lastdate := by
  unfold SetState
  by_cases h : s ≠ u.state_
  · rw [if_pos h]
  · rw [if_neg h]

theorem SetState_state (u : CUpdater) (s : UpdaterState) : (SetState u s).state_ = s := by
  unfold SetState
  by_cases h : s ≠ u.state_
  · rw [if_pos h]
  · rw [if_neg h]
    exact (not_not.mp h).symm

/-- What `Request` followed by the failure test of `Run` leaves behind. -/
theorem Request_then_fail_test (eng : Engine) (u3 : CUpdater) (uri : List Char)
    (calls : Nat) (date : List Char)
    (h2 : u3.state_ = UpdaterState.checking) (hc : u3.engine_calls = calls)
    (hd : u3.option_lastdate = date) :
    calls
      < (if (Request eng u3 uri).1 ≠ FZ_REPLY_WOULDBLOCK then
          SetState (Request eng u3 uri).2 UpdaterState.failed
        else (Request eng u3 uri).2).engine_calls ∧
    (if (Request eng u3 uri).1 ≠ FZ_REPLY_WOULDBLOCK then
        SetState (Request eng u3 uri).2 UpdaterState.failed
      else (Request eng u3 uri).2).option_lastdate = date ∧
    ((if (Request eng u3 uri).1 ≠ FZ_REPLY_WOULDBLOCK then
        SetState (Request eng u3 uri).2 UpdaterState.failed
      else (Request eng u3 uri).2).state_ = UpdaterState.checking ∨
     (if (Request eng u3 uri).1 ≠ FZ_REPLY_WOULDBLOCK then
        SetState (Request eng u3 uri).2 UpdaterState.failed
      else (Request eng u3 uri).2).state_ = UpdaterState.failed) := by
  subst hc hd
  have hq : u3.engine_calls < (Request eng u3 uri).2.engine_calls :=
    (ContinueDownload_queue_calls eng _ u3.engine_calls).2 (by simp)
  have hd : (Request eng u3 uri).2.option_lastdate = u3.option_lastdate := rfl
  have hs : (Request eng u3 uri).2.state_ = UpdaterState.checking := h2
  split_ifs
  · exact ⟨by rw [SetState_engine_calls]; exact hq, by rw [SetState_option_lastdate]; exact hd,
      Or.inr (SetState_state _ _)⟩
  · exact ⟨hq, hd, Or.inl hs⟩

/-- Outside the two active states `Run` goes through: it stores the time of the check,
hands at least one command to the engine and ends in `checking` or `failed`. -/
theorem Run_not_busy (env : Env) (eng : Engine) (now : Int) (u : CUpdater) (manual : Bool)
    (h : u.state_ ≠ UpdaterState.checking ∧ u.state_ ≠ UpdaterState.newversion_downloading) :
    u.engine_calls < (Run env eng now u manual).2.1.engine_calls ∧
    (Run env eng now u manual).2.1.option_lastdate = env.format_utc now ∧
    ((Run env eng now u manual).2.1.state_ = UpdaterState.checking ∨
      (Run env eng now u manual).2.1.state_ = UpdaterState.failed) := by
  have hg : ¬ (u.state_ ≠ UpdaterState.idle ∧ u.state_ ≠ UpdaterState.failed
      ∧ u.state_ ≠ UpdaterState.newversion ∧ u.state_ ≠ UpdaterState.newversion_ready
      ∧ u.state_ ≠ UpdaterState.newversion_stale ∧ u.state_ ≠ UpdaterState.eol) := by
    obtain ⟨h1, h2⟩ := h
    cases hs : u.state_ <;> simp_all
  unfold Run
  rw [if_neg hg]
  exact Request_then_fail_test eng _ _ _ _ (SetState_state _ _) (SetState_engine_calls _ _)
    (SetState_option_lastdate _ _)

/-- C12 (amended). `RunIfNeeded` starts a manifest check exactly when the state is not an
active one and one of these holds: the state is `idle`, `failed`, `newversion_stale` or
`eol` (whatever the time of the last check); a long time has elapsed since the last check;
the state is `newversion` and the available build has a URL; the state is
`newversion_ready` and the staged file fails checksum re-verification. It then does what
`Run(true)` does: the time of the check is stored, at least one command goes to the engine
and the state becomes `checking` or `failed`. In every other situation, which leaves
`newversion` and `newversion_ready` shortly after a check and the two active states,
`RunIfNeeded` hands nothing to the engine and leaves the whole object unchanged. -/
theorem C12_run_if_needed (env : Env) (fs : FileSys) (eng : Engine) (now : Int)
    (u : CUpdater) :
    (starts_check env fs now u →
      RunIfNeeded env fs eng now u = (Run env eng now u true).2.1 ∧
      u.engine_calls < (RunIfNeeded env fs eng now u).engine_calls ∧
      (RunIfNeeded env fs eng now u).option_lastdate = env.format_utc now ∧
      ((RunIfNeeded env fs eng now u).state_ = UpdaterState.checking ∨
        (RunIfNeeded env fs eng now u).state_ = UpdaterState.failed)) ∧
    (¬ starts_check env fs now u → RunIfNeeded env fs eng now u = u) ∧
    (u.engine_calls < (RunIfNeeded env fs eng now u).engine_calls
      ↔ starts_check env fs now u) := by
  have hstart : starts_check env fs now u →
      RunIfNeeded env fs eng now u = (Run env eng now u true).2.1 := by
    intro h
    unfold RunIfNeeded
    simp only
    rw [if_pos h.2]
  have hstay : ¬ starts_check env fs now u → RunIfNeeded env fs eng now u = u := by
    intro h
    by_cases hb : u.state_ ≠ UpdaterState.checking
        ∧ u.state_ ≠ UpdaterState.newversion_downloading
    · unfold RunIfNeeded
      simp only
      rw [if_neg (fun hc => h ⟨hb, hc⟩)]
    · have hbusy : u.state_ = UpdaterState.checking
          ∨ u.state_ = UpdaterState.newversion_downloading := by
        by_contra hc
        exact hb ⟨fun e => hc (Or.inl e), fun e => hc (Or.inr e)⟩
      unfold RunIfNeeded
      simp only
      split_ifs
      · rw [Run_busy env eng now u true hbusy]
      · rfl
  refine ⟨fun h => ?_, hstay, ⟨fun h => ?_, fun h => ?_⟩⟩
  · rw [hstart h]
    exact ⟨rfl, Run_not_busy env eng now u true h.1⟩
  · by_contra hc
    rw [hstay hc] at h
    exact Nat.lt_irrefl _ h
  · rw [hstart h]
    exact (Run_not_busy env eng now u true h.1).1

set_option maxRecDepth 100000 in
/-- A coordinator in state `newversion` whose available build has a URL, a week-long
interval and a check made just now: a check starts. In state `newversion_ready` with the
finished download in place nothing happens. -/
theorem C12_run_if_needed_witness :
    starts_check sample_env empty_fs 1000000000
      { scenario_A_updater with state_ := UpdaterState.newversion,
                                option_lastdate := w "1000000000" } ∧
    (RunIfNeeded sample_env empty_fs blocking_engine 1000000000
      { scenario_A_updater with state_ := UpdaterState.newversion,
                                option_lastdate := w "1000000000" }).state_
      = UpdaterState.checking ∧
    ¬ starts_check sample_env ready_fs 1000000000
      { scenario_A_updater with state_ := UpdaterState.newversion_ready,
                                local_file_ := w "/dl/f.tar.bz2",
                                option_lastdate := w "1000000000" } ∧
    RunIfNeeded sample_env ready_fs blocking_engine 1000000000
      { scenario_A_updater with state_ := UpdaterState.newversion_ready,
                                local_file_ := w "/dl/f.tar.bz2",
                                option_lastdate := w "1000000000" }
      = { scenario_A_updater with state_ := UpdaterState.newversion_ready,
                                  local_file_ := w "/dl/f.tar.bz2",
                                  option_lastdate := w "1000000000" } :=
  ⟨by unfold starts_check; decide,
   by
    have h := (C12_run_if_needed sample_env empty_fs blocking_engine 1000000000
      { scenario_A_updater with state_ := UpdaterState.newversion,
                                option_lastdate := w "1000000000" }).1
      (by unfold starts_check; decide)
    rw [h.1]
    decide,
   by unfold starts_check; decide,
   (C12_run_if_needed sample_env ready_fs blocking_engine 1000000000
      { scenario_A_updater with state_ := UpdaterState.newversion_ready,
                                local_file_ := w "/dl/f.tar.bz2",
                                option_lastdate := w "1000000000" }).2.1
      (by unfold starts_check; decide)⟩

set_option maxRecDepth 100000 in
/-- C12 as stated fails: in state `idle`, with the last check made at this very moment,
none of the three trigger conditions holds, yet `RunIfNeeded` starts a check: the state
becomes `checking`, three commands are queued and one has gone to the engine. -/
theorem C12_counterexample :
    idle_checked_updater.state_ = UpdaterState.idle ∧
    LongTimeSinceLastCheck sample_env 1000000000 idle_checked_updater = false ∧
    (RunIfNeeded sample_env empty_fs blocking_engine 1000000000 idle_checked_updater).state_
      = UpdaterState.checking ∧
    (RunIfNeeded sample_env empty_fs blocking_engine 1000000000
      idle_checked_updater).pending_commands_.length = 3 ∧
    (RunIfNeeded sample_env empty_fs blocking_engine 1000000000
      idle_checked_updater).engine_calls = 1 := by
  decide

/-! ## C13: the command queue outside the active states -/

set_option maxRecDepth 100000 in
/-- C13, the code at the failing input. A freshly constructed coordinator finds the signed
manifest of scenario A in its options; no file is on disk and the engine answers every
command with an error. The first `Init` goes from `idle` to `newversion` and the queue is
cleared. The second `Init` starts and ends in `newversion`: `Download` queues its three
commands and fails, `SetState` sees no change of state and leaves them, so the queue is not
empty outside the active states. -/
theorem C13_queue_left_after_second_Init :
    cached_updater.state_ = UpdaterState.idle ∧ cached_updater.pending_commands_ = [] ∧
    (Init sample_env empty_fs failing_engine 1000000000 cached_updater).state_
      = UpdaterState.newversion ∧
    (Init sample_env empty_fs failing_engine 1000000000 cached_updater).pending_commands_
      = [] ∧
    (Init sample_env empty_fs failing_engine 1000000000
      (Init sample_env empty_fs failing_engine 1000000000 cached_updater)).state_
      = UpdaterState.newversion ∧
    (Init sample_env empty_fs failing_engine 1000000000
      (Init sample_env empty_fs failing_engine 1000000000 cached_updater)).pending_commands_
      = [CCommand.disconnect, CCommand.connect ServerProtocol.HTTP (w "x"),
         CCommand.transfer (w "/tmp/fzupdate_ddaf35a193617aba.tmp") [] (w "f.tar.bz2")] := by
  decide

/-! ## C14: the local file name -/

/-- The loop of `GetLocalFile` returns the first candidate that is not blocked, among the
current one and those for the remaining counter values. -/
theorem GetLocalFile_loop_find (env : Env) (fs : FileSys) (b : build) (allow_existing : Bool)
    (dl fn : List Char) (fuel : Nat) :
    ∀ (i : Nat) (f : List Char), i ≤ 99 → 100 ≤ fuel + i →
      GetLocalFile_loop env fs b allow_existing dl fn fuel i f
        = ((f :: (List.range' (i + 1) (99 - i)).map (local_candidate dl fn)).find?
            (fun c => !local_blocked env fs b allow_existing c)).getD [] := by
  induction fuel with
  | zero => intro i f hi h; omega
  | succ k ih =>
    intro i f hi h
    unfold GetLocalFile_loop
    by_cases hb : local_blocked env fs b allow_existing f = true
    · rw [if_pos hb]
      by_cases hlim : i + 1 > 99
      · have h99 : 99 - i = 0 := by omega
        rw [if_pos hlim, h99]
        simp [List.find?, hb]
      · have hsplit : 99 - i = (99 - (i + 1)) + 1 := by omega
        rw [if_neg hlim, ih (i + 1) _ (by omega) (by omega), hsplit, List.range'_succ]
        simp [List.find?, hb]
    · rw [if_neg hb]
      simp [List.find?, hb]

theorem afterLast_of_not_mem (c : Char) (s : List Char) (h : c ∉ s) : afterLast c s = none := by
  induction s with
  | nil => rfl
  | cons x xs ih =>
    have hx : x ≠ c := fun e => h (by simp [e])
    have hxs : c ∉ xs := fun e => h (by simp [e])
    simp [afterLast, ih hxs, hx]

theorem afterLast_append (c : Char) (stem ext : List Char) (h : c ∉ ext) :
    afterLast c (stem ++ c :: ext) = some ext := by
  induction stem with
  | nil => simp [afterLast, afterLast_of_not_mem c ext h]
  | cons x xs ih => simp [afterLast, ih]

theorem rfind_append (c : Char) (stem ext : List Char) (h : c ∉ ext) :
    rfind c (stem ++ c :: ext) = some stem.length := by
  unfold rfind
  rw [afterLast_append c stem ext h]
  simp only [Option.map_some', List.length_append, List.length_cons]
  congr 1
  omega

theorem rfind_of_not_mem (c : Char) (s : List Char) (h : c ∉ s) : rfind c s = none := by
  unfold rfind
  rw [afterLast_of_not_mem c s h]
  rfl

theorem tolower_ascii_upper_ne_dot (k : Nat) (h1 : 65 ≤ k) (h2 : k ≤ 90) :
    tolower_ascii (Char.ofNat k) ≠ Char.ofNat 46 := by
  interval_cases k <;> decide

theorem tolower_ascii_eq_dot (c : Char) (h : tolower_ascii c = Char.ofNat 46) :
    c = Char.ofNat 46 := by
  by_cases hr : 65 ≤ c.toNat ∧ c.toNat ≤ 90
  · have := tolower_ascii_upper_ne_dot c.toNat hr.1 hr.2
    rw [Char.ofNat_toNat] at this
    exact absurd h this
  · simpa [tolower_ascii, hr] using h

/-- A name without `.` does not end in `.tar.bz2`, in whatever case. -/
theorem not_tar_of_no_dot (fn : List Char) (h : Char.ofNat 46 ∉ fn) :
    ¬ (fn.length > 8 ∧ str_tolower_ascii (fn.drop (fn.length - 8)) = w ".tar.bz2") := by
  rintro ⟨_, he⟩
  cases hd : fn.drop (fn.length - 8) with
  | nil =>
    rw [hd] at he
    exact absurd he (by decide)
  | cons c rest =>
    rw [hd] at he
    have hc : tolower_ascii c = Char.ofNat 46 := by
      have := congrArg List.head? he
      simpa [str_tolower_ascii, w] using this
    have hmem : c ∈ fn := List.mem_of_mem_drop (by rw [hd]; simp)
    rw [tolower_ascii_eq_dot c hc] at hmem
    exact h hmem

/-- The three shapes of a numbered candidate. -/
theorem local_candidate_shapes (dl fn : List Char) (n : Nat) :
    (∀ stem ext : List Char, fn = stem ++ ext → stem ≠ [] → ext.length = 8 →
      str_tolower_ascii ext = w ".tar.bz2" →
      local_candidate dl fn n = dl ++ stem ++ counter_tag n ++ ext) ∧
    (∀ stem ext : List Char,
      ¬ (fn.length > 8 ∧ str_tolower_ascii (fn.drop (fn.length - 8)) = w ".tar.bz2") →
      fn = stem ++ Char.ofNat 46 :: ext → Char.ofNat 46 ∉ ext →
      local_candidate dl fn n = dl ++ stem ++ counter_tag n ++ Char.ofNat 46 :: ext) ∧
    (Char.ofNat 46 ∉ fn → local_candidate dl fn n = dl ++ fn ++ counter_tag n) := by
  refine ⟨?_, ?_, ?_⟩
  · intro stem ext hfn hstem hlen hext
    have hpos : 0 < stem.length := List.length_pos.mpr hstem
    have hl : fn.length - 8 = stem.length := by
      rw [hfn, List.length_append]
      omega
    have hcond : fn.length > 8 ∧ str_tolower_ascii (fn.drop (fn.length - 8)) = w ".tar.bz2" := by
      rw [hl]
      constructor
      · rw [hfn, List.length_append]
        omega
      · rw [hfn, List.drop_left]
        exact hext
    unfold local_candidate ext_pos
    rw [if_pos hcond, hl]
    simp only [counter_tag]
    rw [hfn, List.take_left, List.drop_left]
  · intro stem ext hnot hfn hdot
    unfold local_candidate ext_pos
    rw [if_neg hnot, hfn, rfind_append _ stem ext hdot]
    simp only [counter_tag]
    rw [List.take_left, List.drop_left]
  · intro hdot
    unfold local_candidate ext_pos
    rw [if_neg (not_tar_of_no_dot fn hdot), rfind_of_not_mem _ fn hdot]
    rfl

theorem local_candidate_ne_nil (dl fn : List Char) (n : Nat) : local_candidate dl fn n ≠ [] := by
  unfold local_candidate
  cases ext_pos fn <;> simp [w]

/-- C14 (amended). `GetLocalFile(b, allow_existing)` returns the first unblocked name in the
sequence of 99 candidates: the download directory plus the URL's filename, then the same
name with ` (n)` for n = 2..99 inserted before the extension: before the last eight
characters when the name is longer than eight characters and they read `.tar.bz2` in any
letter case, otherwise before the last `.`, or appended when there is no `.`. A candidate
is blocked when a file exists at it and either `allow_existing` is false or that file fails
`VerifyChecksum` against the size and hash of `b`. The result is the empty string exactly
when all 99 candidates are blocked or the first candidate is itself the empty string and
not blocked; with `allow_existing` false a non-empty result never names an existing
file. -/
theorem C14_local_file (env : Env) (fs : FileSys) (b : build) (allow_existing : Bool) :
    GetLocalFile env fs b allow_existing
      = ((local_candidates env.GetDownloadDir (GetFilename env b.url_)).find?
          (fun c => !local_blocked env fs b allow_existing c)).getD [] ∧
    (local_candidates env.GetDownloadDir (GetFilename env b.url_)).length = 99 ∧
    (∀ c : List Char, local_blocked env fs b allow_existing c = true ↔
      (fs.get_file_type_known c = true ∧
        (allow_existing = false ∨ VerifyChecksum env fs c b.size_ b.hash_ = false))) ∧
    (∀ n : Nat,
      (∀ stem ext : List Char, GetFilename env b.url_ = stem ++ ext → stem ≠ [] →
        ext.length = 8 → str_tolower_ascii ext = w ".tar.bz2" →
        local_candidate env.GetDownloadDir (GetFilename env b.url_) n
          = env.GetDownloadDir ++ stem ++ counter_tag n ++ ext) ∧
      (∀ stem ext : List Char,
        ¬ ((GetFilename env b.url_).length > 8 ∧
            str_tolower_ascii ((GetFilename env b.url_).drop
              ((GetFilename env b.url_).length - 8)) = w ".tar.bz2") →
        GetFilename env b.url_ = stem ++ Char.ofNat 46 :: ext → Char.ofNat 46 ∉ ext →
        local_candidate env.GetDownloadDir (GetFilename env b.url_) n
          = env.GetDownloadDir ++ stem ++ counter_tag n ++ Char.ofNat 46 :: ext) ∧
      (Char.ofNat 46 ∉ GetFilename env b.url_ →
        local_candidate env.GetDownloadDir (GetFilename env b.url_) n
          = env.GetDownloadDir ++ GetFilename env b.url_ ++ counter_tag n)) ∧
    (GetLocalFile env fs b allow_existing = [] ↔
      (∀ c ∈ local_candidates env.GetDownloadDir (GetFilename env b.url_),
        local_blocked env fs b allow_existing c = true) ∨
      (env.GetDownloadDir ++ GetFilename env b.url_ = [] ∧
        local_blocked env fs b allow_existing [] = false)) ∧
    (allow_existing = false → GetLocalFile env fs b allow_existing ≠ [] →
      fs.get_file_type_known (GetLocalFile env fs b allow_existing) = false) := by
  have hfind : GetLocalFile env fs b allow_existing
      = ((local_candidates env.GetDownloadDir (GetFilename env b.url_)).find?
          (fun c => !local_blocked env fs b allow_existing c)).getD [] := by
    unfold GetLocalFile local_candidates
    exact GetLocalFile_loop_find env fs b allow_existing _ _ 99 1 _ (by omega) (by omega)
  have hunblocked : GetLocalFile env fs b allow_existing ≠ [] →
      local_blocked env fs b allow_existing (GetLocalFile env fs b allow_existing) = false := by
    intro hne
    rw [hfind] at hne ⊢
    cases hf : (local_candidates env.GetDownloadDir (GetFilename env b.url_)).find?
        (fun c => !local_blocked env fs b allow_existing c) with
    | none =>
      rw [hf] at hne
      exact absurd rfl hne
    | some c =>
      have := List.find?_some hf
      simpa using this
  refine ⟨hfind, by simp [local_candidates], ?_, fun n => local_candidate_shapes _ _ n, ?_, ?_⟩
  · intro c
    unfold local_blocked
    cases allow_existing <;> cases fs.get_file_type_known c <;>
      cases VerifyChecksum env fs c b.size_ b.hash_ <;> simp
  · rw [hfind]
    unfold local_candidates
    by_cases hb : local_blocked env fs b allow_existing
        (env.GetDownloadDir ++ GetFilename env b.url_) = true
    · have hhead : (fun c => !local_blocked env fs b allow_existing c)
          (env.GetDownloadDir ++ GetFilename env b.url_) = false := by simp [hb]
      rw [List.find?_cons_of_neg _ (by simp [hb])]
      constructor
      · intro he
        left
        cases hf : (List.map (local_candidate env.GetDownloadDir (GetFilename env b.url_))
            (List.range' 2 98)).find? (fun c => !local_blocked env fs b allow_existing c) with
        | none =>
          intro c hc
          rcases List.mem_cons.mp hc with e | e
          · rw [e]
            exact hb
          · have := List.find?_eq_none.mp hf c e
            simpa using this
        | some c =>
          rw [hf] at he
          have hmem := List.mem_of_find?_eq_some hf
          obtain ⟨n, _, hn⟩ := List.mem_map.mp hmem
          simp only [Option.getD_some] at he
          rw [he] at hn
          exact absurd hn (local_candidate_ne_nil _ _ n)
      · rintro (hall | ⟨hnil, hfree⟩)
        · have : (List.map (local_candidate env.GetDownloadDir (GetFilename env b.url_))
              (List.range' 2 98)).find? (fun c => !local_blocked env fs b allow_existing c)
              = none := by
            apply List.find?_eq_none.mpr
            intro c hc
            simp [hall c (List.mem_cons_of_mem _ hc)]
          rw [this]
          rfl
        · rw [hnil] at hb
          rw [hb] at hfree
          cases hfree
    · have hbf : local_blocked env fs b allow_existing
          (env.GetDownloadDir ++ GetFilename env b.url_) = false := by
        cases hc : local_blocked env fs b allow_existing
            (env.GetDownloadDir ++ GetFilename env b.url_)
        · rfl
        · exact absurd hc hb
      rw [List.find?_cons_of_pos _ (by simp [hbf])]
      simp only [Option.getD_some]
      constructor
      · intro he
        right
        refine ⟨he, ?_⟩
        rw [← he]
        exact hbf
      · rintro (hall | ⟨hnil, _⟩)
        · exact absurd (hall _ (List.mem_cons_self _ _)) hb
        · exact hnil
  · intro hallow hne
    have := hunblocked hne
    unfold local_blocked at this
    subst hallow
    simpa using this

set_option maxRecDepth 100000 in
/-- The build of scenario A with the file `/dl/f.tar.bz2` on disk. When an existing file
may be reused the plain name is returned; when it may not, the answer is the candidate for
counter value 2, which names no existing file. -/
theorem C14_local_file_witness :
    GetLocalFile sample_env ready_fs scenario_A_updater.version_information_.available_ true
      = w "/dl/f.tar.bz2" ∧
    GetLocalFile sample_env ready_fs scenario_A_updater.version_information_.available_ false
      = w "/dl/f (2).tar.bz2" ∧
    ready_fs.get_file_type_known
      (GetLocalFile sample_env ready_fs scenario_A_updater.version_information_.available_
        false) = false ∧
    local_candidate sample_env.GetDownloadDir
        (GetFilename sample_env scenario_A_updater.version_information_.available_.url_) 2
      = sample_env.GetDownloadDir ++ w "f" ++ counter_tag 2 ++ w ".tar.bz2" :=
  ⟨by decide, by decide,
   (C14_local_file sample_env ready_fs scenario_A_updater.version_information_.available_
      false).2.2.2.2.2 rfl (by decide),
   ((C14_local_file sample_env ready_fs scenario_A_updater.version_information_.available_
      false).2.2.2.1 2).1 (w "f") (w ".tar.bz2") (by decide) (by decide) (by decide)
      (by decide)⟩

set_option maxRecDepth 100000 in
/-- C14 as stated fails. For the URL `http://x/.tar.bz2` the name is `.tar.bz2`; with a file
of that name on disk and reuse not allowed the claim's second candidate is
`/dl/ (2).tar.bz2`, which names no file, but the code returns `/dl/.tar (2).bz2`: the
eight-character name is not longer than eight characters. And with an empty download
directory and a URL without filename the result is the empty string although no candidate
is blocked. -/
theorem C14_counterexample :
    GetFilename sample_env (w "http://x/.tar.bz2") = w ".tar.bz2" ∧
    claimed_local_candidate (w "/dl/") (w ".tar.bz2") 2 = w "/dl/ (2).tar.bz2" ∧
    dotfile_fs.get_file_type_known (w "/dl/.tar.bz2") = true ∧
    dotfile_fs.get_file_type_known (w "/dl/ (2).tar.bz2") = false ∧
    GetLocalFile sample_env dotfile_fs { url_ := w "http://x/.tar.bz2" } false
      = w "/dl/.tar (2).bz2" ∧
    GetLocalFile sample_env_nodir empty_fs {} false = [] ∧
    (∀ c ∈ local_candidates sample_env_nodir.GetDownloadDir
        (GetFilename sample_env_nodir ({} : build).url_),
      local_blocked sample_env_nodir empty_fs {} false c = false) := by
  decide

/-! ## C15: the staging path -/

/-- C15 (amended). For a fixed non-empty temp directory, `GetTempFile` is deterministic and
keyed by the first 16 characters of the expected hash: two available builds get the same
staging path if and only if their hashes agree on their first 16 characters. So builds
with the same hash share the path, builds whose hashes differ within the first 16
characters get different paths, and builds whose hashes differ only later collide. -/
theorem C15_temp_file_key (env : Env) (vi1 vi2 : version_information)
    (hdir : env.GetTempDir ≠ []) :
    (GetTempFile env vi1 = GetTempFile env vi2 ↔
      vi1.available_.hash_.take 16 = vi2.available_.hash_.take 16) ∧
    (vi1.available_.hash_ = vi2.available_.hash_ → GetTempFile env vi1 = GetTempFile env vi2) ∧
    GetTempFile env vi1 ≠ [] := by
  have hshape : ∀ vi : version_information, GetTempFile env vi
      = (if env.GetTempDir.getLast? ≠ some env.GetPathSeparator then
          env.GetTempDir ++ [env.GetPathSeparator] else env.GetTempDir)
        ++ (w "fzupdate_" ++ vi.available_.hash_.take 16 ++ w ".tmp") := by
    intro vi
    unfold GetTempFile
    simp only
    rw [if_pos hdir]
  have hiff : GetTempFile env vi1 = GetTempFile env vi2 ↔
      vi1.available_.hash_.take 16 = vi2.available_.hash_.take 16 := by
    rw [hshape vi1, hshape vi2]
    constructor
    · intro h
      have h1 := List.append_cancel_left h
      have h2 := List.append_cancel_right h1
      exact List.append_cancel_left h2
    · intro h
      rw [h]
  refine ⟨hiff, fun h => hiff.mpr (by rw [h]), ?_⟩
  rw [hshape vi1]
  simp [w]

set_option maxRecDepth 100000 in
/-- On the sample machine the build of scenario A is staged at
`/tmp/fzupdate_ddaf35a193617aba.tmp`, and so is any build with the same hash. -/
theorem C15_temp_file_key_witness :
    sample_env.GetTempDir ≠ [] ∧
    GetTempFile sample_env scenario_A_updater.version_information_
      = w "/tmp/fzupdate_ddaf35a193617aba.tmp" ∧
    GetTempFile sample_env scenario_A_updater.version_information_
      = GetTempFile sample_env
          { available_ := { hash_ := str_tolower_ascii sample_hash } } :=
  ⟨by decide, by decide,
   (C15_temp_file_key sample_env scenario_A_updater.version_information_
      { available_ := { hash_ := str_tolower_ascii sample_hash } } (by decide)).2.1
      (by decide)⟩

set_option maxRecDepth 100000 in
/-- C15 as stated fails: the digest of scenario A and the 128-digit hash that differs from
it in the last digit only are different hashes staged at the same path. -/
theorem C15_counterexample :
    sample_env.GetTempDir ≠ [] ∧
    str_tolower_ascii sample_hash ≠ (str_tolower_ascii sample_hash).take 127 ++ w "0" ∧
    ((str_tolower_ascii sample_hash).take 127 ++ w "0").length = 128 ∧
    GetTempFile sample_env { available_ := { hash_ := str_tolower_ascii sample_hash } }
      = GetTempFile sample_env
          { available_ := { hash_ := (str_tolower_ascii sample_hash).take 127 ++ w "0" } } := by
  decide

/-! ## C16: parsing twice -/

/-- C16. Parsing is idempotent: for every raw manifest text and fixed environment, running
`ParseData` twice in a row leaves the object exactly as one run does, so the
`version_information_` after the second run equals the one after the first in every field
(stable, beta, nightly, available, changelog, resources, eol); the raw manifest text is
unchanged by parsing; and what is parsed depends on the raw text and the environment only,
not on what the object held before. -/
theorem C16_parse_idempotent (env : Env) (u : CUpdater) :
    ParseData_call env (ParseData_call env u) = ParseData_call env u ∧
    (ParseData_call env (ParseData_call env u)).version_information_
      = (ParseData_call env u).version_information_ ∧
    (ParseData_call env u).raw_version_information_ = u.raw_version_information_ ∧
    (∀ u2 : CUpdater, u2.raw_version_information_ = u.raw_version_information_ →
      (ParseData_call env u2).version_information_
        = (ParseData_call env u).version_information_) := by
  refine ⟨rfl, rfl, rfl, ?_⟩
  intro u2 h
  unfold ParseData_call
  simp only [h]

set_option maxRecDepth 100000 in
/-- The manifest of scenario A parsed by a coordinator that already holds its result and
by one that holds an unrelated aggregate: the same `version_information_`, whose stable
build is version 9.9.9. -/
theorem C16_parse_idempotent_witness :
    (ParseData_call sample_env
      { raw_version_information_ := scenario_A_line ++ [LF],
        version_information_ := { eol_ := true, changelog_ := w "old" } }).version_information_
      = (ParseData_call sample_env scenario_A_updater).version_information_ ∧
    (ParseData_call sample_env scenario_A_updater).version_information_.stable_.version_
      = w "9.9.9" :=
  ⟨(C16_parse_idempotent sample_env scenario_A_updater).2.2.2
      { raw_version_information_ := scenario_A_line ++ [LF],
        version_information_ := { eol_ := true, changelog_ := w "old" } } rfl,
   by decide⟩

/-! ## C17: the eol flag and the available build -/

/-- The loop of `ParseData` is the loop body run over the lines before the first line
without tokens; beyond that only the changelog is set. -/
theorem parse_loop_structured (env : Env) (n : Nat) :
    ∀ (raw : List Char) (vi : version_information), ∃ c : List Char,
      parse_loop env n raw vi
        = { (structured_lines_loop n raw).foldl
              (fun v l => parse_line env (strtok l delims) v) vi with changelog_ := c } := by
  induction n with
  | zero => intro raw vi; exact ⟨vi.changelog_, rfl⟩
  | succ k ih =>
    intro raw vi
    unfold parse_loop structured_lines_loop
    simp only
    by_cases hraw : raw = []
    · rw [if_pos hraw, if_pos hraw]
      exact ⟨vi.changelog_, rfl⟩
    · rw [if_neg hraw, if_neg hraw]
      by_cases htok : strtok (splitLine raw).1 delims = []
      · rw [if_pos htok, if_pos htok]
        exact ⟨trim ((splitLine raw).2.getD []), rfl⟩
      · rw [if_neg htok, if_neg htok]
        obtain ⟨c, hc⟩ := ih ((splitLine raw).2.getD [])
          (parse_line env (strtok (splitLine raw).1 delims) vi)
        exact ⟨c, by rw [hc]; rfl⟩

theorem ParseData_structured (env : Env) (raw : List Char) : ∃ c : List Char,
    ParseData env raw
      = update_available env.checkbeta
          { (structured_lines raw).foldl
              (fun v l => parse_line env (strtok l delims) v) {} with changelog_ := c } := by
  obtain ⟨c, hc⟩ := parse_loop_structured env raw.length raw {}
  exact ⟨c, by unfold ParseData structured_lines; rw [hc]⟩

/-- The loop body sets the flag on an `eol` line that has a second token and a valid
signature on a platform with the end-of-life branch, and never clears it. -/
theorem parse_line_flag (env : Env) (tokens : List (List Char)) (vi : version_information) :
    (parse_line env tokens vi).eol_ = (vi.eol_ || sets_eol env tokens) := by
  unfold parse_line sets_eol is_eol_line
  simp only
  by_cases hl : tokens.length < 2
  · have hl2 : ¬ 2 ≤ tokens.length := by omega
    rw [if_pos hl]
    simp [hl2]
  · have hl2 : 2 ≤ tokens.length := by omega
    rw [if_neg hl]
    by_cases h1 : tokens.getD 0 [] = w "resources"
    · have hne : ¬ tokens.getD 0 [] = w "eol" := by rw [h1]; decide
      rw [if_pos h1]
      have hd : decide (tokens.getD 0 [] = w "eol") = false := decide_eq_false hne
      rw [hd]
      split_ifs <;> simp
    · rw [if_neg h1]
      by_cases h2 : tokens.getD 0 [] = w "resource"
      · have hne : ¬ tokens.getD 0 [] = w "eol" := by rw [h2]; decide
        have hd : decide (tokens.getD 0 [] = w "eol") = false := decide_eq_false hne
        rw [if_pos h2, hd]
        split_ifs <;> simp
      · rw [if_neg h2]
        by_cases h3 : tokens.getD 0 [] = w "eol" ∧ env.platform ≠ Platform.other
        · have hd : decide (tokens.getD 0 [] = w "eol") = true := decide_eq_true h3.1
          have hp : decide (env.platform ≠ Platform.other) = true := decide_eq_true h3.2
          have hl3 : decide (2 ≤ tokens.length) = true := decide_eq_true hl2
          rw [if_pos h3, hd, hp, hl3]
          cases hv : eol_valid_signature env tokens <;> simp
        · rw [if_neg h3]
          have hs : (decide (tokens.getD 0 [] = w "eol") && decide (2 ≤ tokens.length)
              && decide (env.platform ≠ Platform.other) && eol_valid_signature env tokens)
              = false := by
            by_cases he : tokens.getD 0 [] = w "eol"
            · have hp : ¬ env.platform ≠ Platform.other := fun hp => h3 ⟨he, hp⟩
              have hd : decide (env.platform ≠ Platform.other) = false := decide_eq_false hp
              rw [hd]
              simp
            · have hd : decide (tokens.getD 0 [] = w "eol") = false := decide_eq_false he
              rw [hd]
              simp
          rw [hs, Bool.or_false]
          split_ifs
          · cases parse_build env tokens (tokens.getD 1 []) with
            | none => rfl
            | some b =>
              simp only
              unfold store_build
              split_ifs <;> rfl
          · rfl

/-- A line that stores no build leaves the three channels as they are. -/
theorem parse_line_no_store (env : Env) (tokens : List (List Char))
    (vi : version_information) (h : stores_build env tokens = false) :
    (parse_line env tokens vi).stable_ = vi.stable_ ∧
    (parse_line env tokens vi).beta_ = vi.beta_ ∧
    (parse_line env tokens vi).nightly_ = vi.nightly_ := by
  unfold parse_line
  simp only
  by_cases hl : tokens.length < 2
  · rw [if_pos hl]
    exact ⟨rfl, rfl, rfl⟩
  · rw [if_neg hl]
    by_cases h1 : tokens.getD 0 [] = w "resources"
    · rw [if_pos h1]
      split_ifs <;> exact ⟨rfl, rfl, rfl⟩
    · rw [if_neg h1]
      by_cases h2 : tokens.getD 0 [] = w "resource"
      · rw [if_pos h2]
        split_ifs <;> exact ⟨rfl, rfl, rfl⟩
      · rw [if_neg h2]
        by_cases h3 : tokens.getD 0 [] = w "eol" ∧ env.platform ≠ Platform.other
        · rw [if_pos h3]
          split_ifs <;> exact ⟨rfl, rfl, rfl⟩
        · rw [if_neg h3]
          by_cases hg : passes_gate env (tokens.getD 0 []) (tokens.getD 1 []) = true
          · rw [if_pos hg]
            cases hb : parse_build env tokens (tokens.getD 1 []) with
            | none => exact ⟨rfl, rfl, rfl⟩
            | some b =>
              have hl2 : decide (2 ≤ tokens.length) = true := decide_eq_true (by omega)
              unfold stores_build at h
              rw [hl2, hg, hb] at h
              simp only [Option.isSome_some, Bool.and_self, Bool.true_and, Bool.or_eq_false_iff,
                decide_eq_false_iff_not, not_not] at h
              have hrel : ¬ w "nightly" = w "release" := by decide
              have hbeta : ¬ w "nightly" = w "beta" := by decide
              simp only
              unfold store_build
              rw [h.1, if_neg (fun hc => by rw [h.2] at hc; exact absurd hc.2 (by decide)),
                if_neg hrel, if_neg hbeta]
              exact ⟨rfl, rfl, rfl⟩
          · rw [if_neg hg]
            exact ⟨rfl, rfl, rfl⟩

/-- A stored release line fills the stable channel. -/
theorem parse_line_release_stored (env : Env) (tokens : List (List Char))
    (vi : version_information) (htok : ∀ t ∈ tokens, t ≠ [])
    (h : stores_build env tokens = true) (hrel : tokens.getD 0 [] = w "release") :
    (parse_line env tokens vi).stable_.version_ ≠ [] := by
  unfold stores_build at h
  simp only [Bool.and_eq_true, decide_eq_true_eq] at h
  obtain ⟨⟨⟨hl, hg⟩, hb⟩, _⟩ := h
  have h1 : ¬ w "release" = w "resources" := by decide
  have h2 : ¬ w "release" = w "resource" := by decide
  have h3 : ¬ (w "release" = w "eol" ∧ env.platform ≠ Platform.other) :=
    fun hc => absurd hc.1 (by decide)
  have h4 : ¬ (w "release" = w "nightly" ∧ UpdatableBuild env = true) :=
    fun hc => absurd hc.1 (by decide)
  cases hp : parse_build env tokens (tokens.getD 1 []) with
  | none => rw [hp] at hb; cases hb
  | some b =>
    have hv := parse_build_version env tokens _ b hp
    rw [hrel] at hg
    unfold parse_line
    simp only [hrel]
    rw [if_neg (by omega), if_neg h1, if_neg h2, if_neg h3, hg, if_pos rfl, hp]
    simp only
    unfold store_build
    rw [if_neg h4, if_pos rfl]
    simp only
    rw [hv]
    exact htok _ (getD_one_mem tokens (by omega))

/-- Once the stable channel holds a version, later lines keep one there. -/
theorem parse_line_stable_version (env : Env) (tokens : List (List Char))
    (vi : version_information) (htok : ∀ t ∈ tokens, t ≠ [])
    (h : vi.stable_.version_ ≠ []) : (parse_line env tokens vi).stable_.version_ ≠ [] := by
  unfold parse_line
  simp only
  split_ifs with h2 _ _ _ _ _ _ hg
  · exact h
  · exact h
  · exact h
  · exact h
  · exact h
  · exact h
  · exact h
  · cases hb : parse_build env tokens (tokens.getD 1 []) with
    | none => exact h
    | some b =>
      have hv := parse_build_version env tokens _ b hb
      simp only
      unfold store_build
      split_ifs
      · exact h
      · simp only
        rw [hv]
        exact htok _ (getD_one_mem tokens h2)
      · exact h
      · exact h
  · exact h

theorem foldl_parse_line_flag (env : Env) (lines : List (List Char)) :
    ∀ vi : version_information,
      (lines.foldl (fun v l => parse_line env (strtok l delims) v) vi).eol_
        = (vi.eol_ || lines.any (fun l => sets_eol env (strtok l delims))) := by
  induction lines with
  | nil => intro vi; simp
  | cons l ls ih =>
    intro vi
    rw [List.foldl_cons, ih, parse_line_flag, List.any_cons, Bool.or_assoc]

theorem foldl_parse_line_no_store (env : Env) (lines : List (List Char)) :
    ∀ vi : version_information,
      (∀ l ∈ lines, stores_build env (strtok l delims) = false) →
      (lines.foldl (fun v l => parse_line env (strtok l delims) v) vi).stable_ = vi.stable_ ∧
      (lines.foldl (fun v l => parse_line env (strtok l delims) v) vi).beta_ = vi.beta_ ∧
      (lines.foldl (fun v l => parse_line env (strtok l delims) v) vi).nightly_
        = vi.nightly_ := by
  induction lines with
  | nil => intro vi _; exact ⟨rfl, rfl, rfl⟩
  | cons l ls ih =>
    intro vi h
    have hl := parse_line_no_store env (strtok l delims) vi (h l (by simp))
    have hls := ih (parse_line env (strtok l delims) vi) (fun l1 h1 => h l1 (by simp [h1]))
    rw [List.foldl_cons]
    exact ⟨hls.1.trans hl.1, hls.2.1.trans hl.2.1, hls.2.2.trans hl.2.2⟩

theorem foldl_parse_line_stable_version (env : Env) (lines : List (List Char)) :
    ∀ vi : version_information, vi.stable_.version_ ≠ [] →
      (lines.foldl (fun v l => parse_line env (strtok l delims) v) vi).stable_.version_
        ≠ [] := by
  induction lines with
  | nil => intro vi h; exact h
  | cons l ls ih =>
    intro vi h
    rw [List.foldl_cons]
    exact ih _ (parse_line_stable_version env _ vi (strtok_ne_nil l delims) h)

theorem foldl_parse_line_release_stored (env : Env) (lines : List (List Char)) :
    ∀ vi : version_information,
      (∃ l ∈ lines, stores_build env (strtok l delims) = true
        ∧ (strtok l delims).getD 0 [] = w "release") →
      (lines.foldl (fun v l => parse_line env (strtok l delims) v) vi).stable_.version_
        ≠ [] := by
  induction lines with
  | nil => intro vi h; obtain ⟨l, hl, _⟩ := h; simp at hl
  | cons l ls ih =>
    intro vi h
    rw [List.foldl_cons]
    obtain ⟨l1, hmem, hs, hr⟩ := h
    rcases List.mem_cons.mp hmem with e | e
    · subst e
      exact foldl_parse_line_stable_version env ls _
        (parse_line_release_stored env _ vi (strtok_ne_nil l1 delims) hs hr)
    · exact ih _ ⟨l1, e, hs, hr⟩

/-- The available build is empty exactly when the selection finds no build. -/
theorem update_available_empty_iff (checkbeta : Int) (vi : version_information) :
    (update_available checkbeta vi).available_ = empty_build ↔
      (¬ (vi.nightly_.url_ ≠ [] ∧ checkbeta = 2) ∧ ¬ (vi.beta_.version_ ≠ [] ∧ checkbeta ≠ 0)
        ∧ vi.stable_.version_ = []) := by
  unfold update_available
  split_ifs with c1 c2 c3
  · constructor
    · intro h
      exact absurd (by rw [show vi.nightly_ = empty_build from h]; rfl) c1.1
    · intro h
      exact absurd c1 h.1
  · constructor
    · intro h
      exact absurd (by rw [show vi.beta_ = empty_build from h]; rfl) c2.1
    · intro h
      exact absurd c2 h.2.1
  · constructor
    · intro h
      exact absurd (by rw [show vi.stable_ = empty_build from h]; rfl) c3
    · intro h
      exact absurd h.2.2 c3
  · constructor
    · intro _
      exact ⟨c1, c2, not_not.mp c3⟩
    · intro _
      rfl

/-- C17 (amended). For every manifest: `ParseData` ends with the eol flag set exactly when
one of the lines before the first blank line is an `eol` line with a second token whose
signature verifies, on a platform with the end-of-life branch. Whenever it ends with the
flag set, the resulting available build is empty exactly when the selection policy finds
no build in the channels; it is empty, and so is every channel, whenever none of those
lines stores a build in a channel, whatever other lines the manifest contains; and it is
not empty when one of those lines is a release line that is stored: the flag clears
nothing. -/
theorem C17_eol_flag_and_available (env : Env) (raw : List Char) :
    ((ParseData env raw).eol_ = true ↔
      ∃ l ∈ structured_lines raw, sets_eol env (strtok l delims) = true) ∧
    ((ParseData env raw).eol_ = true →
      ((ParseData env raw).available_ = empty_build ↔
        (¬ ((ParseData env raw).nightly_.url_ ≠ [] ∧ env.checkbeta = 2)
          ∧ ¬ ((ParseData env raw).beta_.version_ ≠ [] ∧ env.checkbeta ≠ 0)
          ∧ (ParseData env raw).stable_.version_ = []))) ∧
    ((ParseData env raw).eol_ = true →
      (∀ l ∈ structured_lines raw, stores_build env (strtok l delims) = false) →
      (ParseData env raw).available_ = empty_build ∧
      (ParseData env raw).stable_ = empty_build ∧ (ParseData env raw).beta_ = empty_build ∧
      (ParseData env raw).nightly_ = empty_build) ∧
    ((ParseData env raw).eol_ = true →
      (∃ l ∈ structured_lines raw, stores_build env (strtok l delims) = true
        ∧ (strtok l delims).getD 0 [] = w "release") →
      (ParseData env raw).available_ ≠ empty_build ∧
      (ParseData env raw).available_.version_ ≠ []) := by
  obtain ⟨c, hc⟩ := ParseData_structured env raw
  have hflag := foldl_parse_line_flag env (structured_lines raw) {}
  have hfields : (ParseData env raw).eol_
        = ((structured_lines raw).foldl
            (fun v l => parse_line env (strtok l delims) v) {}).eol_ ∧
      (ParseData env raw).stable_
        = ((structured_lines raw).foldl
            (fun v l => parse_line env (strtok l delims) v) {}).stable_ ∧
      (ParseData env raw).beta_
        = ((structured_lines raw).foldl
            (fun v l => parse_line env (strtok l delims) v) {}).beta_ ∧
      (ParseData env raw).nightly_
        = ((structured_lines raw).foldl
            (fun v l => parse_line env (strtok l delims) v) {}).nightly_ := by
    rw [hc]
    unfold update_available
    split_ifs <;> exact ⟨rfl, rfl, rfl, rfl⟩
  have hiff : (ParseData env raw).available_ = empty_build ↔
      (¬ ((ParseData env raw).nightly_.url_ ≠ [] ∧ env.checkbeta = 2)
        ∧ ¬ ((ParseData env raw).beta_.version_ ≠ [] ∧ env.checkbeta ≠ 0)
        ∧ (ParseData env raw).stable_.version_ = []) := by
    rw [hfields.2.1, hfields.2.2.1, hfields.2.2.2]
    rw [hc]
    exact update_available_empty_iff env.checkbeta _
  refine ⟨?_, fun _ => hiff, ?_, ?_⟩
  · rw [hfields.1, hflag]
    simp only [Bool.false_or, List.any_eq_true]
  · intro _ hno
    have hch := foldl_parse_line_no_store env (structured_lines raw) {} hno
    have hs : (ParseData env raw).stable_ = empty_build := hfields.2.1.trans hch.1
    have hb : (ParseData env raw).beta_ = empty_build := hfields.2.2.1.trans hch.2.1
    have hn : (ParseData env raw).nightly_ = empty_build := hfields.2.2.2.trans hch.2.2
    refine ⟨hiff.mpr ⟨?_, ?_, ?_⟩, hs, hb, hn⟩
    · rw [hn]; exact fun h => h.1 rfl
    · rw [hb]; exact fun h => h.1 rfl
    · rw [hs]; rfl
  · intro _ hrel
    have hv := foldl_parse_line_release_stored env (structured_lines raw) {} hrel
    rw [← hfields.2.1] at hv
    have hne : (ParseData env raw).available_ ≠ empty_build :=
      fun h => hv (hiff.mp h).2.2
    refine ⟨hne, ?_⟩
    by_cases hurl : (ParseData env raw).available_.url_ ≠ []
    · exact ParseData_available_version env raw hurl
    · intro hver
      apply hne
      have hurl2 : (ParseData env raw).available_.url_ = [] := not_not.mp hurl
      rw [hc] at hver hurl2 ⊢
      unfold update_available at hver hurl2 ⊢
      split_ifs at hver hurl2 ⊢ with c1 c2 c3
      · exact absurd hurl2 c1.1
      · exact absurd hver c2.1
      · exact absurd hver c3
      · rfl

set_option maxRecDepth 100000 in
/-- On the sample build for Windows: a manifest with a validly signed `eol` line, a
resource line, a line of unknown type, an unsigned build line and a changelog ends with
the flag set and offers no build; with the signed release line of scenario A after the
`eol` line the flag is set and a build is offered. -/
theorem C17_eol_flag_and_available_witness :
    (structured_lines eol_mixed_manifest
      = [scenario_D_line, w "resource 1 some text", w "foo bar", scenario_B_line]) ∧
    (ParseData sample_env_msw eol_mixed_manifest).eol_ = true ∧
    (ParseData sample_env_msw eol_mixed_manifest).available_ = empty_build ∧
    (ParseData sample_env_msw (join_lines [scenario_D_line, scenario_A_line])).available_
      ≠ empty_build :=
  ⟨by decide, by decide,
   ((C17_eol_flag_and_available sample_env_msw eol_mixed_manifest).2.2.1 (by decide)
      (by decide)).1,
   ((C17_eol_flag_and_available sample_env_msw
      (join_lines [scenario_D_line, scenario_A_line])).2.2.2 (by decide)
      ⟨scenario_A_line, by decide, by decide, by decide⟩).1⟩

set_option maxRecDepth 100000 in
/-- C17 as stated fails: for the manifest made of a validly signed `eol` line and the
signed release line of scenario A, `ParseData` ends with the eol flag set and with the
9.9.9 build as the available build. -/
theorem C17_counterexample :
    (ParseData sample_env_msw (join_lines [scenario_D_line, scenario_A_line])).eol_ = true ∧
    (ParseData sample_env_msw (join_lines [scenario_D_line, scenario_A_line])).available_
      = { url_ := w "http://x/f.tar.bz2", version_ := w "9.9.9",
          hash_ := str_tolower_ascii sample_hash, size_ := 3 } ∧
    (ParseData sample_env_msw (join_lines [scenario_D_line, scenario_A_line])).available_
      ≠ empty_build := by
  decide

/-! ## C18: the subscriber registry -/

theorem registered_iff (h : Nat) (hs : List (Option Nat)) :
    registered h hs = true ↔ some h ∈ hs := by
  simp [registered]

theorem fill_first_null_none (h : Nat) (hs : List (Option Nat)) (hn : none ∉ hs) :
    fill_first_null h hs = none := by
  induction hs with
  | nil => rfl
  | cons x rest ih =>
    cases x with
    | none => simp at hn
    | some y =>
      have : none ∉ rest := fun hc => hn (List.mem_cons_of_mem _ hc)
      simp [fill_first_null, ih this]

theorem fill_first_null_some (h : Nat) (pre post : List (Option Nat)) (hn : none ∉ pre) :
    fill_first_null h (pre ++ none :: post) = some (pre ++ some h :: post) := by
  induction pre with
  | nil => rfl
  | cons x rest ih =>
    cases x with
    | none => simp at hn
    | some y =>
      have : none ∉ rest := fun hc => hn (List.mem_cons_of_mem _ hc)
      simp [fill_first_null, ih this]

theorem fill_first_null_count (h x : Nat) :
    ∀ (hs l : List (Option Nat)), fill_first_null h hs = some l →
      l.count (some x) = hs.count (some x) + (if x = h then 1 else 0) := by
  intro hs
  induction hs with
  | nil => intro l hl; simp [fill_first_null] at hl
  | cons y rest ih =>
    intro l hl
    cases y with
    | none =>
      simp only [fill_first_null, Option.some.injEq] at hl
      subst hl
      by_cases hx : x = h
      · subst hx
        simp [List.count_cons]
      · have : ¬ h = x := fun e => hx e.symm
        simp [List.count_cons, hx, this]
    | some z =>
      simp only [fill_first_null, Option.map_eq_some'] at hl
      obtain ⟨l1, hl1, rfl⟩ := hl
      have := ih l1 hl1
      simp only [List.count_cons, this]
      omega

theorem clear_first_length (h : Nat) (hs : List (Option Nat)) :
    (clear_first h hs).length = hs.length := by
  induction hs with
  | nil => rfl
  | cons x rest ih =>
    unfold clear_first
    by_cases hx : x = some h
    · rw [if_pos hx]; rfl
    · rw [if_neg hx]; simp [ih]

theorem clear_first_slot (h : Nat) :
    ∀ (hs : List (Option Nat)) (i : Nat),
      (clear_first h hs).getD i none = hs.getD i none ∨
      (hs.getD i none = some h ∧ (clear_first h hs).getD i none = none) := by
  intro hs
  induction hs with
  | nil => intro i; left; rfl
  | cons x rest ih =>
    intro i
    unfold clear_first
    by_cases hx : x = some h
    · rw [if_pos hx]
      cases i with
      | zero => right; simp [hx]
      | succ j => left; simp
    · rw [if_neg hx]
      cases i with
      | zero => left; simp
      | succ j => simpa using ih j

theorem clear_first_count (h x : Nat) (hs : List (Option Nat)) :
    (clear_first h hs).count (some x)
      = if x = h then hs.count (some h) - 1 else hs.count (some x) := by
  induction hs with
  | nil => simp [clear_first]
  | cons y rest ih =>
    unfold clear_first
    by_cases hy : y = some h
    · rw [if_pos hy]
      subst hy
      by_cases hx : x = h
      · subst hx
        simp [List.count_cons]
      · have : ¬ h = x := fun e => hx e.symm
        simp [List.count_cons, hx, this]
    · rw [if_neg hy]
      by_cases hx : x = h
      · subst hx
        have hyb : (y == some x) = false := by simpa using hy
        rw [if_pos rfl] at ih ⊢
        simp only [List.count_cons, hyb, ih]
        simp
      · rw [if_neg hx] at ih ⊢
        simp only [List.count_cons, ih]

/-- No handler occurs more than once in the list. -/
theorem handlers_once_AddHandler (u : CUpdater) (h : Nat)
    (hu : ∀ x, u.handlers_.count (some x) ≤ 1) :
    ∀ x, (AddHandler u h).handlers_.count (some x) ≤ 1 := by
  intro x
  unfold AddHandler
  by_cases hr : registered h u.handlers_ = true
  · rw [if_pos hr]; exact hu x
  · rw [if_neg hr]
    have hnot : some h ∉ u.handlers_ := fun hc => hr ((registered_iff h _).mpr hc)
    have h0 : u.handlers_.count (some h) = 0 := List.count_eq_zero.mpr hnot
    cases hf : fill_first_null h u.handlers_ with
    | none =>
      simp only [List.count_append, List.count_cons, List.count_nil]
      by_cases hx : x = h
      · subst hx
        simp [h0]
      · have : ¬ h = x := fun e => hx e.symm
        have := hu x
        simp [this, *]
    | some l =>
      simp only [fill_first_null_count h x _ l hf]
      by_cases hx : x = h
      · subst hx
        simp [h0]
      · have := hu x
        simp [hx, this]

theorem handlers_once_RemoveHandler (u : CUpdater) (h : Nat)
    (hu : ∀ x, u.handlers_.count (some x) ≤ 1) :
    ∀ x, (RemoveHandler u h).handlers_.count (some x) ≤ 1 := by
  intro x
  unfold RemoveHandler
  simp only [clear_first_count]
  have h1 := hu x
  have h2 := hu h
  split <;> omega

theorem handlers_once_calls (calls : List HandlerCall) :
    ∀ (u : CUpdater), (∀ x, u.handlers_.count (some x) ≤ 1) →
      ∀ x, (handler_calls u calls).handlers_.count (some x) ≤ 1 := by
  induction calls with
  | nil => intro u hu; exact hu
  | cons c rest ih =>
    intro u hu
    have : handler_calls u (c :: rest) = handler_calls (handler_call u c) rest := rfl
    rw [this]
    apply ih
    cases c with
    | add h => exact handlers_once_AddHandler u h hu
    | remove h => exact handlers_once_RemoveHandler u h hu

theorem CUpdater_new_handlers (parent : Nat) (lastdate newversion lastversion : List Char) :
    (CUpdater_new parent lastdate newversion lastversion).handlers_ = [some parent] := by
  simp [CUpdater_new, AddHandler, registered, fill_first_null]

/-- C18. Subscriber-registry invariant. In every coordinator reached from a freshly
constructed one by any sequence of `AddHandler` and `RemoveHandler` calls: no handler
occurs more than once in the handler list; `AddHandler` of a registered handler changes
nothing; `RemoveHandler` keeps the length of the list and every slot, except that a slot
holding the handler becomes null; the removed handler no longer occurs; `AddHandler` of a
handler that is not registered puts it into the first null slot if there is one and
appends it otherwise. -/
theorem C18_handler_registry (parent : Nat) (lastdate newversion lastversion : List Char)
    (calls : List HandlerCall) :
    (∀ h, (handler_calls (CUpdater_new parent lastdate newversion lastversion)
        calls).handlers_.count (some h) ≤ 1) ∧
    (∀ h, registered h (handler_calls (CUpdater_new parent lastdate newversion lastversion)
        calls).handlers_ = true →
      AddHandler (handler_calls (CUpdater_new parent lastdate newversion lastversion) calls) h
        = handler_calls (CUpdater_new parent lastdate newversion lastversion) calls) ∧
    (∀ h, (RemoveHandler (handler_calls (CUpdater_new parent lastdate newversion lastversion)
        calls) h).handlers_.length
        = (handler_calls (CUpdater_new parent lastdate newversion lastversion)
            calls).handlers_.length ∧
      ∀ i, (RemoveHandler (handler_calls (CUpdater_new parent lastdate newversion lastversion)
            calls) h).handlers_.getD i none
          = (handler_calls (CUpdater_new parent lastdate newversion lastversion)
              calls).handlers_.getD i none ∨
        ((handler_calls (CUpdater_new parent lastdate newversion lastversion)
              calls).handlers_.getD i none = some h ∧
          (RemoveHandler (handler_calls (CUpdater_new parent lastdate newversion lastversion)
            calls) h).handlers_.getD i none = none)) ∧
    (∀ h, registered h (RemoveHandler (handler_calls
        (CUpdater_new parent lastdate newversion lastversion) calls) h).handlers_ = false) ∧
    (∀ h, registered h (handler_calls (CUpdater_new parent lastdate newversion lastversion)
        calls).handlers_ = false →
      (∀ pre post, (handler_calls (CUpdater_new parent lastdate newversion lastversion)
          calls).handlers_ = pre ++ none :: post → none ∉ pre →
        (AddHandler (handler_calls (CUpdater_new parent lastdate newversion lastversion)
          calls) h).handlers_ = pre ++ some h :: post) ∧
      (none ∉ (handler_calls (CUpdater_new parent lastdate newversion lastversion)
          calls).handlers_ →
        (AddHandler (handler_calls (CUpdater_new parent lastdate newversion lastversion)
          calls) h).handlers_
          = (handler_calls (CUpdater_new parent lastdate newversion lastversion)
              calls).handlers_ ++ [some h])) := by
  have hinv : ∀ h, (handler_calls (CUpdater_new parent lastdate newversion lastversion)
      calls).handlers_.count (some h) ≤ 1 := by
    apply handlers_once_calls
    intro x
    rw [CUpdater_new_handlers]
    simp only [List.count_cons, List.count_nil]
    split <;> omega
  generalize handler_calls (CUpdater_new parent lastdate newversion lastversion) calls = u
    at hinv ⊢
  refine ⟨hinv, ?_, ?_, ?_, ?_⟩
  · intro h hr
    unfold AddHandler
    rw [if_pos hr]
  · intro h
    exact ⟨clear_first_length h _, clear_first_slot h _⟩
  · intro h
    have hc : (clear_first h u.handlers_).count (some h) = 0 := by
      rw [clear_first_count, if_pos rfl]
      have := hinv h
      omega
    have hnot : some h ∉ clear_first h u.handlers_ := List.count_eq_zero.mp hc
    cases hreg : registered h (RemoveHandler u h).handlers_ with
    | false => rfl
    | true => exact absurd ((registered_iff h _).mp hreg) hnot
  · intro h hr
    have hr2 : ¬ registered h u.handlers_ = true := by simp [hr]
    refine ⟨?_, ?_⟩
    · intro pre post hsplit hpre
      unfold AddHandler
      rw [if_neg hr2, hsplit, fill_first_null_some h pre post hpre]
    · intro hnone
      unfold AddHandler
      rw [if_neg hr2, fill_first_null_none h _ hnone]

set_option maxRecDepth 100000 in
/-- A run of the registry: the parent 1 is registered by the constructor; 2 and 3 are
added, 2 is removed, 4 takes the slot of 2, and adding 3 again changes nothing. -/
theorem C18_handler_registry_witness :
    (handler_calls (CUpdater_new 1 [] [] [])
      [HandlerCall.add 2, HandlerCall.add 3, HandlerCall.remove 2]).handlers_
      = [some 1, none, some 3] ∧
    (AddHandler (handler_calls (CUpdater_new 1 [] [] [])
      [HandlerCall.add 2, HandlerCall.add 3, HandlerCall.remove 2]) 4).handlers_
      = [some 1, some 4, some 3] ∧
    registered 3 (RemoveHandler (handler_calls (CUpdater_new 1 [] [] [])
      [HandlerCall.add 2, HandlerCall.add 3, HandlerCall.remove 2]) 3).handlers_ = false :=
  ⟨by decide,
   ((C18_handler_registry 1 [] [] []
      [HandlerCall.add 2, HandlerCall.add 3, HandlerCall.remove 2]).2.2.2.2 4
      (by decide)).1 [some 1] [some 3] (by decide) (by decide),
   (C18_handler_registry 1 [] [] []
      [HandlerCall.add 2, HandlerCall.add 3, HandlerCall.remove 2]).2.2.2.1 3⟩

/-! ## C19: engine errors -/

/-- C19. For every operation notification processed in an active state with a non-empty
queue: if the reply code is neither success nor that of a disconnect command completing
with the disconnected bit set, the coordinator ends in `failed` if it was checking and in
`newversion` if it was downloading, the command queue is empty afterwards and no command
is handed to the engine. A disconnect command completing with the disconnected bit set
is processed exactly as one completing with success; when a further command follows the
front one and the engine accepts it, the front command is removed, that command is handed
to the engine and the state stays as it is. -/
theorem C19_engine_error (env : Env) (fs : FileSys) (eng : Engine) (u : CUpdater)
    (hactive : u.state_ = UpdaterState.checking
      ∨ u.state_ = UpdaterState.newversion_downloading)
    (hq : u.pending_commands_ ≠ []) :
    (∀ (commandId : Command) (replyCode : Nat), replyCode ≠ FZ_REPLY_OK →
      ¬ (commandId = Command.disconnect ∧ replyCode &&& FZ_REPLY_DISCONNECTED ≠ 0) →
      (ProcessOperation env fs eng u commandId replyCode).state_
        = (if u.state_ = UpdaterState.checking then UpdaterState.failed
            else UpdaterState.newversion) ∧
      (ProcessOperation env fs eng u commandId replyCode).pending_commands_ = [] ∧
      (ProcessOperation env fs eng u commandId replyCode).engine_calls = u.engine_calls) ∧
    (∀ replyCode : Nat, replyCode &&& FZ_REPLY_DISCONNECTED ≠ 0 →
      ProcessOperation env fs eng u Command.disconnect replyCode
        = ProcessOperation env fs eng u Command.disconnect FZ_REPLY_OK) ∧
    (∀ (replyCode : Nat) (c next : CCommand) (rest : List CCommand),
      replyCode &&& FZ_REPLY_DISCONNECTED ≠ 0 →
      u.pending_commands_ = c :: next :: rest →
      eng.Execute u.engine_calls next = FZ_REPLY_WOULDBLOCK →
      ProcessOperation env fs eng u Command.disconnect replyCode
        = { u with pending_commands_ := next :: rest,
                   engine_calls := u.engine_calls + 1 }) := by
  have hg : ¬ (u.state_ ≠ UpdaterState.checking
      ∧ u.state_ ≠ UpdaterState.newversion_downloading) := by
    rcases hactive with h | h <;> simp [h]
  refine ⟨?_, ?_, ?_⟩
  · intro commandId replyCode hcode hdisc
    have hproceed : (decide (replyCode = FZ_REPLY_OK)
        || (decide (commandId = Command.disconnect)
            && decide (replyCode &&& FZ_REPLY_DISCONNECTED ≠ 0))) = false := by
      rw [Bool.or_eq_false_iff]
      refine ⟨by simpa using hcode, ?_⟩
      rw [Bool.and_eq_false_iff]
      by_cases hc : commandId = Command.disconnect
      · right
        have : ¬ (replyCode &&& FZ_REPLY_DISCONNECTED ≠ 0) := fun h => hdisc ⟨hc, h⟩
        simpa using this
      · left
        simpa using hc
    have hres : ProcessOperation env fs eng u commandId replyCode
        = SetState u (if u.state_ ≠ UpdaterState.checking then UpdaterState.newversion
            else UpdaterState.failed) := by
      unfold ProcessOperation
      rw [if_neg hg, if_neg hq]
      simp only [hproceed, Bool.false_eq_true, if_false, false_and]
      rw [if_pos hcode]
    rw [hres]
    rcases hactive with h | h
    · simp [SetState, h]
    · simp [SetState, h]
  · intro replyCode hbit
    have hp1 : (decide (replyCode = FZ_REPLY_OK)
        || (decide (Command.disconnect = Command.disconnect)
            && decide (replyCode &&& FZ_REPLY_DISCONNECTED ≠ 0))) = true := by
      simp [hbit]
    have hp2 : (decide (FZ_REPLY_OK = FZ_REPLY_OK)
        || (decide (Command.disconnect = Command.disconnect)
            && decide (FZ_REPLY_OK &&& FZ_REPLY_DISCONNECTED ≠ 0))) = true := by
      decide
    unfold ProcessOperation
    rw [if_neg hg, if_neg hg, if_neg hq, if_neg hq, hp1, hp2]
    simp only [eq_self_iff_true, if_true, true_and]
  · intro replyCode c next rest hbit hqueue hexec
    have hne : FZ_REPLY_WOULDBLOCK ≠ FZ_REPLY_OK := by decide
    have hp1 : (decide (replyCode = FZ_REPLY_OK)
        || (decide (Command.disconnect = Command.disconnect)
            && decide (replyCode &&& FZ_REPLY_DISCONNECTED ≠ 0))) = true := by
      simp [hbit]
    have hcont : ContinueDownload eng { u with pending_commands_ := u.pending_commands_.tail }
        = (FZ_REPLY_WOULDBLOCK, { u with pending_commands_ := next :: rest,
                                         engine_calls := u.engine_calls + 1 }) := by
      simp [ContinueDownload, ContinueDownload_queue, hqueue, hexec, hne]
    unfold ProcessOperation
    rw [if_neg hg, if_neg hq, hp1]
    simp only [eq_self_iff_true, if_true, true_and, hcont]

set_option maxRecDepth 100000 in
/-- During the check started from the sample coordinator, the disconnect command
completing with `FZ_REPLY_ERROR` (the disconnected bit is not set) ends the check:
state `failed`, empty queue. -/
theorem C19_engine_error_witness :
    (checking_updater.state_ = UpdaterState.checking
      ∧ checking_updater.pending_commands_.length = 3) ∧
    (ProcessOperation sample_env empty_fs blocking_engine checking_updater
      Command.disconnect FZ_REPLY_ERROR).state_ = UpdaterState.failed ∧
    (ProcessOperation sample_env empty_fs blocking_engine checking_updater
      Command.disconnect FZ_REPLY_ERROR).pending_commands_ = [] :=
  ⟨by decide,
   ((C19_engine_error sample_env empty_fs blocking_engine checking_updater
      (Or.inl (by decide)) (by decide)).1 Command.disconnect FZ_REPLY_ERROR
      (by decide) (by decide)).1,
   ((C19_engine_error sample_env empty_fs blocking_engine checking_updater
      (Or.inl (by decide)) (by decide)).1 Command.disconnect FZ_REPLY_ERROR
      (by decide) (by decide)).2.1⟩

/-! ## C20: the stale build -/

/-- C20 (amended). In a build with automatic update checks compiled in, when automatic
checking is disabled by policy and the running build is at least 6 x 31 days old,
`AutoRunIfNeeded` called in state `idle`, `failed` or `newversion_stale` leaves the
coordinator in `newversion_stale` with an empty available build, hands no command to the
engine and queues none. Called in any other state (`newversion`, `newversion_ready`,
`eol`, `checking`, `newversion_downloading`) it changes nothing, whatever the policy and
the age of the build, so `newversion_stale` is never entered from `checking` or
`newversion_downloading`; a build without automatic update checks changes nothing in any
state. -/
theorem C20_stale_build (env : Env) (eng : Engine) (now : Int) (u : CUpdater) :
    (env.FZ_AUTOUPDATECHECK = true →
      ¬ (env.disable_updatecheck = 0 ∧ env.updatecheck ≠ 0) →
      build_age env now ≥ (31 * 6) * day_ms →
      (u.state_ = UpdaterState.idle ∨ u.state_ = UpdaterState.failed
        ∨ u.state_ = UpdaterState.newversion_stale) →
      (AutoRunIfNeeded env eng now u).state_ = UpdaterState.newversion_stale ∧
      (AutoRunIfNeeded env eng now u).version_information_.available_ = empty_build ∧
      (AutoRunIfNeeded env eng now u).engine_calls = u.engine_calls ∧
      ((AutoRunIfNeeded env eng now u).pending_commands_ = []
        ∨ (AutoRunIfNeeded env eng now u).pending_commands_ = u.pending_commands_)) ∧
    ((u.state_ = UpdaterState.newversion ∨ u.state_ = UpdaterState.newversion_ready
        ∨ u.state_ = UpdaterState.eol ∨ u.state_ = UpdaterState.checking
        ∨ u.state_ = UpdaterState.newversion_downloading) →
      AutoRunIfNeeded env eng now u = u) ∧
    (env.FZ_AUTOUPDATECHECK = false → AutoRunIfNeeded env eng now u = u) := by
  refine ⟨?_, ?_, ?_⟩
  · intro hauto hpolicy hage hstate
    have hauto2 : ¬ env.FZ_AUTOUPDATECHECK = false := by simp [hauto]
    have hstate2 : u.state_ = UpdaterState.failed ∨ u.state_ = UpdaterState.idle
        ∨ u.state_ = UpdaterState.newversion_stale := by
      rcases hstate with h | h | h
      · exact Or.inr (Or.inl h)
      · exact Or.inl h
      · exact Or.inr (Or.inr h)
    have hres : AutoRunIfNeeded env eng now u
        = SetState { u with version_information_ := {} } UpdaterState.newversion_stale := by
      unfold AutoRunIfNeeded
      rw [if_neg hauto2, if_pos hstate2, if_neg hpolicy, if_pos hage]
    rw [hres]
    unfold SetState
    by_cases hs : UpdaterState.newversion_stale ≠ u.state_
    · rw [if_pos hs]
      exact ⟨rfl, rfl, rfl, Or.inl (by simp)⟩
    · rw [if_neg hs]
      exact ⟨(not_not.mp hs).symm, rfl, rfl, Or.inr rfl⟩
  · intro hstate
    have hstate2 : ¬ (u.state_ = UpdaterState.failed ∨ u.state_ = UpdaterState.idle
        ∨ u.state_ = UpdaterState.newversion_stale) := by
      rcases hstate with h | h | h | h | h <;> simp [h]
    unfold AutoRunIfNeeded
    rw [if_neg hstate2]
    simp
  · intro hauto
    unfold AutoRunIfNeeded
    rw [if_pos hauto]

set_option maxRecDepth 100000 in
/-- With update checks switched off and a build that is more than 186 days old, the idle
sample coordinator becomes stale without a call of the engine. -/
theorem C20_stale_build_witness :
    (sample_env_nocheck.FZ_AUTOUPDATECHECK = true
      ∧ ¬ (sample_env_nocheck.disable_updatecheck = 0 ∧ sample_env_nocheck.updatecheck ≠ 0)
      ∧ build_age sample_env_nocheck 20000000000 ≥ (31 * 6) * day_ms
      ∧ idle_checked_updater.state_ = UpdaterState.idle) ∧
    (AutoRunIfNeeded sample_env_nocheck failing_engine 20000000000
      idle_checked_updater).state_ = UpdaterState.newversion_stale ∧
    (AutoRunIfNeeded sample_env_nocheck failing_engine 20000000000
      idle_checked_updater).engine_calls = 0 :=
  ⟨by decide,
   ((C20_stale_build sample_env_nocheck failing_engine 20000000000 idle_checked_updater).1
      (by decide) (by decide) (by decide) (Or.inl (by decide))).1,
   ((C20_stale_build sample_env_nocheck failing_engine 20000000000 idle_checked_updater).1
      (by decide) (by decide) (by decide) (Or.inl (by decide))).2.2.1⟩

set_option maxRecDepth 100000 in
/-- C20 as stated fails: with update checks switched off and a build more than 186 days
old, `AutoRunIfNeeded` called in the non-busy state `newversion` leaves the coordinator in
`newversion` with the 9.9.9 build still offered; and in a build compiled without
automatic update checks the idle coordinator stays idle. -/
theorem C20_counterexample :
    (sample_env_nocheck.FZ_AUTOUPDATECHECK = true
      ∧ ¬ (sample_env_nocheck.disable_updatecheck = 0 ∧ sample_env_nocheck.updatecheck ≠ 0)
      ∧ build_age sample_env_nocheck 20000000000 ≥ (31 * 6) * day_ms
      ∧ offered_updater.state_ = UpdaterState.newversion) ∧
    (AutoRunIfNeeded sample_env_nocheck failing_engine 20000000000
      offered_updater).state_ = UpdaterState.newversion ∧
    (AutoRunIfNeeded sample_env_nocheck failing_engine 20000000000
      offered_updater).version_information_.available_.version_ = w "9.9.9" ∧
    (¬ (sample_env_noauto.disable_updatecheck = 0 ∧ sample_env_noauto.updatecheck ≠ 0)
      ∧ build_age sample_env_noauto 20000000000 ≥ (31 * 6) * day_ms
      ∧ idle_checked_updater.state_ = UpdaterState.idle) ∧
    (AutoRunIfNeeded sample_env_noauto failing_engine 20000000000
      idle_checked_updater).state_ = UpdaterState.idle := by
  decide

/-! ## C21: the blank line and the changelog -/

/-- What `splitLine` returns, read backwards. -/
theorem splitLine_spec (raw : List Char) :
    ((splitLine raw).2 = none → LF ∉ raw ∧ (splitLine raw).1 = raw) ∧
    (∀ rest, (splitLine raw).2 = some rest →
      raw = (splitLine raw).1 ++ LF :: rest ∧ LF ∉ (splitLine raw).1) := by
  induction raw with
  | nil => simp [splitLine]
  | cons c cs ih =>
    by_cases hc : c = LF
    · subst hc
      simp [splitLine]
    · have hc2 : ¬ LF = c := fun e => hc e.symm
      simp only [splitLine, if_neg hc]
      refine ⟨?_, ?_⟩
      · intro h
        have := ih.1 h
        simp [this.1, this.2, hc2]
      · intro rest h
        have := ih.2 rest h
        refine ⟨?_, ?_⟩
        · rw [List.cons_append, ← this.1]
        · simp [hc2, this.2]

/-- Every manifest either is made of lines with tokens only (the last one possibly
without line feed), or has a first line without tokens, which is either closed by a line
feed or is the non-empty end of the text. -/
theorem manifest_shape (n : Nat) :
    ∀ raw : List Char, raw.length ≤ n →
      (∃ lines last, raw = join_lines lines ++ last ∧
        (∀ l ∈ lines, LF ∉ l ∧ strtok l delims ≠ []) ∧ LF ∉ last ∧
        (last = [] ∨ strtok last delims ≠ [])) ∨
      (∃ lines blank tail, raw = join_lines lines ++ blank ++ tail ∧
        (∀ l ∈ lines, LF ∉ l ∧ strtok l delims ≠ []) ∧ LF ∉ blank ∧
        strtok blank delims = [] ∧ ((tail = [] ∧ blank ≠ []) ∨ ∃ rest, tail = LF :: rest)) := by
  induction n with
  | zero =>
    intro raw h
    have : raw = [] := List.length_eq_zero.mp (Nat.le_zero.mp h)
    subst this
    exact Or.inl ⟨[], [], by simp [join_lines], by simp, by simp, Or.inl rfl⟩
  | succ k ih =>
    intro raw h
    by_cases hraw : raw = []
    · subst hraw
      exact Or.inl ⟨[], [], by simp [join_lines], by simp, by simp, Or.inl rfl⟩
    · cases hs : (splitLine raw).2 with
      | none =>
        have hspec := (splitLine_spec raw).1 hs
        by_cases ht : strtok raw delims = []
        · exact Or.inr ⟨[], raw, [], by simp [join_lines], by simp, hspec.1, ht,
            Or.inl ⟨rfl, hraw⟩⟩
        · exact Or.inl ⟨[], raw, by simp [join_lines], by simp, hspec.1, Or.inr ht⟩
      | some rest =>
        have hspec := (splitLine_spec raw).2 rest hs
        by_cases ht : strtok (splitLine raw).1 delims = []
        · exact Or.inr ⟨[], (splitLine raw).1, LF :: rest,
            by simpa [join_lines] using hspec.1, by simp, hspec.2, ht, Or.inr ⟨rest, rfl⟩⟩
        · have hlen : rest.length ≤ k := by
            have := splitLine_rest_length raw hraw
            rw [hs] at this
            simp only [Option.getD_some] at this
            omega
          have hcons : ∀ lines : List (List Char),
              (∀ l ∈ lines, LF ∉ l ∧ strtok l delims ≠ []) →
              ∀ l ∈ (splitLine raw).1 :: lines, LF ∉ l ∧ strtok l delims ≠ [] := by
            intro lines hl l hmem
            rcases List.mem_cons.mp hmem with e | e
            · subst e; exact ⟨hspec.2, ht⟩
            · exact hl l e
          rcases ih rest hlen with ⟨lines, last, he, hl, hlf, hlast⟩ | ⟨lines, blank, tail, he, hl, hlf, hb, htail⟩
          · refine Or.inl ⟨(splitLine raw).1 :: lines, last, ?_, hcons lines hl, hlf, hlast⟩
            exact hspec.1.trans (by rw [he]; simp [join_lines])
          · refine Or.inr ⟨(splitLine raw).1 :: lines, blank, tail, ?_, hcons lines hl,
              hlf, hb, htail⟩
            exact hspec.1.trans (by rw [he]; simp [join_lines])

/-- The loop over leading lines that have tokens. -/
theorem parse_loop_lines (env : Env) (lines : List (List Char)) (tail : List Char) :
    ∀ (vi : version_information) (n m : Nat),
      (∀ l ∈ lines, LF ∉ l ∧ strtok l delims ≠ []) →
      (join_lines lines ++ tail).length ≤ n → tail.length ≤ m →
      parse_loop env n (join_lines lines ++ tail) vi
        = parse_loop env m tail
            (lines.foldl (fun v l => parse_line env (strtok l delims) v) vi) := by
  induction lines with
  | nil =>
    intro vi n m _ hn hm
    simp only [join_lines, List.flatMap_nil, List.nil_append, List.foldl_nil] at hn ⊢
    exact parse_loop_fuel env n m tail vi hn hm
  | cons l ls ih =>
    intro vi n m hlines hn hm
    have hl := hlines l (by simp)
    have hls : ∀ l1 ∈ ls, LF ∉ l1 ∧ strtok l1 delims ≠ [] :=
      fun l1 h1 => hlines l1 (by simp [h1])
    have hjoin : join_lines (l :: ls) ++ tail = l ++ LF :: (join_lines ls ++ tail) := by
      simp [join_lines]
    rw [hjoin] at hn ⊢
    cases n with
    | zero => simp at hn
    | succ k =>
      rw [parse_loop_line env k l _ vi hl.1 hl.2, List.foldl_cons]
      apply ih _ k m hls _ hm
      simp only [List.length_append, List.length_cons] at hn ⊢
      omega

theorem parse_loop_blank (env : Env) (n : Nat) (blank tail : List Char)
    (vi : version_information) (hlf : LF ∉ blank) (htok : strtok blank delims = [])
    (hn : (blank ++ tail).length ≤ n)
    (htail : (tail = [] ∧ blank ≠ []) ∨ ∃ rest, tail = LF :: rest) :
    parse_loop env n (blank ++ tail) vi
      = { vi with changelog_ := trim (tail.drop 1) } := by
  rcases htail with ⟨ht, hb⟩ | ⟨rest, ht⟩
  · subst ht
    cases n with
    | zero =>
      exfalso
      apply hb
      simpa using hn
    | succ k =>
      simp only [List.append_nil]
      simp [parse_loop, hb, splitLine_of_not_mem blank hlf, htok]
  · subst ht
    cases n with
    | zero => simp at hn
    | succ k => simp [parse_loop, splitLine_append blank rest hlf, htok]

theorem update_available_changelog (checkbeta : Int) (vi : version_information)
    (c : List Char) :
    update_available checkbeta { vi with changelog_ := c }
      = { update_available checkbeta vi with changelog_ := c } := by
  unfold update_available
  simp only
  split_ifs <;> rfl

theorem parse_line_changelog (env : Env) (tokens : List (List Char))
    (vi : version_information) :
    (parse_line env tokens vi).changelog_ = vi.changelog_ := by
  unfold parse_line store_build
  simp only
  split_ifs <;> first | rfl | (split <;> rfl)

theorem foldl_parse_line_changelog (env : Env) (lines : List (List Char)) :
    ∀ vi : version_information,
      (lines.foldl (fun v l => parse_line env (strtok l delims) v) vi).changelog_
        = vi.changelog_ := by
  induction lines with
  | nil => intro vi; rfl
  | cons l ls ih =>
    intro vi
    rw [List.foldl_cons, ih, parse_line_changelog]

/-- C21. The first line with no tokens ends structured parsing. For a manifest made of
lines that have tokens, then a line without tokens, then a line feed and any text: what
`ParseData` produces (channels, available build, resources, eol flag) is what it produces
for the manifest truncated just before the line without tokens, whose changelog is empty,
and the changelog is the text after that line with surrounding whitespace trimmed; so two
manifests that differ only after the blank line differ in the changelog only. A blank
last line without line feed gives the truncated manifest's result. -/
theorem C21_blank_line_ends_parsing (env : Env) (lines : List (List Char))
    (blank rest : List Char)
    (hlines : ∀ l ∈ lines, LF ∉ l ∧ strtok l delims ≠ [])
    (hlf : LF ∉ blank) (hblank : strtok blank delims = []) :
    ParseData env (join_lines lines ++ blank ++ LF :: rest)
      = { ParseData env (join_lines lines) with changelog_ := trim rest } ∧
    (ParseData env (join_lines lines)).changelog_ = [] ∧
    (∀ other : List Char,
      { ParseData env (join_lines lines ++ blank ++ LF :: other) with changelog_ := [] }
        = { ParseData env (join_lines lines ++ blank ++ LF :: rest) with changelog_ := [] }) ∧
    ParseData env (join_lines lines ++ blank) = ParseData env (join_lines lines) := by
  have htrunc : ∀ n, (join_lines lines).length ≤ n →
      parse_loop env n (join_lines lines) {}
        = lines.foldl (fun v l => parse_line env (strtok l delims) v) {} := by
    intro n hn
    have := parse_loop_lines env lines [] {} n 0 hlines (by simpa using hn) (by simp)
    simpa [parse_loop_nil] using this
  have hfull : ∀ tail : List Char, ((tail = [] ∧ blank ≠ []) ∨ ∃ r, tail = LF :: r) →
      ParseData env (join_lines lines ++ blank ++ tail)
        = { ParseData env (join_lines lines) with changelog_ := trim (tail.drop 1) } := by
    intro tail htail
    unfold ParseData
    rw [htrunc _ (Nat.le_refl _), List.append_assoc,
      parse_loop_lines env lines (blank ++ tail) {} _ (blank ++ tail).length hlines
        (Nat.le_refl _) (Nat.le_refl _),
      parse_loop_blank env _ blank tail _ hlf hblank (Nat.le_refl _) htail,
      update_available_changelog]
  have hlog : (ParseData env (join_lines lines)).changelog_ = [] := by
    unfold ParseData
    rw [htrunc _ (Nat.le_refl _)]
    have h1 : (lines.foldl (fun v l => parse_line env (strtok l delims) v) {}).changelog_
        = [] := foldl_parse_line_changelog env lines {}
    generalize lines.foldl (fun v l => parse_line env (strtok l delims) v) {} = parsed at h1
    unfold update_available
    split_ifs <;> exact h1
  have hrest := hfull (LF :: rest) (Or.inr ⟨rest, rfl⟩)
  simp only [List.drop_one, List.tail_cons] at hrest
  refine ⟨hrest, hlog, ?_, ?_⟩
  · intro other
    have hother := hfull (LF :: other) (Or.inr ⟨other, rfl⟩)
    simp only [List.drop_one, List.tail_cons] at hother
    rw [hrest, hother]
  · by_cases hb : blank = []
    · subst hb
      simp
    · have := hfull [] (Or.inl ⟨rfl, hb⟩)
      simp only [List.append_nil, List.drop_nil] at this
      rw [this]
      have ht : trim [] = [] := by decide
      rw [ht, ← hlog]

set_option maxRecDepth 100000 in
/-- Scenario A followed by a line of blanks and by text that has the shape of a newer
release line: the release line after the blank line is changelog text, not a build. -/
theorem C21_blank_line_ends_parsing_witness :
    ((∀ l ∈ [scenario_A_line], LF ∉ l ∧ strtok l delims ≠ []) ∧
      LF ∉ w "  " ∧ strtok (w "  ") delims = []) ∧
    ParseData sample_env
        (join_lines [scenario_A_line] ++ w "  " ++ LF :: (w " release 10.0.0" ++ [LF]))
      = { ParseData sample_env (join_lines [scenario_A_line]) with
            changelog_ := trim (w " release 10.0.0" ++ [LF]) } ∧
    trim (w " release 10.0.0" ++ [LF]) = w "release 10.0.0" :=
  ⟨by decide,
   (C21_blank_line_ends_parsing sample_env [scenario_A_line] (w "  ")
      (w " release 10.0.0" ++ [LF]) (by decide) (by decide) (by decide)).1,
   by decide⟩

/-! ## C22: running the command queue -/

/-- The recursion of `ContinueDownload` in terms of the replies of the engine. -/
theorem ContinueDownload_queue_spec (eng : Engine) (q : List CCommand) :
    ∀ calls : Nat, ∃ k : Nat, k ≤ q.length ∧
      (∀ i c, i < k → q[i]? = some c → eng.Execute (calls + i) c = FZ_REPLY_OK) ∧
      (ContinueDownload_queue eng calls q).2.1 = q.drop k ∧
      (k = q.length → (ContinueDownload_queue eng calls q).1 = FZ_REPLY_OK ∧
        (ContinueDownload_queue eng calls q).2.2 = calls + k) ∧
      (∀ c, q[k]? = some c → eng.Execute (calls + k) c ≠ FZ_REPLY_OK ∧
        (ContinueDownload_queue eng calls q).1 = eng.Execute (calls + k) c ∧
        (ContinueDownload_queue eng calls q).2.2 = calls + k + 1) := by
  induction q with
  | nil =>
    intro calls
    exact ⟨0, by simp, by simp, by simp [ContinueDownload_queue],
      by simp [ContinueDownload_queue], by simp⟩
  | cons c cs ih =>
    intro calls
    by_cases hc : eng.Execute calls c = FZ_REPLY_OK
    · obtain ⟨k, hk, hok, hq, hend, hstop⟩ := ih (calls + 1)
      have hunf : ContinueDownload_queue eng calls (c :: cs)
          = ContinueDownload_queue eng (calls + 1) cs := by
        simp [ContinueDownload_queue, hc]
      refine ⟨k + 1, by simp [hk], ?_, ?_, ?_, ?_⟩
      · intro i c1 hi hget
        cases i with
        | zero =>
          simp only [List.getElem?_cons_zero, Option.some.injEq] at hget
          subst hget
          simpa using hc
        | succ j =>
          simp only [List.getElem?_cons_succ] at hget
          have := hok j c1 (by omega) hget
          rw [← this]
          congr 1
          omega
      · rw [hunf, hq]; rfl
      · intro hlen
        have hlen2 : k = cs.length := by simpa using hlen
        rw [hunf]
        refine ⟨(hend hlen2).1, ?_⟩
        rw [(hend hlen2).2]
        omega
      · intro c1 hget
        simp only [List.getElem?_cons_succ] at hget
        have := hstop c1 hget
        rw [hunf]
        have e : calls + (k + 1) = calls + 1 + k := by omega
        rw [e]
        exact this
    · refine ⟨0, by simp, by simp, by simp [ContinueDownload_queue, hc], by simp, ?_⟩
      intro c1 hget
      simp only [List.getElem?_cons_zero, Option.some.injEq] at hget
      subst hget
      simp [ContinueDownload_queue, hc]

/-- C22. `ContinueDownload` returns for every command queue and every engine. There is a
number k of leading commands such that the i-th call of the engine made from now on
received the i-th command of the queue and returned success for every i below k; the
queue afterwards is the old one without its first k commands and nothing else in the
object changes but the count of engine calls. If k is the length of the queue, no further
call is made and the result is success; otherwise the command at position k was executed
next, returned something else than success, that result is returned and the command is
still at the front. The result is success if and only if the queue is empty on return. -/
theorem C22_continue_download (eng : Engine) (u : CUpdater) :
    (∃ k : Nat, k ≤ u.pending_commands_.length ∧
      (∀ i c, i < k → u.pending_commands_[i]? = some c →
        eng.Execute (u.engine_calls + i) c = FZ_REPLY_OK) ∧
      (ContinueDownload eng u).2.pending_commands_ = u.pending_commands_.drop k ∧
      (k = u.pending_commands_.length →
        (ContinueDownload eng u).1 = FZ_REPLY_OK ∧
        (ContinueDownload eng u).2.engine_calls = u.engine_calls + k) ∧
      (∀ c, u.pending_commands_[k]? = some c →
        eng.Execute (u.engine_calls + k) c ≠ FZ_REPLY_OK ∧
        (ContinueDownload eng u).1 = eng.Execute (u.engine_calls + k) c ∧
        (ContinueDownload eng u).2.engine_calls = u.engine_calls + k + 1 ∧
        (ContinueDownload eng u).2.pending_commands_.head? = some c)) ∧
    (ContinueDownload eng u).2
      = { u with pending_commands_ := (ContinueDownload eng u).2.pending_commands_,
                 engine_calls := (ContinueDownload eng u).2.engine_calls } ∧
    ((ContinueDownload eng u).1 = FZ_REPLY_OK
      ↔ (ContinueDownload eng u).2.pending_commands_ = []) := by
  obtain ⟨k, hk, hok, hq, hend, hstop⟩ :=
    ContinueDownload_queue_spec eng u.pending_commands_ u.engine_calls
  have hq2 : (ContinueDownload eng u).2.pending_commands_ = u.pending_commands_.drop k := hq
  refine ⟨⟨k, hk, hok, hq2, hend, ?_⟩, rfl, ?_⟩
  · intro c hget
    obtain ⟨h1, h2, h3⟩ := hstop c hget
    refine ⟨h1, h2, h3, ?_⟩
    rw [hq2, List.head?_drop]
    exact hget
  · by_cases hlen : k = u.pending_commands_.length
    · constructor
      · intro _
        rw [hq2, hlen]
        simp
      · intro _
        exact (hend hlen).1
    · have hlt : k < u.pending_commands_.length := by omega
      have hget : u.pending_commands_[k]? = some (u.pending_commands_[k]) :=
        List.getElem?_eq_getElem hlt
      obtain ⟨h1, h2, _⟩ := hstop _ hget
      constructor
      · intro h
        exact absurd (h2.symm.trans h) h1
      · intro h
        rw [hq2] at h
        have := List.drop_eq_nil_iff.mp h
        omega

set_option maxRecDepth 100000 in
/-- The engine completes the disconnect and the connect at once and accepts the transfer:
the transfer stays at the front, three calls were made, the result is not success. -/
theorem C22_continue_download_witness :
    (ContinueDownload two_then_block_engine queued_updater).1 = FZ_REPLY_WOULDBLOCK ∧
    (ContinueDownload two_then_block_engine queued_updater).2.pending_commands_
      = [CCommand.transfer (w "/tmp/t") [] (w "f")] ∧
    (ContinueDownload two_then_block_engine queued_updater).2.engine_calls = 3 ∧
    ((ContinueDownload two_then_block_engine queued_updater).1 = FZ_REPLY_OK
      ↔ (ContinueDownload two_then_block_engine queued_updater).2.pending_commands_ = []) :=
  ⟨by decide, by decide, by decide,
   (C22_continue_download two_then_block_engine queued_updater).2.2⟩

/-! ## C23: the size field -/

/-- A property of the stable and beta builds and one of the nightly build that every
stored build has are kept by one pass of the loop body. -/
theorem parse_line_channels (env : Env) (P Q : build → Prop) (tokens : List (List Char))
    (vi : version_information)
    (hb : ∀ b, parse_build env tokens (tokens.getD 1 []) = some b →
      P b ∧ (UpdatableBuild env = true → Q b))
    (h : P vi.stable_ ∧ P vi.beta_ ∧ Q vi.nightly_) :
    P (parse_line env tokens vi).stable_ ∧ P (parse_line env tokens vi).beta_
      ∧ Q (parse_line env tokens vi).nightly_ := by
  unfold parse_line
  simp only
  split_ifs
  · exact h
  · exact h
  · exact h
  · exact h
  · exact h
  · exact h
  · exact h
  · cases hp : parse_build env tokens (tokens.getD 1 []) with
    | none => exact h
    | some b =>
      have hPQ := hb b hp
      simp only
      unfold store_build
      split_ifs with c1 c2 c3
      · exact ⟨h.1, h.2.1, hPQ.2 c1.2⟩
      · exact ⟨hPQ.1, h.2.1, h.2.2⟩
      · exact ⟨h.1, hPQ.1, h.2.2⟩
      · exact h
  · exact h

theorem parse_loop_channels (env : Env) (P Q : build → Prop)
    (hb : ∀ (line : List Char) (b : build),
      parse_build env (strtok line delims) ((strtok line delims).getD 1 []) = some b →
      P b ∧ (UpdatableBuild env = true → Q b)) (n : Nat) :
    ∀ (raw : List Char) (vi : version_information),
      P vi.stable_ ∧ P vi.beta_ ∧ Q vi.nightly_ →
      P (parse_loop env n raw vi).stable_ ∧ P (parse_loop env n raw vi).beta_
        ∧ Q (parse_loop env n raw vi).nightly_ := by
  induction n with
  | zero => intro raw vi h; exact h
  | succ k ih =>
    intro raw vi h
    unfold parse_loop
    simp only
    split_ifs
    · exact h
    · exact h
    · apply ih
      exact parse_line_channels env P Q _ vi (hb _) h

/-- After `ParseData` the three channels have every property that the empty build and
every stored build have, and the available build is one of the channels or empty. -/
theorem ParseData_channels (env : Env) (P Q : build → Prop)
    (hb : ∀ (line : List Char) (b : build),
      parse_build env (strtok line delims) ((strtok line delims).getD 1 []) = some b →
      P b ∧ (UpdatableBuild env = true → Q b))
    (hP : P empty_build) (hQ : Q empty_build) (raw : List Char) :
    (P (ParseData env raw).stable_ ∧ P (ParseData env raw).beta_
      ∧ Q (ParseData env raw).nightly_) ∧
    ((ParseData env raw).available_ = (ParseData env raw).nightly_
      ∨ (ParseData env raw).available_ = (ParseData env raw).beta_
      ∨ (ParseData env raw).available_ = (ParseData env raw).stable_
      ∨ (ParseData env raw).available_ = empty_build) := by
  have hinv := parse_loop_channels env P Q hb raw.length raw {} ⟨hP, hP, hQ⟩
  unfold ParseData update_available
  split_ifs
  · exact ⟨hinv, Or.inl rfl⟩
  · exact ⟨hinv, Or.inr (Or.inl rfl)⟩
  · exact ⟨hinv, Or.inr (Or.inr (Or.inl rfl))⟩
  · exact ⟨hinv, Or.inr (Or.inr (Or.inr rfl))⟩

theorem toInt64_ne_zero (n : Nat) (h0 : n ≠ 0) (hn : n < 2 ^ 64) : toInt64 n ≠ 0 := by
  unfold toInt64
  rw [Nat.mod_eq_of_lt hn]
  split_ifs
  · exact_mod_cast h0
  · have : (n : Int) < 2 ^ 64 := by exact_mod_cast hn
    omega

/-- What holds of the size in general: a stored build with a URL has a size that is not
zero, and a positive one when the size token denotes a value below `2^63`. -/
theorem parse_build_size (env : Env) (tokens : List (List Char)) (v : List Char) (b : build)
    (h : parse_build env tokens v = some b) (hurl : b.url_ ≠ []) :
    b.size_ ≠ 0 ∧ b.size_ = toInt64 (parsed_size env (tokens.getD 3 [])) ∧
    (parsed_size env (tokens.getD 3 []) < 2 ^ 63 → 0 < b.size_) := by
  have hlt : parsed_size env (tokens.getD 3 []) < 2 ^ 64 := Nat.mod_lt _ (by norm_num)
  unfold parse_build at h
  simp only at h
  split_ifs at h with c1 c2 c3 c4 c5 c6 c7
  · cases h; exact absurd rfl hurl
  · cases h
    have hne := toInt64_ne_zero _ c5 hlt
    refine ⟨hne, rfl, ?_⟩
    intro hsmall
    have : toInt64 (parsed_size env (tokens.getD 3 []))
        = ((parsed_size env (tokens.getD 3 []) : Nat) : Int) := by
      unfold toInt64
      rw [Nat.mod_eq_of_lt hlt, if_pos hsmall]
    simp only at hne ⊢
    rw [this] at hne ⊢
    have h0 : (0 : Int) ≤ ((parsed_size env (tokens.getD 3 []) : Nat) : Int) :=
      Int.ofNat_nonneg _
    omega
  · cases h; exact absurd rfl hurl

theorem ParseData_size_nonzero (env : Env) (raw : List Char) :
    ((ParseData env raw).stable_.url_ ≠ [] → (ParseData env raw).stable_.size_ ≠ 0) ∧
    ((ParseData env raw).beta_.url_ ≠ [] → (ParseData env raw).beta_.size_ ≠ 0) ∧
    ((ParseData env raw).nightly_.url_ ≠ [] → (ParseData env raw).nightly_.size_ ≠ 0) :=
  (ParseData_channels env (fun b => b.url_ ≠ [] → b.size_ ≠ 0)
    (fun b => b.url_ ≠ [] → b.size_ ≠ 0)
    (fun _ b h => ⟨fun hu => (parse_build_size env _ _ b h hu).1,
      fun _ hu => (parse_build_size env _ _ b h hu).1⟩)
    (fun h => absurd rfl h) (fun h => absurd rfl h) raw).1

set_option maxRecDepth 100000 in
/-- C23, the code at the failing input. The signed release line of scenario A with the
size token `9223372036854775808` is stored in the stable channel with its URL and the
size `-2^63`; with the size token `18446744073709551615` the stored size is -1, the value
an unset size has. In both cases the token parses to a non-zero unsigned value, which is
all the code tests before the value goes into the signed field. -/
theorem C23_negative_size_stored :
    parsed_size sample_env (w "9223372036854775808") ≠ 0 ∧
    (ParseData sample_env (scenario_big_line ++ [LF])).stable_.url_ = w "http://x/f.tar.bz2" ∧
    (ParseData sample_env (scenario_big_line ++ [LF])).stable_.size_ = -9223372036854775808 ∧
    (ParseData sample_env (scenario_big_line ++ [LF])).available_.size_ < 0 ∧
    parsed_size sample_env (w "18446744073709551615") ≠ 0 ∧
    (ParseData sample_env (w "release 9.9.9 http://x/f.tar.bz2 18446744073709551615 sha512 "
      ++ sample_hash ++ w " sig:P")).stable_.url_ = w "http://x/f.tar.bz2" ∧
    (ParseData sample_env (w "release 9.9.9 http://x/f.tar.bz2 18446744073709551615 sha512 "
      ++ sample_hash ++ w " sig:P")).stable_.size_ = -1 := by
  decide

/-! ## C24: the file name of a URL -/

theorem afterLast_some (c : Char) :
    ∀ (s r : List Char), afterLast c s = some r → c ∉ r ∧ ∃ pre, s = pre ++ c :: r := by
  intro s
  induction s with
  | nil => intro r h; simp [afterLast] at h
  | cons x xs ih =>
    intro r h
    unfold afterLast at h
    cases hxs : afterLast c xs with
    | some r1 =>
      rw [hxs] at h
      simp only [Option.some.injEq] at h
      subst h
      obtain ⟨h1, pre, h2⟩ := ih r1 hxs
      exact ⟨h1, x :: pre, by rw [h2]; rfl⟩
    | none =>
      rw [hxs] at h
      simp only at h
      by_cases hx : x = c
      · rw [if_pos hx] at h
        simp only [Option.some.injEq] at h
        subst h
        subst hx
        refine ⟨?_, [], rfl⟩
        intro hmem
        have := afterLast_of_not_mem x xs
        by_cases hin : x ∈ xs
        · obtain ⟨a, b, hab⟩ := List.append_of_mem hin
          have hb : ∃ a2 b2, xs = a2 ++ x :: b2 ∧ x ∉ b2 := by
            clear hab hxs hmem this ih
            induction xs with
            | nil => simp at hin
            | cons y ys ihy =>
              by_cases hys : x ∈ ys
              · obtain ⟨a2, b2, e, hn⟩ := ihy hys
                exact ⟨y :: a2, b2, by rw [e]; rfl, hn⟩
              · have hy : y = x := by
                  rcases List.mem_cons.mp hin with e | e
                  · exact e.symm
                  · exact absurd e hys
                exact ⟨[], ys, by rw [hy]; rfl, hys⟩
          obtain ⟨a2, b2, e, hn⟩ := hb
          rw [e, afterLast_append x a2 b2 hn] at hxs
          cases hxs
        · exact hin hmem
      · rw [if_neg hx] at h
        cases h

theorem afterLast_append_right (c : Char) (pre post : List Char) (h : c ∉ post) :
    afterLast c (pre ++ post) = (afterLast c pre).map (fun r => r ++ post) := by
  cases hp : afterLast c pre with
  | none =>
    have hpre : c ∉ pre := by
      intro hmem
      have hb : ∃ a2 b2, pre = a2 ++ c :: b2 ∧ c ∉ b2 := by
        clear hp
        induction pre with
        | nil => simp at hmem
        | cons y ys ihy =>
          by_cases hys : c ∈ ys
          · obtain ⟨a2, b2, e, hn⟩ := ihy hys
            exact ⟨y :: a2, b2, by rw [e]; rfl, hn⟩
          · have hy : y = c := by
              rcases List.mem_cons.mp hmem with e | e
              · exact e.symm
              · exact absurd e hys
            exact ⟨[], ys, by rw [hy]; rfl, hys⟩
      obtain ⟨a2, b2, e, hn⟩ := hb
      rw [e, afterLast_append c a2 b2 hn] at hp
      cases hp
    rw [afterLast_of_not_mem c (pre ++ post) (by simp [hpre, h])]
    rfl
  | some r =>
    obtain ⟨hr, p, e⟩ := afterLast_some c pre r hp
    have e2 : pre ++ post = p ++ c :: (r ++ post) := by rw [e]; simp
    rw [e2, afterLast_append c p (r ++ post) (by simp [hr, h])]
    rfl

theorem takeWhile_dropWhile_nil (p : Char → Bool) (l : List Char) :
    (l.dropWhile p).takeWhile p = [] := by
  induction l with
  | nil => rfl
  | cons x xs ih =>
    cases hx : p x with
    | true => simp [List.dropWhile, hx, ih]
    | false => simp [List.dropWhile, List.takeWhile, hx]

theorem takeWhile_append_dropWhile_of_all (p : Char → Bool) (l : List Char) :
    ∀ r : List Char, (∀ x ∈ r, p x = true) → (r ++ l.dropWhile p).takeWhile p = r := by
  intro r
  induction r with
  | nil => intro _; simpa using takeWhile_dropWhile_nil p l
  | cons y ys ih =>
    intro h
    have hy : p y = true := h y (by simp)
    have hys : ∀ x ∈ ys, p x = true := fun x hx => h x (by simp [hx])
    simp [List.takeWhile, hy, ih hys]

/-- C24 (amended). `GetFilename(url)` takes the text after the last `/` of the whole URL
and cuts it at its first `?` or `#` (on platforms other than Windows, where no character
is replaced). It is the last segment of the URL's path, that is the text after the last
`/` of the URL cut at its first `?` or `#`, whenever no `/` occurs from that first `?` or
`#` on. On every platform the result contains none of `/`, `?` and `#`, and it is empty
for a URL that contains no `/`. -/
theorem C24_filename (env : Env) (url : List Char) :
    (env.platform ≠ Platform.msw →
      GetFilename env url
        = (((afterLast (Char.ofNat 47) url).getD []).takeWhile
            (fun c => !(decide (c = Char.ofNat 63) || decide (c = Char.ofNat 35))))) ∧
    (env.platform ≠ Platform.msw →
      Char.ofNat 47 ∉ url.dropWhile
        (fun c => !(decide (c = Char.ofNat 63) || decide (c = Char.ofNat 35))) →
      GetFilename env url = claimed_GetFilename url) ∧
    (Char.ofNat 47 ∉ GetFilename env url ∧ Char.ofNat 63 ∉ GetFilename env url
      ∧ Char.ofNat 35 ∉ GetFilename env url) ∧
    (Char.ofNat 47 ∉ url → GetFilename env url = []) := by
  have hcode : ∀ h : env.platform ≠ Platform.msw, GetFilename env url
      = (((afterLast (Char.ofNat 47) url).getD []).takeWhile
          (fun c => !(decide (c = Char.ofNat 63) || decide (c = Char.ofNat 35)))) := by
    intro h
    unfold GetFilename
    simp only [if_neg h]
  have hcut : ∀ x : Char,
      x ∈ (((afterLast (Char.ofNat 47) url).getD []).takeWhile
          (fun c => !(decide (c = Char.ofNat 63) || decide (c = Char.ofNat 35)))) →
      x ≠ Char.ofNat 47 ∧ x ≠ Char.ofNat 63 ∧ x ≠ Char.ofNat 35 := by
    intro x hx
    have hp := List.mem_takeWhile_imp hx
    have hmem := (List.takeWhile_sublist _).subset hx
    have h47 : x ≠ Char.ofNat 47 := by
      intro e
      subst e
      cases ha : afterLast (Char.ofNat 47) url with
      | none => rw [ha] at hmem; simp at hmem
      | some r =>
        rw [ha] at hmem
        exact (afterLast_some _ url r ha).1 (by simpa using hmem)
    simp only [Bool.not_eq_true', Bool.or_eq_false_iff, decide_eq_false_iff_not] at hp
    exact ⟨h47, hp.1, hp.2⟩
  have hnone : ∀ x : Char, x ∈ GetFilename env url →
      x ≠ Char.ofNat 47 ∧ x ≠ Char.ofNat 63 ∧ x ≠ Char.ofNat 35 := by
    intro x hx
    by_cases hplat : env.platform = Platform.msw
    · unfold GetFilename at hx
      simp only [if_pos hplat] at hx
      obtain ⟨y, hy, hxy⟩ := List.mem_map.mp hx
      have := hcut y hy
      by_cases h58 : y = Char.ofNat 58
      · rw [if_pos h58] at hxy
        subst hxy
        exact ⟨by decide, by decide, by decide⟩
      · rw [if_neg h58] at hxy
        subst hxy
        exact this
    · rw [hcode hplat] at hx
      exact hcut x hx
  refine ⟨hcode, ?_, ⟨fun h => (hnone _ h).1 rfl, fun h => (hnone _ h).2.1 rfl,
    fun h => (hnone _ h).2.2 rfl⟩, ?_⟩
  · intro hplat hslash
    rw [hcode hplat]
    unfold claimed_GetFilename
    have hsplit := List.takeWhile_append_dropWhile
      (fun c => !(decide (c = Char.ofNat 63) || decide (c = Char.ofNat 35))) url
    have hal := afterLast_append_right (Char.ofNat 47)
      (url.takeWhile (fun c => !(decide (c = Char.ofNat 63) || decide (c = Char.ofNat 35))))
      _ hslash
    rw [hsplit] at hal
    rw [hal]
    cases hp : afterLast (Char.ofNat 47)
        (url.takeWhile (fun c => !(decide (c = Char.ofNat 63) || decide (c = Char.ofNat 35))))
      with
    | none => rfl
    | some r =>
      simp only [Option.map_some', Option.getD_some]
      apply takeWhile_append_dropWhile_of_all
      intro x hx
      obtain ⟨_, pre, e⟩ := afterLast_some _ _ r hp
      have hmem : x ∈ url.takeWhile
          (fun c => !(decide (c = Char.ofNat 63) || decide (c = Char.ofNat 35))) := by
        rw [e]
        simp [hx]
      have hp := List.mem_takeWhile_imp hmem
      exact hp
  · intro hslash
    unfold GetFilename
    rw [afterLast_of_not_mem _ url hslash]
    simp

set_option maxRecDepth 100000 in
/-- The URL of scenario A with a query: the file name is `f.tar.bz2` on both readings. -/
theorem C24_filename_witness :
    (sample_env.platform ≠ Platform.msw ∧
      Char.ofNat 47 ∉ (w "http://x/f.tar.bz2?v=1#top").dropWhile
        (fun c => !(decide (c = Char.ofNat 63) || decide (c = Char.ofNat 35)))) ∧
    GetFilename sample_env (w "http://x/f.tar.bz2?v=1#top")
      = claimed_GetFilename (w "http://x/f.tar.bz2?v=1#top") ∧
    claimed_GetFilename (w "http://x/f.tar.bz2?v=1#top") = w "f.tar.bz2" :=
  ⟨by decide,
   (C24_filename sample_env (w "http://x/f.tar.bz2?v=1#top")).2.1 (by decide) (by decide),
   by decide⟩

set_option maxRecDepth 100000 in
/-- C24 as stated fails: for a URL with a `/` in its query the URL cut at its first `?`
ends in the segment `f.tar.bz2`, but the code looks for the last `/` of the whole URL and
returns `b`. -/
theorem C24_counterexample :
    sample_env.platform ≠ Platform.msw ∧
    claimed_GetFilename (w "http://x/f.tar.bz2?a=/b") = w "f.tar.bz2" ∧
    GetFilename sample_env (w "http://x/f.tar.bz2?a=/b") = w "b" := by
  decide

/-! ## C25: what is known in the states `newversion_downloading` and `newversion_ready` -/

theorem ContinueDownload_same (eng : Engine) (u : CUpdater) :
    (ContinueDownload eng u).2.state_ = u.state_ ∧
    (ContinueDownload eng u).2.version_information_ = u.version_information_ ∧
    (ContinueDownload eng u).2.local_file_ = u.local_file_ :=
  ⟨rfl, rfl, rfl⟩

theorem FilterOutput_state (u : CUpdater) : (FilterOutput u).2.state_ = u.state_ := by
  unfold FilterOutput
  split_ifs
  · rfl
  · cases FilterOutput_loop u.output_buffer_ <;> rfl

theorem parse_build_not_updatable_version (env : Env) (hnot : UpdatableBuild env = false)
    (tokens : List (List Char)) (v : List Char) :
    parse_build env tokens v = some { version_ := v } := by
  unfold parse_build
  simp only [hnot, Bool.false_eq_true, if_false]
  split_ifs <;> rfl

/-- C26. On a running build whose kind is neither nightly nor official, for every
manifest `ParseData` stores no build with a URL or hash in any channel: the nightly
channel stays empty and the stable, beta and available builds have no URL, no hash and
the size -1. So `ProcessFinishedData` returns `eol`, `idle` or `newversion`, never
`newversion_downloading` or `newversion_ready`, and does nothing to the object beyond
what `ParseData` does: no command is queued or executed and no file is touched. A
manifest made of one release line (with or without its line feed) with at least two
tokens whose version number exceeds the running one is reported as `newversion`,
whatever else the line carries, a signature or none. -/
theorem C26_not_updatable (env : Env) (hnot : UpdatableBuild env = false) :
    (∀ raw : List Char,
      (ParseData env raw).nightly_ = empty_build ∧
      ((ParseData env raw).stable_.url_ = [] ∧ (ParseData env raw).stable_.hash_ = []
        ∧ (ParseData env raw).stable_.size_ = -1) ∧
      ((ParseData env raw).beta_.url_ = [] ∧ (ParseData env raw).beta_.hash_ = []
        ∧ (ParseData env raw).beta_.size_ = -1) ∧
      ((ParseData env raw).available_.url_ = [] ∧ (ParseData env raw).available_.hash_ = []
        ∧ (ParseData env raw).available_.size_ = -1)) ∧
    (∀ (fs : FileSys) (eng : Engine) (u : CUpdater) (can_download : Bool),
      (ProcessFinishedData env fs eng u can_download).1
        = (if (ParseData env u.raw_version_information_).eol_ = true then UpdaterState.eol
            else if (ParseData env u.raw_version_information_).available_.version_ = []
              then UpdaterState.idle
            else UpdaterState.newversion) ∧
      (ProcessFinishedData env fs eng u can_download).1 ≠ UpdaterState.newversion_downloading ∧
      (ProcessFinishedData env fs eng u can_download).1 ≠ UpdaterState.newversion_ready ∧
      (ProcessFinishedData env fs eng u can_download).2 = ParseData_call env u ∧
      (ProcessFinishedData env fs eng u can_download).2.pending_commands_
        = u.pending_commands_ ∧
      (ProcessFinishedData env fs eng u can_download).2.engine_calls = u.engine_calls ∧
      (ProcessFinishedData env fs eng u can_download).2.fs_ops = u.fs_ops) ∧
    (∀ (line : List Char) (fs : FileSys) (eng : Engine) (u : CUpdater) (can_download : Bool),
      LF ∉ line → (strtok line delims).getD 0 [] = w "release" →
      2 ≤ (strtok line delims).length →
      env.ConvertToVersionNumber env.GetFileZillaVersion
        < env.ConvertToVersionNumber ((strtok line delims).getD 1 []) →
      (u.raw_version_information_ = line ∨ u.raw_version_information_ = line ++ [LF]) →
      (ProcessFinishedData env fs eng u can_download).1 = UpdaterState.newversion ∧
      (ParseData env u.raw_version_information_).available_
        = { version_ := (strtok line delims).getD 1 [] }) := by
  have hparse : ∀ raw : List Char,
      (ParseData env raw).nightly_ = empty_build ∧
      ((ParseData env raw).stable_.url_ = [] ∧ (ParseData env raw).stable_.hash_ = []
        ∧ (ParseData env raw).stable_.size_ = -1) ∧
      ((ParseData env raw).beta_.url_ = [] ∧ (ParseData env raw).beta_.hash_ = []
        ∧ (ParseData env raw).beta_.size_ = -1) ∧
      ((ParseData env raw).available_.url_ = [] ∧ (ParseData env raw).available_.hash_ = []
        ∧ (ParseData env raw).available_.size_ = -1) := by
    intro raw
    have hch := ParseData_channels env
      (fun b => b.url_ = [] ∧ b.hash_ = [] ∧ b.size_ = -1) (fun b => b = empty_build)
      (fun line b h => by
        rw [parse_build_not_updatable_version env hnot] at h
        cases h
        exact ⟨⟨rfl, rfl, rfl⟩, fun hu => by rw [hnot] at hu; cases hu⟩)
      ⟨rfl, rfl, rfl⟩ rfl raw
    obtain ⟨⟨hs, hbeta, hn⟩, hav⟩ := hch
    refine ⟨hn, hs, hbeta, ?_⟩
    rcases hav with e | e | e | e
    · rw [e, hn]; exact ⟨rfl, rfl, rfl⟩
    · rw [e]; exact hbeta
    · rw [e]; exact hs
    · rw [e]; exact ⟨rfl, rfl, rfl⟩
  have hpfd : ∀ (fs : FileSys) (eng : Engine) (u : CUpdater) (can_download : Bool),
      ProcessFinishedData env fs eng u can_download
        = ((if (ParseData env u.raw_version_information_).eol_ = true then UpdaterState.eol
            else if (ParseData env u.raw_version_information_).available_.version_ = []
              then UpdaterState.idle
            else UpdaterState.newversion), ParseData_call env u) := by
    intro fs eng u can_download
    have hurl : ¬ (ParseData_call env u).version_information_.available_.url_ ≠ [] := by
      have := (hparse u.raw_version_information_).2.2.2.1
      simpa [ParseData_call] using this
    unfold ProcessFinishedData
    simp only
    rw [if_neg hurl]
    simp only [ParseData_call]
    split_ifs <;> rfl
  refine ⟨hparse, ?_, ?_⟩
  · intro fs eng u can_download
    have e := hpfd fs eng u can_download
    refine ⟨by rw [e], ?_, ?_, by rw [e], by rw [e]; rfl, by rw [e]; rfl, by rw [e]; rfl⟩
    · rw [e]
      simp only
      split_ifs <;> decide
    · rw [e]
      simp only
      split_ifs <;> decide
  · intro line fs eng u can_download hlf htype hlen hnewer hraw
    have htok : strtok line delims ≠ [] := by
      intro e
      rw [e] at hlen
      simp at hlen
    have hline_ne : line ≠ [] := by
      intro e
      subst e
      exact htok (by decide)
    have hv : (strtok line delims).getD 1 [] ≠ [] :=
      strtok_ne_nil line delims _ (getD_one_mem _ (by omega))
    have hgate : passes_gate env (w "release") ((strtok line delims).getD 1 []) = true := by
      have g1 : w "release" ≠ w "nightly" := by decide
      unfold passes_gate
      rw [if_neg g1, if_pos (Or.inl rfl)]
      simp only [Bool.not_eq_true', decide_eq_false_iff_not, not_le]
      exact hnewer
    have hpl : ∀ vi : version_information, parse_line env (strtok line delims) vi
        = { vi with stable_ := { version_ := (strtok line delims).getD 1 [] } } := by
      intro vi
      have h1 : w "release" ≠ w "resources" := by decide
      have h2 : w "release" ≠ w "resource" := by decide
      have h3 : ¬ (w "release" = w "eol" ∧ env.platform ≠ Platform.other) := by
        intro h
        exact absurd h.1 (by decide)
      have h4 : ¬ (w "release" = w "nightly" ∧ UpdatableBuild env = true) := by
        intro h
        exact absurd h.1 (by decide)
      unfold parse_line
      simp only [htype]
      rw [if_neg (by omega), if_neg h1, if_neg h2, if_neg h3, hgate, if_pos rfl,
        parse_build_not_updatable_version env hnot]
      simp only
      unfold store_build
      rw [if_neg h4, if_pos rfl]
    have hloop : parse_loop env u.raw_version_information_.length u.raw_version_information_ {}
        = { stable_ := { version_ := (strtok line delims).getD 1 [] } } := by
      rcases hraw with e | e
      · rw [e, parse_loop_last env _ line {} (Nat.le_refl _) hlf hline_ne htok, hpl]
      · rw [e]
        have hlen1 : (line ++ [LF]).length = line.length + 1 := by simp
        rw [hlen1, parse_loop_line env _ line [] {} hlf htok, parse_loop_nil, hpl]
    have hav : (ParseData env u.raw_version_information_).available_
        = { version_ := (strtok line delims).getD 1 [] } ∧
        (ParseData env u.raw_version_information_).eol_ = false := by
      unfold ParseData
      rw [hloop]
      unfold update_available
      have c1 : ¬ (([] : List Char) ≠ [] ∧ env.checkbeta = 2) := fun h => h.1 rfl
      have c2 : ¬ (([] : List Char) ≠ [] ∧ env.checkbeta ≠ 0) := fun h => h.1 rfl
      rw [if_neg c1, if_neg c2, if_pos hv]
      exact ⟨rfl, rfl⟩
    refine ⟨?_, hav.1⟩
    rw [hpfd]
    simp only [hav.1, hav.2, Bool.false_eq_true, if_false, if_neg hv]

set_option maxRecDepth 100000 in
/-- On the self-compiled sample build the unsigned line of scenario B, which an official
build ignores, is reported as `newversion` and nothing is queued. -/
theorem C26_not_updatable_witness :
    UpdatableBuild sample_env_custom = false ∧
    (ProcessFinishedData sample_env_custom empty_fs blocking_engine
      { raw_version_information_ := scenario_B_line } true).1 = UpdaterState.newversion ∧
    (ParseData sample_env_custom scenario_B_line).available_ = { version_ := w "9.9.9" } ∧
    (ProcessFinishedData sample_env_custom empty_fs blocking_engine
      { raw_version_information_ := scenario_A_line ++ [LF] } true).2.pending_commands_ = [] :=
  ⟨by decide,
   ((C26_not_updatable sample_env_custom (by decide)).2.2 scenario_B_line empty_fs
      blocking_engine { raw_version_information_ := scenario_B_line } true
      (by decide) (by decide) (by decide) (by decide) (Or.inl rfl)).1,
   ((C26_not_updatable sample_env_custom (by decide)).2.2 scenario_B_line empty_fs
      blocking_engine { raw_version_information_ := scenario_B_line } true
      (by decide) (by decide) (by decide) (by decide) (Or.inl rfl)).2,
   ((C26_not_updatable sample_env_custom (by decide)).2.1 empty_fs blocking_engine
      { raw_version_information_ := scenario_A_line ++ [LF] } true).2.2.2.2.1⟩

end Updater
